import Mathlib

/-!
The CernVM-FS RAM cache manager.

A shallow embedding of `cvmfs/cache_ram.cc` (class `RamCacheManager`) over the
partitioned key/value store declared in `cvmfs/kvstore.h`.

* Object ids (`shash::Any`) are natural numbers; payload bytes are natural numbers.
* `uint64_t` arithmetic of `cache_ram.cc` is written with an explicit `% 2^64`.
* A failed `assert` terminates the process: the operation yields `none`.
* Memory allocation (`scalloc`, `realloc`) is taken to succeed.
* The methods of `MemoryKvStore` that `cache_ram.cc` calls are declared and
  documented in `kvstore.h`; their bodies follow that documentation. The byte
  counter and the reference count of a partition are natural numbers.
-/

namespace shash

/-- A content hash (`shash::Any`), represented by a natural number. -/
abbrev Any := Nat

end shash

namespace cache

/-- The enumeration `CacheManager::ObjectType`. -/
inductive ObjectType where
  | kTypeRegular
  | kTypeCatalog
  | kTypePinned
  | kTypeVolatile
deriving DecidableEq, Repr

/-- The errno value `ENOENT`. -/
def ENOENT : Int := 2
/-- The errno value `EEXIST`. -/
def EEXIST : Int := 17
/-- The errno value `ENFILE`. -/
def ENFILE : Int := 23
/-- The errno value `ENOSPC`. -/
def ENOSPC : Int := 28
/-- The errno value `EBADFD`. -/
def EBADFD : Int := 77

/-- The modulus of `uint64_t` arithmetic. -/
def u64 : Nat := 2 ^ 64

/-- Addition of two `uint64_t` values. -/
def add64 (a b : Nat) : Nat := (a + b) % u64

/-- Subtraction of two `uint64_t` values (wraps around below zero). -/
def sub64 (a b : Nat) : Nat := (a + (u64 - b % u64)) % u64

end cache

namespace kvstore

/-- The struct `kvstore::MemoryBuffer` of `kvstore.h`; `address` holds the
bytes of the memory region the pointer refers to. -/
structure MemoryBuffer where
  address : List Nat
  size : Nat
  refcount : Nat
  object_type : cache.ObjectType
deriving DecidableEq, Repr

/-- The entries of an LRU map from ids to buffers, least recently used first. -/
abbrev Entries := List (shash.Any × MemoryBuffer)

/-- The buffer stored under `id`, if any. -/
def lookup (id : shash.Any) : Entries → Option MemoryBuffer
  | [] => none
  | e :: es => if e.1 = id then some e.2 else lookup id es

/-- Removes the entry stored under `id`. -/
def forget (id : shash.Any) : Entries → Entries
  | [] => []
  | e :: es => if e.1 = id then es else e :: forget id es

/-- Replaces the buffer stored under `id` by its image under `f`, in place. -/
def update (id : shash.Any) (f : MemoryBuffer → MemoryBuffer) : Entries → Entries
  | [] => []
  | e :: es => if e.1 = id then (e.1, f e.2) :: es else e :: update id f es

/-- Moves the entry stored under `id` to the most-recently-used end. -/
def touch (id : shash.Any) (es : Entries) : Entries :=
  match lookup id es with
  | some b => forget id es ++ [(id, b)]
  | none => es

/-- The class `kvstore::MemoryKvStore` of `kvstore.h`: the byte counter
`used_bytes_` and the LRU map `entries_`. -/
structure MemoryKvStore where
  used_bytes_ : Nat
  entries_ : Entries
deriving DecidableEq, Repr

namespace MemoryKvStore

/-- The constructor of `MemoryKvStore`: no entries, no bytes used. -/
def empty : MemoryKvStore := ⟨0, []⟩

/-- The inline method `GetUsed` of `kvstore.h`. -/
def GetUsed (s : MemoryKvStore) : Nat := s.used_bytes_

/-- Modelled from the spec: the body of `MemoryKvStore::GetRefcount` as declared
in `kvstore.h` is not among the sources. The reference count, or `-ENOENT`. -/
def GetRefcount (s : MemoryKvStore) (id : shash.Any) : Int :=
  match lookup id s.entries_ with
  | some b => (b.refcount : Int)
  | none => -cache.ENOENT

/-- Modelled from the spec: the body of `MemoryKvStore::IncRef` is not among the
sources. Returns false if the id is absent; otherwise increments the reference
count and returns true. -/
def IncRef (s : MemoryKvStore) (id : shash.Any) : Bool × MemoryKvStore :=
  match lookup id s.entries_ with
  | some _ =>
    (true, { s with entries_ := update id (fun b => { b with refcount := b.refcount + 1 }) s.entries_ })
  | none => (false, s)

/-- Modelled from the spec: the body of `MemoryKvStore::Unref` as documented in
`kvstore.h` is not among the sources. Returns false if the id is absent or its
reference count is already zero; otherwise decrements it and returns true. -/
def Unref (s : MemoryKvStore) (id : shash.Any) : Bool × MemoryKvStore :=
  match lookup id s.entries_ with
  | some b =>
    if b.refcount > 0 then
      (true, { s with entries_ := update id (fun b => { b with refcount := b.refcount - 1 }) s.entries_ })
    else (false, s)
  | none => (false, s)

/-- Modelled from the spec: the body of `MemoryKvStore::Read` as documented in
`kvstore.h` is not among the sources. Copies up to `size` bytes starting at
`offset`, as pread(2) does, and makes the entry the most recently used one.
The result is the byte count (or `-ENOENT`) and the bytes copied. -/
def Read (s : MemoryKvStore) (id : shash.Any) (size offset : Nat) :
    (Int × List Nat) × MemoryKvStore :=
  match lookup id s.entries_ with
  | some b =>
    let copy_size := min (b.size - offset) size
    (((copy_size : Int), (b.address.drop offset).take copy_size),
      { s with entries_ := touch id s.entries_ })
  | none => ((-cache.ENOENT, []), s)

/-- Modelled from the spec: the body of `MemoryKvStore::Commit` as documented in
`kvstore.h` is not among the sources. Fails, changing nothing, if the id is
already present; otherwise inserts the buffer with reference count 0 as the
most recently used entry and adds its size to the byte counter. -/
def Commit (s : MemoryKvStore) (id : shash.Any) (buf : MemoryBuffer) : Bool × MemoryKvStore :=
  match lookup id s.entries_ with
  | some _ => (false, s)
  | none =>
    (true, ⟨s.used_bytes_ + buf.size, s.entries_ ++ [(id, { buf with refcount := 0 })]⟩)

/-- Modelled from the spec: the body of `MemoryKvStore::Delete` as documented in
`kvstore.h` is not among the sources. Removes the entry and subtracts its size
from the byte counter. -/
def Delete (s : MemoryKvStore) (id : shash.Any) : Bool × MemoryKvStore :=
  match lookup id s.entries_ with
  | some b => (true, ⟨s.used_bytes_ - b.size, forget id s.entries_⟩)
  | none => (false, s)

/-- The eviction loop of `ShrinkTo`: walks the entries from the least recently
used one, stops as soon as the byte counter is at most `target`, skips entries
with a positive reference count and removes the others. -/
def shrinkLoop (target : Nat) : Nat → Entries → Nat × Entries
  | used, [] => (used, [])
  | used, e :: es =>
    if used ≤ target then (used, e :: es)
    else if e.2.refcount > 0 then
      ((shrinkLoop target used es).1, e :: (shrinkLoop target used es).2)
    else shrinkLoop target (used - e.2.size) es

/-- Modelled from the spec: the body of `MemoryKvStore::ShrinkTo` as documented
in `kvstore.h` is not among the sources. Removes least-recently-used entries
with reference count 0 until the byte counter is at most `size` or no such
entry remains; succeeds iff the target was met. -/
def ShrinkTo (s : MemoryKvStore) (size : Nat) : Bool × MemoryKvStore :=
  if s.used_bytes_ ≤ size then (true, s)
  else
    (decide ((shrinkLoop size s.used_bytes_ s.entries_).1 ≤ size),
      ⟨(shrinkLoop size s.used_bytes_ s.entries_).1, (shrinkLoop size s.used_bytes_ s.entries_).2⟩)

/-- Modelled from the spec: the body of `MemoryKvStore::GetBuffer` as documented
in `kvstore.h` is not among the sources. Looks the entry up, which makes it the
most recently used one. -/
def GetBuffer (s : MemoryKvStore) (id : shash.Any) : Option MemoryBuffer × MemoryKvStore :=
  match lookup id s.entries_ with
  | some b => (some b, { s with entries_ := touch id s.entries_ })
  | none => (none, s)

/-- Modelled from the spec: the body of `MemoryKvStore::PopBuffer` as documented
in `kvstore.h` is not among the sources. Removes the entry without freeing
its memory, hands the buffer to the caller and subtracts its size from the
byte counter. -/
def PopBuffer (s : MemoryKvStore) (id : shash.Any) : Option MemoryBuffer × MemoryKvStore :=
  match lookup id s.entries_ with
  | some b => (some b, ⟨s.used_bytes_ - b.size, forget id s.entries_⟩)
  | none => (none, s)

end MemoryKvStore

end kvstore

namespace kvstore

/-- The sum of the sizes of the buffers of an entry list. -/
def sumSizes (es : Entries) : Nat := (es.map (fun e => e.2.size)).sum

/-- The accounting invariant of a partition: the byte counter is the sum of
the sizes of its entries. -/
def MemoryKvStore.Accounted (s : MemoryKvStore) : Prop := s.used_bytes_ = sumSizes s.entries_

/-- Every entry of the list has reference count 0. -/
def unreferenced (es : Entries) : Prop := ∀ e ∈ es, e.2.refcount = 0

/-- No id is stored twice in the entry list. -/
def distinctKeys (es : Entries) : Prop := (es.map (fun e => e.1)).Nodup

instance (es : Entries) : Decidable (distinctKeys es) := by
  unfold distinctKeys; infer_instance

instance (s : MemoryKvStore) : Decidable s.Accounted := by
  unfold MemoryKvStore.Accounted; infer_instance

instance (es : Entries) : Decidable (unreferenced es) := by
  unfold unreferenced; infer_instance

end kvstore

namespace cache

open kvstore

/-- Modelled from the spec: the constant `kInvalidHandle` of `cache_ram.h` is
not among the sources. It is the null digest, which marks a free slot of the
handle table. -/
def kInvalidHandle : shash.Any := 0

/-- Modelled from the spec: the constant `kMaxHandles` of `cache_ram.h` is not
among the sources. The hard cap of the handle table. -/
def kMaxHandles : Nat := 8192

/-- Modelled from the spec: the constant `kPageSize` of `cache_ram.h` is not
among the sources. The starting size of a staging buffer of unknown size. -/
def kPageSize : Nat := 4096

/-- Modelled from the spec: the constant `kSizeUnknown` of `cache.h` is not
among the sources. The expected size that stands for "unknown". -/
def kSizeUnknown : Nat := u64 - 1

/-- The struct `RamCacheManager::ReadOnlyFd`: a slot of the handle table. -/
structure ReadOnlyFd where
  handle : shash.Any
  pos : Nat
deriving DecidableEq, Repr

/-- The struct `RamCacheManager::Transaction`: the staging record. -/
structure Transaction where
  buffer : List Nat
  size : Nat
  expected_size : Nat
  pos : Nat
  object_type : ObjectType
  description : String
  id : shash.Any
deriving DecidableEq, Repr

/-- The state of a `RamCacheManager`. -/
structure RamCacheManager where
  max_size_ : Nat
  open_fds_ : List ReadOnlyFd
  pinned_entries_ : MemoryKvStore
  regular_entries_ : MemoryKvStore
  volatile_entries_ : MemoryKvStore
deriving DecidableEq, Repr

namespace RamCacheManager

/-- The constructor: an empty cache with the given size cap. -/
def create (max_size : Nat) : RamCacheManager :=
  ⟨max_size, [], MemoryKvStore.empty, MemoryKvStore.empty, MemoryKvStore.empty⟩

/-- The scan of `AddFd` (lines 25-30): the index of the first free slot. -/
def firstFree : List ReadOnlyFd → Option Nat
  | [] => none
  | e :: es => if e.handle = kInvalidHandle then some 0 else (firstFree es).map (· + 1)

/-- The method `RamCacheManager::AddFd`. -/
def AddFd (m : RamCacheManager) (fd : ReadOnlyFd) : Int × RamCacheManager :=
  match firstFree m.open_fds_ with
  | some i => ((i : Int), { m with open_fds_ := m.open_fds_.set i fd })
  | none =>
    if m.open_fds_.length < kMaxHandles then
      ((m.open_fds_.length : Int), { m with open_fds_ := m.open_fds_ ++ [fd] })
    else (-ENFILE, m)

/-- The assignment `open_fds_[i].handle = kInvalidHandle`. -/
def invalidate (fds : List ReadOnlyFd) (i : Nat) : List ReadOnlyFd :=
  match fds[i]? with
  | some e => fds.set i { e with handle := kInvalidHandle }
  | none => fds

/-- Modelled from the spec: the inline method `IsValid` of `cache_ram.h` is not
among the sources. A descriptor is valid when it indexes a slot of the handle
table that is in use. -/
def IsValid (m : RamCacheManager) (fd : Int) : Bool :=
  if fd < 0 ∨ m.open_fds_.length ≤ fd.toNat then false
  else
    match m.open_fds_[fd.toNat]? with
    | some e => decide (e.handle ≠ kInvalidHandle)
    | none => false

/-- Lines 59-63 of `DoOpen`: the popped buffer is committed to the pinned
partition and referenced once; both steps are asserted to succeed. -/
def promote (m : RamCacheManager) (id : shash.Any) (buf : MemoryBuffer) (fd : Int) :
    Option (Int × RamCacheManager) :=
  if (m.pinned_entries_.Commit id buf).1 then
    if ((m.pinned_entries_.Commit id buf).2.IncRef id).1 then
      some (fd, { m with pinned_entries_ := ((m.pinned_entries_.Commit id buf).2.IncRef id).2 })
    else none
  else none

/-- The method `RamCacheManager::DoOpen`. -/
def DoOpen (m : RamCacheManager) (id : shash.Any) : Option (Int × RamCacheManager) :=
  let fd := (m.AddFd ⟨id, 0⟩).1
  let m1 := (m.AddFd ⟨id, 0⟩).2
  if fd < 0 then some (fd, m1)
  else if (m1.pinned_entries_.IncRef id).1 then
    some (fd, { m1 with pinned_entries_ := (m1.pinned_entries_.IncRef id).2 })
  else
    match m1.regular_entries_.PopBuffer id with
    | (some buf, regular) => promote { m1 with regular_entries_ := regular } id buf fd
    | (none, _) =>
      match m1.volatile_entries_.PopBuffer id with
      | (some buf, vol) => promote { m1 with volatile_entries_ := vol } id buf fd
      | (none, _) => some (-ENOENT, { m1 with open_fds_ := invalidate m1.open_fds_ fd.toNat })

/-- The method `RamCacheManager::Open`. -/
def Open (m : RamCacheManager) (id : shash.Any) : Option (Int × RamCacheManager) :=
  m.DoOpen id

/-- The loop of lines 119-120 of `Close`: the index is decremented while the
slot is in use. Decrementing the unsigned index 0 leaves the table, which is
undefined behaviour (`none`). -/
def sweepLoop (fds : List ReadOnlyFd) : Nat → Option Nat
  | 0 =>
    match fds[0]? with
    | some e => if e.handle ≠ kInvalidHandle then none else some 0
    | none => none
  | i + 1 =>
    match fds[i + 1]? with
    | some e => if e.handle ≠ kInvalidHandle then sweepLoop fds i else some (i + 1)
    | none => none

/-- The switch of lines 95-112 of `Close`: an object of type regular or
volatile is popped from the pinned partition and committed to its own
partition, both steps asserted; other types stay in the pinned partition. -/
def demote (m : RamCacheManager) (pinned : MemoryKvStore) (id : shash.Any)
    (object_type : ObjectType) : Option RamCacheManager :=
  match object_type with
  | ObjectType.kTypeRegular =>
    match pinned.PopBuffer id with
    | (some buf, pinned1) =>
      if (m.regular_entries_.Commit id buf).1 then
        some { m with pinned_entries_ := pinned1,
                      regular_entries_ := (m.regular_entries_.Commit id buf).2 }
      else none
    | (none, _) => none
  | ObjectType.kTypeVolatile =>
    match pinned.PopBuffer id with
    | (some buf, pinned1) =>
      if (m.volatile_entries_.Commit id buf).1 then
        some { m with pinned_entries_ := pinned1,
                      volatile_entries_ := (m.volatile_entries_.Commit id buf).2 }
      else none
    | (none, _) => none
  | ObjectType.kTypePinned => some { m with pinned_entries_ := pinned }
  | ObjectType.kTypeCatalog => some { m with pinned_entries_ := pinned }

/-- Lines 113-122 of `Close`: the slot is marked free; if it is the last slot
of the table the sweep loop runs and the table is resized. -/
def releaseFd (m : RamCacheManager) (fd : Int) : Option (Int × RamCacheManager) :=
  let fds := invalidate m.open_fds_ fd.toNat
  if fd.toNat = fds.length - 1 then
    match sweepLoop fds (fds.length - 1) with
    | some last_good_idx => some (0, { m with open_fds_ := fds.take (last_good_idx + 1) })
    | none => none
  else some (0, { m with open_fds_ := fds })

/-- The method `RamCacheManager::Close`. -/
def Close (m : RamCacheManager) (fd : Int) : Option (Int × RamCacheManager) :=
  if !m.IsValid fd then some (-EBADFD, m)
  else
    match m.open_fds_[fd.toNat]? with
    | none => none
    | some file_descriptor =>
      match m.pinned_entries_.GetBuffer file_descriptor.handle with
      | (none, _) => none
      | (some buf, pinned1) =>
        if (pinned1.Unref file_descriptor.handle).1 then
          if (pinned1.Unref file_descriptor.handle).2.GetRefcount file_descriptor.handle = 0 then
            match demote m (pinned1.Unref file_descriptor.handle).2 file_descriptor.handle
                buf.object_type with
            | some m2 => releaseFd m2 fd
            | none => none
          else some (0, { m with pinned_entries_ := (pinned1.Unref file_descriptor.handle).2 })
        else none

/-- The method `RamCacheManager::Pread`: the return value, the bytes copied to
the destination and the state afterwards. -/
def Pread (m : RamCacheManager) (fd : Int) (size offset : Nat) :
    (Int × List Nat) × RamCacheManager :=
  if !m.IsValid fd then ((-EBADFD, []), m)
  else
    match m.open_fds_[fd.toNat]? with
    | some e =>
      ((m.pinned_entries_.Read e.handle size offset).1,
        { m with pinned_entries_ := (m.pinned_entries_.Read e.handle size offset).2 })
    | none => ((-EBADFD, []), m)

/-- The method `RamCacheManager::Dup`. -/
def Dup (m : RamCacheManager) (fd : Int) : Option (Int × RamCacheManager) :=
  if !m.IsValid fd then some (-EBADFD, m)
  else
    match m.open_fds_[fd.toNat]? with
    | none => none
    | some file_descriptor =>
      if (m.pinned_entries_.IncRef file_descriptor.handle).1 then
        some (AddFd { m with pinned_entries_ := (m.pinned_entries_.IncRef file_descriptor.handle).2 }
          file_descriptor)
      else none

/-- The method `RamCacheManager::Readahead`. -/
def Readahead (m : RamCacheManager) (fd : Int) : Int :=
  if !m.IsValid fd then -EBADFD else 0

/-- The method `RamCacheManager::StartTxn`; it returns 0. The constructor of
`Transaction` is not among the sources: the record starts with the type
regular and an empty description. `scalloc` yields zeroed memory. -/
def StartTxn (id : shash.Any) (size : Nat) : Transaction :=
  { id := id
    pos := 0
    expected_size := size
    size := if size = kSizeUnknown then kPageSize else size
    buffer := List.replicate (if size = kSizeUnknown then kPageSize else size) 0
    object_type := ObjectType.kTypeRegular
    description := "" }

/-- The method `RamCacheManager::CtrlTxn`. -/
def CtrlTxn (description : String) (type : ObjectType) (_flags : Int) (t : Transaction) :
    Transaction :=
  { t with description := description, object_type := type }

/-- The method `RamCacheManager::Write`: `size` bytes of `buf` are to be
written. Memory gained by `realloc` is modelled as zero bytes. -/
def Write (buf : List Nat) (size : Nat) (t : Transaction) : Int × Transaction :=
  if add64 t.pos size > t.size then
    if t.expected_size = kSizeUnknown then
      let size1 := max (2 * t.size % u64) (add64 size t.pos)
      let buffer1 := (t.buffer ++ List.replicate (size1 - t.buffer.length) 0).take size1
      let copy_size := min size (sub64 size1 t.pos)
      ((copy_size : Int),
        { t with size := size1
                 buffer := buffer1.take t.pos ++ buf.take copy_size ++ buffer1.drop (t.pos + copy_size)
                 pos := add64 t.pos copy_size })
    else (-ENOSPC, t)
  else
    let copy_size := min size (sub64 t.size t.pos)
    ((copy_size : Int),
      { t with buffer := t.buffer.take t.pos ++ buf.take copy_size ++ t.buffer.drop (t.pos + copy_size)
               pos := add64 t.pos copy_size })

/-- The method `RamCacheManager::Reset`; it returns 0. -/
def Reset (t : Transaction) : Transaction := { t with pos := 0 }

/-- Lines 244-253 of `CommitToKvStore`: the memory buffer made from the
transaction. For an unknown size `realloc(buf.address, pos)` is taken to
return the buffer cut to `pos` bytes; what the C library returns for the
size 0 is left to it, and the exit `return -errno` of line 248 for a `NULL`
result is not part of the model. -/
def txnBuffer (t : Transaction) : MemoryBuffer :=
  if t.expected_size = kSizeUnknown then
    { address := t.buffer.take t.pos, size := t.pos, refcount := 0, object_type := t.object_type }
  else
    { address := t.buffer, size := t.size, refcount := 0, object_type := t.object_type }

/-- Lines 277-289 of `CommitToKvStore`: the commit into the partition that
matches the object type. -/
def commitSwitch (m : RamCacheManager) (id : shash.Any) (buf : MemoryBuffer) :
    Int × RamCacheManager :=
  match buf.object_type with
  | ObjectType.kTypeRegular =>
    if (m.regular_entries_.Commit id buf).1 then
      (0, { m with regular_entries_ := (m.regular_entries_.Commit id buf).2 })
    else (-EEXIST, m)
  | ObjectType.kTypeVolatile =>
    if (m.volatile_entries_.Commit id buf).1 then
      (0, { m with volatile_entries_ := (m.volatile_entries_.Commit id buf).2 })
    else (-EEXIST, m)
  | ObjectType.kTypePinned =>
    if (m.pinned_entries_.Commit id buf).1 then
      (0, { m with pinned_entries_ := (m.pinned_entries_.Commit id buf).2 })
    else (-EEXIST, m)
  | ObjectType.kTypeCatalog =>
    if (m.pinned_entries_.Commit id buf).1 then
      (0, { m with pinned_entries_ := (m.pinned_entries_.Commit id buf).2 })
    else (-EEXIST, m)

/-- The method `RamCacheManager::CommitToKvStore`, for a call in which
`realloc` (line 247) returns the buffer. -/
def CommitToKvStore (m : RamCacheManager) (t : Transaction) : Option (Int × RamCacheManager) :=
  let buf := txnBuffer t
  let pinned_size := m.pinned_entries_.GetUsed
  let regular_size := m.regular_entries_.GetUsed
  let volatile_size := m.volatile_entries_.GetUsed
  let total_size := add64 (add64 (add64 pinned_size regular_size) volatile_size) buf.size
  if total_size > m.max_size_ then
    if add64 (add64 pinned_size regular_size) buf.size ≤ m.max_size_ then
      match m.volatile_entries_.ShrinkTo (sub64 volatile_size (sub64 total_size m.max_size_)) with
      | (true, vol) => some (commitSwitch { m with volatile_entries_ := vol } t.id buf)
      | (false, _) => none
    else if add64 pinned_size buf.size ≤ m.max_size_ then
      match m.volatile_entries_.ShrinkTo 0 with
      | (true, vol) =>
        match m.regular_entries_.ShrinkTo
            (add64 (sub64 regular_size (sub64 total_size m.max_size_)) volatile_size) with
        | (true, regular) =>
          some (commitSwitch { m with volatile_entries_ := vol, regular_entries_ := regular } t.id buf)
        | (false, _) => none
      | (false, _) => none
    else some (-ENOSPC, m)
  else some (commitSwitch m t.id buf)

/-- The method `RamCacheManager::CommitTxn`. -/
def CommitTxn (m : RamCacheManager) (t : Transaction) : Option (Int × RamCacheManager) :=
  m.CommitToKvStore t

/-- The method `RamCacheManager::OpenFromTxn`. -/
def OpenFromTxn (m : RamCacheManager) (t : Transaction) : Option (Int × RamCacheManager) :=
  match m.CommitToKvStore t with
  | some (retval, m1) => if retval < 0 then some (retval, m1) else m1.DoOpen t.id
  | none => none

/-- The method `RamCacheManager::AbortTxn`; it returns 0 and frees the buffer. -/
def AbortTxn (_t : Transaction) : Int := 0

end RamCacheManager

end cache

namespace cache

open kvstore

/-- The calls of the cache manager that change the cache. -/
inductive Call where
  | CommitTxn (t : Transaction)
  | OpenFromTxn (t : Transaction)
  | Open (id : shash.Any)
  | Dup (fd : Int)
  | Close (fd : Int)

namespace RamCacheManager

/-- One call on the cache manager: the return value and the state afterwards,
or `none` when an assertion fails. -/
def call (m : RamCacheManager) : Call → Option (Int × RamCacheManager)
  | Call.CommitTxn t => m.CommitTxn t
  | Call.OpenFromTxn t => m.OpenFromTxn t
  | Call.Open id => m.Open id
  | Call.Dup fd => m.Dup fd
  | Call.Close fd => m.Close fd

/-- The sum of the byte counters of the three partitions. -/
def usedTotal (m : RamCacheManager) : Nat :=
  m.pinned_entries_.GetUsed + m.regular_entries_.GetUsed + m.volatile_entries_.GetUsed

/-- The staging buffer of a committed transaction and the cached payloads are
live allocations of one process, so their sizes add up to less than `2^64`. -/
def Allocated (m : RamCacheManager) : Call → Prop
  | Call.CommitTxn t => m.usedTotal + (txnBuffer t).size < u64
  | Call.OpenFromTxn t => m.usedTotal + (txnBuffer t).size < u64
  | _ => True

instance (m : RamCacheManager) (c : Call) : Decidable (Allocated m c) := by
  cases c <;> unfold Allocated <;> infer_instance

/-- The states reached from the empty cache of cap `M` by calls that return
(no assertion fails), every commit being `Allocated`. -/
inductive Reachable (M : Nat) : RamCacheManager → Prop
  | init : Reachable M (create M)
  | step {m m1 : RamCacheManager} {c : Call} {r : Int} :
      Reachable M m → m.call c = some (r, m1) → Allocated m c → Reachable M m1

/-- A sequence of calls from state `m`: the state after the last call, or
`none` when a call fails an assertion or its buffer is not `Allocated`. -/
def run (m : RamCacheManager) : List Call → Option RamCacheManager
  | [] => some m
  | c :: cs =>
    if Allocated m c then
      match m.call c with
      | some (_, m1) => run m1 cs
      | none => none
    else none

/-- A transaction for `id` of known size `n` and type `ty`, filled with `n`
bytes of value 65. -/
def filledTxn (id : shash.Any) (n : Nat) (ty : ObjectType) : Transaction :=
  (Write (List.replicate n 65) n (CtrlTxn "" ty 0 (StartTxn id n))).2

/-- The id is stored in the partition. -/
def present (s : MemoryKvStore) (id : shash.Any) : Prop := lookup id s.entries_ ≠ none

instance (s : MemoryKvStore) (id : shash.Any) : Decidable (present s id) := by
  unfold present; infer_instance

end RamCacheManager

end cache

namespace cache

open kvstore RamCacheManager

/-- A payload of `n` bytes of value 65. -/
def payload (n : Nat) : List Nat := List.replicate n 65

/-- The cache of cap 1000 that holds the regular 10-byte object 1 in the
regular partition. -/
def oneRegular : RamCacheManager :=
  { max_size_ := 1000
    open_fds_ := []
    pinned_entries_ := ⟨0, []⟩
    regular_entries_ := ⟨10, [(1, ⟨payload 10, 10, 0, ObjectType.kTypeRegular⟩)]⟩
    volatile_entries_ := ⟨0, []⟩ }

/-- The cache `oneRegular` after object 1 was opened once. -/
def onceOpened : RamCacheManager :=
  { max_size_ := 1000
    open_fds_ := [⟨1, 0⟩]
    pinned_entries_ := ⟨10, [(1, ⟨payload 10, 10, 1, ObjectType.kTypeRegular⟩)]⟩
    regular_entries_ := ⟨0, []⟩
    volatile_entries_ := ⟨0, []⟩ }

/-- The cache `oneRegular` after object 1 was opened twice. -/
def twiceOpened : RamCacheManager :=
  { max_size_ := 1000
    open_fds_ := [⟨1, 0⟩, ⟨1, 0⟩]
    pinned_entries_ := ⟨10, [(1, ⟨payload 10, 10, 2, ObjectType.kTypeRegular⟩)]⟩
    regular_entries_ := ⟨0, []⟩
    volatile_entries_ := ⟨0, []⟩ }

/-- The cache `twiceOpened` with the reference count of object 1 lowered to 1
and the handle table as it was. -/
def twiceOpenedClosedOnce : RamCacheManager :=
  { max_size_ := 1000
    open_fds_ := [⟨1, 0⟩, ⟨1, 0⟩]
    pinned_entries_ := ⟨10, [(1, ⟨payload 10, 10, 1, ObjectType.kTypeRegular⟩)]⟩
    regular_entries_ := ⟨0, []⟩
    volatile_entries_ := ⟨0, []⟩ }

/-- The cache `oneRegular` with a handle table of one free slot. -/
def oneRegularFreeSlot : RamCacheManager :=
  { max_size_ := 1000
    open_fds_ := [⟨kInvalidHandle, 0⟩]
    pinned_entries_ := ⟨0, []⟩
    regular_entries_ := ⟨10, [(1, ⟨payload 10, 10, 0, ObjectType.kTypeRegular⟩)]⟩
    volatile_entries_ := ⟨0, []⟩ }

/-- The cache of cap 1000 that holds object 1 both in the regular and in the
volatile partition. -/
def storedTwice : RamCacheManager :=
  { max_size_ := 1000
    open_fds_ := []
    pinned_entries_ := ⟨0, []⟩
    regular_entries_ := ⟨10, [(1, ⟨payload 10, 10, 0, ObjectType.kTypeRegular⟩)]⟩
    volatile_entries_ := ⟨10, [(1, ⟨payload 10, 10, 0, ObjectType.kTypeVolatile⟩)]⟩ }

/-- The cache `onceOpened` after object 1 was committed a second time as a
regular object while it was open. -/
def openAndStored : RamCacheManager :=
  { max_size_ := 1000
    open_fds_ := [⟨1, 0⟩]
    pinned_entries_ := ⟨10, [(1, ⟨payload 10, 10, 1, ObjectType.kTypeRegular⟩)]⟩
    regular_entries_ := ⟨10, [(1, ⟨payload 10, 10, 0, ObjectType.kTypeRegular⟩)]⟩
    volatile_entries_ := ⟨0, []⟩ }

/-- Scenario 2 of the spec before the last commit: cap 1000, the regular
objects 1 (400 bytes) and 4 (50 bytes), the volatile objects 2 (300 bytes) and
3 (200 bytes). -/
def cascadeStart : RamCacheManager :=
  { max_size_ := 1000
    open_fds_ := []
    pinned_entries_ := ⟨0, []⟩
    regular_entries_ := ⟨450, [(1, ⟨payload 400, 400, 0, ObjectType.kTypeRegular⟩),
      (4, ⟨payload 50, 50, 0, ObjectType.kTypeRegular⟩)]⟩
    volatile_entries_ := ⟨500, [(2, ⟨payload 300, 300, 0, ObjectType.kTypeVolatile⟩),
      (3, ⟨payload 200, 200, 0, ObjectType.kTypeVolatile⟩)]⟩ }

/-- Scenario 2 of the spec after the volatile object 5 (200 bytes) was
committed: the oldest volatile object 2 is gone. -/
def cascadeEnd : RamCacheManager :=
  { max_size_ := 1000
    open_fds_ := []
    pinned_entries_ := ⟨0, []⟩
    regular_entries_ := ⟨450, [(1, ⟨payload 400, 400, 0, ObjectType.kTypeRegular⟩),
      (4, ⟨payload 50, 50, 0, ObjectType.kTypeRegular⟩)]⟩
    volatile_entries_ := ⟨400, [(3, ⟨payload 200, 200, 0, ObjectType.kTypeVolatile⟩),
      (5, ⟨payload 200, 200, 0, ObjectType.kTypeVolatile⟩)]⟩ }

/-- Scenario 3 of the spec before the last commit: cap 1000, the regular
object 1 (400 bytes) is open and therefore in the pinned partition. -/
def pinnedOpen : RamCacheManager :=
  { max_size_ := 1000
    open_fds_ := [⟨1, 0⟩]
    pinned_entries_ := ⟨400, [(1, ⟨payload 400, 400, 1, ObjectType.kTypeRegular⟩)]⟩
    regular_entries_ := ⟨0, []⟩
    volatile_entries_ := ⟨0, []⟩ }

/-- A cache of cap 100 with the volatile object 1 (60 bytes) and the regular
object 2 (30 bytes). -/
def fullCold : RamCacheManager :=
  { max_size_ := 100
    open_fds_ := []
    pinned_entries_ := ⟨0, []⟩
    regular_entries_ := ⟨30, [(2, ⟨payload 30, 30, 0, ObjectType.kTypeRegular⟩)]⟩
    volatile_entries_ := ⟨60, [(1, ⟨payload 60, 60, 0, ObjectType.kTypeVolatile⟩)]⟩ }

/-- The cache `fullCold` after the volatile object 1 was evicted. -/
def fullColdEvicted : RamCacheManager :=
  { max_size_ := 100
    open_fds_ := []
    pinned_entries_ := ⟨0, []⟩
    regular_entries_ := ⟨30, [(2, ⟨payload 30, 30, 0, ObjectType.kTypeRegular⟩)]⟩
    volatile_entries_ := ⟨0, []⟩ }

/-- The empty cache of cap 1000 with a handle table of one free slot. -/
def emptyFreeSlot : RamCacheManager :=
  { max_size_ := 1000
    open_fds_ := [⟨kInvalidHandle, 0⟩]
    pinned_entries_ := ⟨0, []⟩
    regular_entries_ := ⟨0, []⟩
    volatile_entries_ := ⟨0, []⟩ }

/-- A partition is well formed when no id is stored twice and the byte counter
is the sum of the sizes of the entries. -/
def wellFormedStore (s : MemoryKvStore) : Prop := distinctKeys s.entries_ ∧ s.Accounted

/-- A cache state is well formed when its three partitions are. -/
structure WellFormed (m : RamCacheManager) : Prop where
  pinned : wellFormedStore m.pinned_entries_
  regular : wellFormedStore m.regular_entries_
  volatile_ok : wellFormedStore m.volatile_entries_

/-- The handle table has a free slot or can be extended. -/
def HasRoom (m : RamCacheManager) : Prop :=
  (∃ e ∈ m.open_fds_, e.handle = kInvalidHandle) ∨ m.open_fds_.length < kMaxHandles

/-- The increment of the reference count applied by `IncRef`. -/
def incRef (b : MemoryBuffer) : MemoryBuffer := { b with refcount := b.refcount + 1 }

/-- A regular 500-byte object 1 in a cache of cap 1000 (scenario 1 of the
spec after the commit). -/
def regular500 : RamCacheManager :=
  { max_size_ := 1000
    open_fds_ := []
    pinned_entries_ := ⟨0, []⟩
    regular_entries_ := ⟨500, [(1, ⟨payload 500, 500, 0, ObjectType.kTypeRegular⟩)]⟩
    volatile_entries_ := ⟨0, []⟩ }

/-- Scenario 1 of the spec after `Open`: object 1 is pinned with one reference. -/
def pinned500 : RamCacheManager :=
  { max_size_ := 1000
    open_fds_ := [⟨1, 0⟩]
    pinned_entries_ := ⟨500, [(1, ⟨payload 500, 500, 1, ObjectType.kTypeRegular⟩)]⟩
    regular_entries_ := ⟨0, []⟩
    volatile_entries_ := ⟨0, []⟩ }

/-- The id `x` is stored with buffer `b` in the partition that `CommitToKvStore`
chooses for the object type, and in no other partition. -/
def StoredAs (m : RamCacheManager) (x : shash.Any) (b : MemoryBuffer) : ObjectType → Prop
  | ObjectType.kTypeRegular =>
    lookup x m.pinned_entries_.entries_ = none ∧ lookup x m.regular_entries_.entries_ = some b ∧
      lookup x m.volatile_entries_.entries_ = none
  | ObjectType.kTypeVolatile =>
    lookup x m.pinned_entries_.entries_ = none ∧ lookup x m.regular_entries_.entries_ = none ∧
      lookup x m.volatile_entries_.entries_ = some b
  | ObjectType.kTypePinned =>
    lookup x m.pinned_entries_.entries_ = some b ∧ lookup x m.regular_entries_.entries_ = none ∧
      lookup x m.volatile_entries_.entries_ = none
  | ObjectType.kTypeCatalog =>
    lookup x m.pinned_entries_.entries_ = some b ∧ lookup x m.regular_entries_.entries_ = none ∧
      lookup x m.volatile_entries_.entries_ = none

/-- The invariant behind the size bound: the cap is `M`, every partition
accounts for its entries, and the byte counters add up to at most `M`. -/
structure Bounded (M : Nat) (m : RamCacheManager) : Prop where
  cap : m.max_size_ = M
  pinned : m.pinned_entries_.Accounted
  regular : m.regular_entries_.Accounted
  volatile_ok : m.volatile_entries_.Accounted
  bound : m.usedTotal ≤ M

/-- The eviction cascade and the commit of `CommitToKvStore` written with exact
arithmetic: the form the method takes when the total does not overflow. -/
def commitExact (m : RamCacheManager) (t : Transaction) : Option (Int × RamCacheManager) :=
  if m.usedTotal + (txnBuffer t).size > m.max_size_ then
    if m.pinned_entries_.used_bytes_ + m.regular_entries_.used_bytes_ + (txnBuffer t).size
        ≤ m.max_size_ then
      match m.volatile_entries_.ShrinkTo (m.max_size_ - m.pinned_entries_.used_bytes_
          - m.regular_entries_.used_bytes_ - (txnBuffer t).size) with
      | (true, vol) => some (commitSwitch { m with volatile_entries_ := vol } t.id (txnBuffer t))
      | (false, _) => none
    else if m.pinned_entries_.used_bytes_ + (txnBuffer t).size ≤ m.max_size_ then
      match m.volatile_entries_.ShrinkTo 0 with
      | (true, vol) =>
        match m.regular_entries_.ShrinkTo
            (m.max_size_ - m.pinned_entries_.used_bytes_ - (txnBuffer t).size) with
        | (true, regular) =>
          some (commitSwitch { m with volatile_entries_ := vol, regular_entries_ := regular }
            t.id (txnBuffer t))
        | (false, _) => none
      | (false, _) => none
    else some (-ENOSPC, m)
  else some (commitSwitch m t.id (txnBuffer t))

end cache


namespace cache

open kvstore RamCacheManager

/-- The number of in-use slots of the handle table that map to `id`. -/
def handleCount (m : RamCacheManager) (id : shash.Any) : Nat :=
  (m.open_fds_.filter (fun e => decide (e.handle = id ∧ e.handle ≠ kInvalidHandle))).length

/-- The cache `twiceOpened` after `Close 0` and `Close 1`: object 1 is back in
the regular partition, slot 0 still maps to object 1. -/
def twiceOpenedClosedBoth : RamCacheManager :=
  { max_size_ := 1000
    open_fds_ := [⟨1, 0⟩, ⟨kInvalidHandle, 0⟩]
    pinned_entries_ := ⟨0, []⟩
    regular_entries_ := ⟨10, [(1, ⟨payload 10, 10, 0, ObjectType.kTypeRegular⟩)]⟩
    volatile_entries_ := ⟨0, []⟩ }

/-- The invariant of the reachable states beside the byte accounting: no id
twice in a partition, cold entries unreferenced, and every cold entry in the
partition of its type. -/
structure Sound (m : RamCacheManager) : Prop where
  pinnedKeys : distinctKeys m.pinned_entries_.entries_
  regularKeys : distinctKeys m.regular_entries_.entries_
  volatileKeys : distinctKeys m.volatile_entries_.entries_
  regularCold : unreferenced m.regular_entries_.entries_
  volatileCold : unreferenced m.volatile_entries_.entries_
  regularTyped : ∀ e ∈ m.regular_entries_.entries_, e.2.object_type = ObjectType.kTypeRegular
  volatileTyped : ∀ e ∈ m.volatile_entries_.entries_, e.2.object_type = ObjectType.kTypeVolatile

end cache

namespace cache

open kvstore RamCacheManager

/-- The states reached from the empty cache of cap `M` by any calls that return
(no assertion fails). -/
inductive ReachedByCalls (M : Nat) : RamCacheManager → Prop
  | init : ReachedByCalls M (create M)
  | step {m m1 : RamCacheManager} {c : Call} {r : Int} :
      ReachedByCalls M m → m.call c = some (r, m1) → ReachedByCalls M m1

/-- Every partition accounts for its entries: the byte counter is the sum of
the sizes of the entries. -/
structure Accounts (m : RamCacheManager) : Prop where
  pinned : m.pinned_entries_.Accounted
  regular : m.regular_entries_.Accounted
  volatile_ok : m.volatile_entries_.Accounted

/-- Scenario 1 of the spec after `Close`: object 1 is back in the regular
partition and slot 0 is free. -/
def closed500 : RamCacheManager :=
  { max_size_ := 1000
    open_fds_ := [⟨kInvalidHandle, 0⟩]
    pinned_entries_ := ⟨0, []⟩
    regular_entries_ := ⟨500, [(1, ⟨payload 500, 500, 0, ObjectType.kTypeRegular⟩)]⟩
    volatile_entries_ := ⟨0, []⟩ }

end cache

namespace cache

open kvstore RamCacheManager

/-- The transactions that `StartTxn id size` and any later `CtrlTxn`, `Write`
and `Reset` calls produce. -/
inductive Started (id : shash.Any) (size : Nat) : Transaction → Prop
  | start : Started id size (StartTxn id size)
  | ctrl {t : Transaction} (description : String) (type : ObjectType) (flags : Int) :
      Started id size t → Started id size (CtrlTxn description type flags t)
  | write {t : Transaction} (buf : List Nat) (n : Nat) :
      Started id size t → Started id size (Write buf n t).2
  | reset {t : Transaction} : Started id size t → Started id size (Reset t)

end cache

/-! The older partition implementation `cvmfs/kvstore.cc`. Its class has the
members `Entries` (an LRU cache) and `used_bytes` and the methods `Lookup`,
`GetSize`, `GetRefcount`, `Ref`, `Unref`, `Pread`, `Commit` and `Delete`. -/

namespace kvstore_cc

/-- The fields of `MemoryBuffer` that `kvstore.cc` reads and writes; `address`
holds the bytes of the memory region the pointer refers to. -/
structure MemoryBuffer where
  address : List Nat
  size : Nat
  refcount : Nat
deriving DecidableEq, Repr

/-- The entries of `lru::MemoryCache`, least recently used first. -/
abbrev MemoryCache := List (shash.Any × MemoryBuffer)

/-- The value stored under `hash`, if any. -/
def find (hash : shash.Any) : MemoryCache → Option MemoryBuffer
  | [] => none
  | e :: es => if e.1 = hash then some e.2 else find hash es

/-- The cache without the entry stored under `hash`. -/
def remove (hash : shash.Any) : MemoryCache → MemoryCache
  | [] => []
  | e :: es => if e.1 = hash then es else e :: remove hash es

/-- Modelled from the spec: `lru.h` is not among the sources. The method
`MemoryCache::Lookup` (kvstore.cc lines 101-106) copies the value out and
makes the entry the most recently used one. -/
def MemoryCache.Lookup (c : MemoryCache) (hash : shash.Any) : Option MemoryBuffer × MemoryCache :=
  match find hash c with
  | some b => (some b, remove hash c ++ [(hash, b)])
  | none => (none, c)

/-- Modelled from the spec: `lru.h` is not among the sources. The method
`MemoryCache::Insert` (kvstore.cc lines 94-99) stores the value under the key
as the most recently used entry, replacing a value already there. -/
def MemoryCache.Insert (c : MemoryCache) (hash : shash.Any) (buf : MemoryBuffer) : MemoryCache :=
  remove hash c ++ [(hash, buf)]

/-- Modelled from the spec: `lru.h` is not among the sources. The method
`MemoryCache::Forget` (kvstore.cc lines 108-113) removes the entry and tells
whether it was there. -/
def MemoryCache.Forget (c : MemoryCache) (hash : shash.Any) : Bool × MemoryCache :=
  match find hash c with
  | some _ => (true, remove hash c)
  | none => (false, c)

/-- The conversion of a `uint64_t` value to the return type `int64_t`. -/
def toInt64 (n : Nat) : Int :=
  if n % 2 ^ 64 < 2 ^ 63 then ((n % 2 ^ 64 : Nat) : Int) else ((n % 2 ^ 64 : Nat) : Int) - 2 ^ 64

/-- The class `MemoryKvStore` as `kvstore.cc` uses it. -/
structure MemoryKvStore where
  used_bytes : Nat
  Entries : MemoryCache
deriving DecidableEq, Repr

namespace MemoryKvStore

/-- The store without entries. -/
def empty : MemoryKvStore := ⟨0, []⟩

/-- The method `MemoryKvStore::Lookup` (kvstore.cc lines 8-12): the buffer
copied to `*mem`, if the id is found, and the store afterwards. -/
def Lookup (s : MemoryKvStore) (id : shash.Any) : Option MemoryBuffer × MemoryKvStore :=
  ((s.Entries.Lookup id).1, { s with Entries := (s.Entries.Lookup id).2 })

/-- The method `MemoryKvStore::GetRefcount` (kvstore.cc lines 23-30). -/
def GetRefcount (s : MemoryKvStore) (id : shash.Any) : Int × MemoryKvStore :=
  match s.Lookup id with
  | (some mem, s1) => ((mem.refcount : Int), s1)
  | (none, s1) => (-cache.ENOENT, s1)

/-- The method `MemoryKvStore::Ref` (kvstore.cc lines 32-41). The increment
`++mem.refcount` changes the local copy `mem`, which is dropped on return. -/
def Ref (s : MemoryKvStore) (id : shash.Any) : Bool × MemoryKvStore :=
  match s.Lookup id with
  | (some mem, s1) =>
    let _mem : MemoryBuffer := { mem with refcount := (mem.refcount + 1) % 2 ^ 32 }
    (true, s1)
  | (none, s1) => (false, s1)

/-- The method `MemoryKvStore::Unref` (kvstore.cc lines 43-51). The decrement
`--mem.refcount` changes the local copy `mem`, which is dropped on return. -/
def Unref (s : MemoryKvStore) (id : shash.Any) : Bool × MemoryKvStore :=
  match s.Lookup id with
  | (some mem, s1) =>
    if mem.refcount > 0 then
      let _mem : MemoryBuffer := { mem with refcount := mem.refcount - 1 }
      (true, s1)
    else (false, s1)
  | (none, s1) => (false, s1)

/-- The method `MemoryKvStore::Pread` (kvstore.cc lines 53-62): the return
value, the bytes copied to `buf`, and the store afterwards. The count is
computed in `uint64_t`; bytes past the end of the payload are not modelled. -/
def Pread (s : MemoryKvStore) (id : shash.Any) (size offset : Nat) :
    (Int × List Nat) × MemoryKvStore :=
  match s.Lookup id with
  | (some mem, s1) =>
    let copy_size := min (cache.sub64 mem.size offset) size
    ((toInt64 copy_size, (mem.address.drop offset).take copy_size), s1)
  | (none, s1) => ((-cache.ENOENT, []), s1)

/-- The method `MemoryKvStore::Delete` (kvstore.cc lines 80-89). -/
def Delete (s : MemoryKvStore) (id : shash.Any) : Bool × MemoryKvStore :=
  match s.Lookup id with
  | (some mem, s1) =>
    (true, ⟨cache.sub64 s1.used_bytes mem.size, (s1.Entries.Forget id).2⟩)
  | (none, s1) => (false, s1)

/-- The method `MemoryKvStore::Commit` (kvstore.cc lines 65-78): it returns
`existed`. -/
def Commit (s : MemoryKvStore) (id : shash.Any) (buf : List Nat) (size : Nat) :
    Bool × MemoryKvStore :=
  let existed := ((s.Lookup id).1).isSome
  let s1 := if existed then ((s.Lookup id).2.Delete id).2 else (s.Lookup id).2
  (existed, ⟨cache.add64 s1.used_bytes size, s1.Entries.Insert id ⟨buf, size, 0⟩⟩)

end MemoryKvStore

/-- The sum of the sizes of the buffers of a cache. -/
def sumSizes (c : MemoryCache) : Nat := (c.map (fun e => e.2.size)).sum

/-- The calls of `kvstore.cc` that change the byte counter. -/
inductive Op where
  | Commit (id : shash.Any) (buf : List Nat) (size : Nat)
  | Delete (id : shash.Any)

/-- One call on the store: the store afterwards. -/
def apply (s : MemoryKvStore) : Op → MemoryKvStore
  | Op.Commit id buf size => (s.Commit id buf size).2
  | Op.Delete id => (s.Delete id).2

/-- The committed buffer and the stored payloads are live allocations of one
process, so their sizes add up to less than `2^64`. -/
def Allocated (s : MemoryKvStore) : Op → Prop
  | Op.Commit _ _ size => sumSizes s.Entries + size < cache.u64
  | Op.Delete _ => True

/-- The stores reached from the empty store by `Commit` and `Delete` calls,
every commit being `Allocated`. -/
inductive Reachable : MemoryKvStore → Prop
  | init : Reachable MemoryKvStore.empty
  | step {s : MemoryKvStore} (op : Op) : Reachable s → Allocated s op → Reachable (apply s op)

/-- The store after the 3-byte buffer of id 1 was committed to the empty store. -/
def oneEntry : MemoryKvStore := (MemoryKvStore.empty.Commit 1 [7, 8, 9] 3).2

end kvstore_cc

/-! The demo cache plugin `cvmfs/cache_plugin/cvmfs_cache_ram.cc`. -/

namespace cache_plugin

/-- Modelled from the spec: `libcvmfs_cache.h` is not among the sources. The
status codes that the plugin returns. -/
inductive cvmcache_status where
  | CVMCACHE_STATUS_OK
  | CVMCACHE_STATUS_NOENTRY
  | CVMCACHE_STATUS_OUTOFBOUNDS
  | CVMCACHE_STATUS_BADCOUNT
  | CVMCACHE_STATUS_PARTIAL
deriving DecidableEq, Repr

/-- Modelled from the spec: `libcvmfs_cache.h` is not among the sources. The
object types of the plugin interface. -/
inductive cvmcache_object_type where
  | CVMCACHE_OBJECT_REGULAR
  | CVMCACHE_OBJECT_CATALOG
  | CVMCACHE_OBJECT_VOLATILE
deriving DecidableEq, Repr

/-- The struct `Object`; `data` holds the bytes of the string. A
`cvmcache_hash` is represented by a natural number. -/
structure Object where
  id : Nat
  data : List Nat
  type : cvmcache_object_type
  refcnt : Int
  description : String
deriving DecidableEq, Repr

/-- The value-initialised `Object` that `storage[h]` creates for a new key. -/
def Object.zero : Object :=
  { id := 0, data := [], type := cvmcache_object_type.CVMCACHE_OBJECT_REGULAR, refcnt := 0,
    description := "" }

/-- A `std::map` with keys of type `Nat`: the pairs in ascending key order. -/
abbrev Map (V : Type) := List (Nat × V)

/-- The method `find` of `std::map`. -/
def Map.find {V : Type} (k : Nat) : Map V → Option V
  | [] => none
  | e :: es => if e.1 = k then some e.2 else Map.find k es

/-- The assignment `m[k] = v` of `std::map`: the value is replaced if the key
is there and inserted in key order otherwise. -/
def Map.assign {V : Type} (k : Nat) (v : V) : Map V → Map V
  | [] => [(k, v)]
  | e :: es =>
    if e.1 = k then (k, v) :: es
    else if k < e.1 then (k, v) :: e :: es
    else e :: Map.assign k v es

/-- The method `erase` of `std::map`. -/
def Map.erase {V : Type} (k : Nat) : Map V → Map V
  | [] => []
  | e :: es => if e.1 = k then es else e :: Map.erase k es

/-- The access `m[k]` of `std::map`: a key that is not there is inserted with
the value-initialised value `zero`. The result is the value and the map
afterwards. -/
def Map.index {V : Type} (zero : V) (k : Nat) (m : Map V) : V × Map V :=
  match Map.find k m with
  | some v => (v, m)
  | none => (zero, Map.assign k zero m)

/-- The global `storage`. -/
abbrev Storage := Map Object

/-- The callback `ram_pread`: the status, the value of `*size` afterwards, the
bytes copied to `buffer`, and the storage afterwards. `*size` is a `uint32_t`. -/
def ram_pread (storage : Storage) (id : Nat) (offset : Nat) (size : Nat) :
    (cvmcache_status × Nat × List Nat) × Storage :=
  let data := (Map.index Object.zero id storage).1.data
  let storage1 := (Map.index Object.zero id storage).2
  if offset > data.length then
    ((cvmcache_status.CVMCACHE_STATUS_OUTOFBOUNDS, size, []), storage1)
  else
    let nbytes := min size ((data.length - offset) % 2 ^ 32)
    ((cvmcache_status.CVMCACHE_STATUS_OK, nbytes, (data.drop offset).take nbytes), storage1)

/-- A regular object of `2^32` bytes with id 1. -/
def bigObject : Object :=
  { id := 1, data := List.replicate (2 ^ 32) 65,
    type := cvmcache_object_type.CVMCACHE_OBJECT_REGULAR, refcnt := 0, description := "" }

/-- A storage that holds `bigObject` under id 1. -/
def bigStorage : Storage := [(1, bigObject)]

end cache_plugin

/-! The other callbacks of `cvmfs/cache_plugin/cvmfs_cache_ram.cc`. -/

namespace cache_plugin

/-- Modelled from the spec: `libcvmfs_cache.h` is not among the sources. The
struct `cvmcache_object_info`; a `NULL` description is `none`. -/
structure cvmcache_object_info where
  id : Nat
  size : Nat
  type : cvmcache_object_type
  pinned : Bool
  description : Option String
deriving DecidableEq, Repr

/-- Modelled from the spec: `libcvmfs_cache.h` is not among the sources. The
struct `cvmcache_info`. -/
structure cvmcache_info where
  size_bytes : Nat
  used_bytes : Nat
  pinned_bytes : Nat
  no_shrink : Int
deriving DecidableEq, Repr

/-- The struct `TxnInfo`. -/
structure TxnInfo where
  id : Nat
  partial_object : Object
deriving DecidableEq, Repr

/-- The value-initialised `TxnInfo` that `transactions[txn_id]` creates for a
new key. -/
def TxnInfo.zero : TxnInfo := { id := 0, partial_object := Object.zero }

/-- The struct `Listing`; `elems` is the vector that the pointer refers to. -/
structure Listing where
  type : cvmcache_object_type
  pos : Nat
  elems : List Object
deriving DecidableEq, Repr

/-- The three global maps `transactions`, `storage` and `listings`. -/
structure Globals where
  transactions : Map TxnInfo
  storage : Storage
  listings : Map Listing
deriving DecidableEq, Repr

/-- The globals when the process starts. -/
def Globals.empty : Globals := { transactions := [], storage := [], listings := [] }

/-- The value of an `int32_t` computation: the sum wraps around. -/
def wrap32 (x : Int) : Int := (x + 2 ^ 31) % 2 ^ 32 - 2 ^ 31

/-- The callback `ram_chrefcnt` (lines 63-74). -/
def ram_chrefcnt (storage : Storage) (id : Nat) (change_by : Int) : cvmcache_status × Storage :=
  if (Map.find id storage).isNone then (cvmcache_status.CVMCACHE_STATUS_NOENTRY, storage)
  else
    let obj := (Map.index Object.zero id storage).1
    let storage1 := (Map.index Object.zero id storage).2
    let obj1 : Object := { obj with refcnt := wrap32 (obj.refcnt + change_by) }
    if obj1.refcnt < 0 then (cvmcache_status.CVMCACHE_STATUS_BADCOUNT, storage1)
    else (cvmcache_status.CVMCACHE_STATUS_OK, Map.assign id obj1 storage1)

/-- The callback `ram_start_txn` (lines 111-127). -/
def ram_start_txn (g : Globals) (id : Nat) (txn_id : Nat) (info : cvmcache_object_info) :
    cvmcache_status × Globals :=
  let partial_object : Object :=
    { id := id, data := [], type := info.type, refcnt := 1,
      description := match info.description with
        | some d => d
        | none => "" }
  let txn : TxnInfo := { id := id, partial_object := partial_object }
  (cvmcache_status.CVMCACHE_STATUS_OK,
    { g with transactions := Map.assign txn_id txn g.transactions })

/-- The callback `ram_write_txn` (lines 130-139): the first `size` bytes of
`buffer` are appended to the data of the partial object. -/
def ram_write_txn (g : Globals) (txn_id : Nat) (buffer : List Nat) (size : Nat) :
    cvmcache_status × Globals :=
  let txn := (Map.index TxnInfo.zero txn_id g.transactions).1
  let transactions1 := (Map.index TxnInfo.zero txn_id g.transactions).2
  let txn1 : TxnInfo :=
    { txn with partial_object :=
        { txn.partial_object with data := txn.partial_object.data ++ buffer.take size } }
  (cvmcache_status.CVMCACHE_STATUS_OK,
    { g with transactions := Map.assign txn_id txn1 transactions1 })

/-- The callback `ram_commit_txn` (lines 142-147). -/
def ram_commit_txn (g : Globals) (txn_id : Nat) : cvmcache_status × Globals :=
  let txn := (Map.index TxnInfo.zero txn_id g.transactions).1
  let transactions1 := (Map.index TxnInfo.zero txn_id g.transactions).2
  (cvmcache_status.CVMCACHE_STATUS_OK,
    { g with transactions := transactions1,
             storage := Map.assign txn.id txn.partial_object g.storage })

/-- The callback `ram_abort_txn` (lines 149-152). -/
def ram_abort_txn (g : Globals) (txn_id : Nat) : cvmcache_status × Globals :=
  (cvmcache_status.CVMCACHE_STATUS_OK, { g with transactions := Map.erase txn_id g.transactions })

/-- The callback `ram_info` (lines 154-166); the sums are `uint64_t`. -/
def ram_info (storage : Storage) : cvmcache_info :=
  { size_bytes := cache.u64 - 1
    used_bytes := storage.foldl (fun acc e => cache.add64 acc e.2.data.length) 0
    pinned_bytes := storage.foldl
      (fun acc e => if e.2.refcnt > 0 then cache.add64 acc e.2.data.length else acc) 0
    no_shrink := 0 }

/-- The two loops of `ram_shrink` (lines 176-192 and 194-209), which differ
in the entries they skip. The entries from the iterator to the end are
traversed with the running value of `info.used_bytes`; an entry that is not
skipped is erased, and its length, taken as `unsigned`, is subtracted. The
result tells whether the loop returned from the function (the target was
reached), and gives `info.used_bytes` and the entries left. -/
def eraseLoop (skip : Object → Bool) (shrink_to : Nat) : Nat → Storage → Bool × Nat × Storage
  | used_bytes, [] => (false, used_bytes, [])
  | used_bytes, e :: es =>
    if skip e.2 then
      ((eraseLoop skip shrink_to used_bytes es).1, (eraseLoop skip shrink_to used_bytes es).2.1,
        e :: (eraseLoop skip shrink_to used_bytes es).2.2)
    else
      let length := e.2.data.length % 2 ^ 32
      let used1 := cache.sub64 used_bytes length
      if used1 ≤ shrink_to then (true, used1, es) else eraseLoop skip shrink_to used1 es

/-- The condition of line 179 under which the first loop skips an entry. -/
def skipVolatile (o : Object) : Bool :=
  decide (o.refcnt > 0) || decide (o.type ≠ cvmcache_object_type.CVMCACHE_OBJECT_VOLATILE)

/-- The condition of line 197 under which the second loop skips an entry. -/
def skipOther (o : Object) : Bool := decide (o.refcnt > 0)

/-- The callback `ram_shrink` (lines 168-213): the status, the value of
`*used`, and the storage afterwards. -/
def ram_shrink (storage : Storage) (shrink_to : Nat) : (cvmcache_status × Nat) × Storage :=
  let info := ram_info storage
  if info.used_bytes ≤ shrink_to then ((cvmcache_status.CVMCACHE_STATUS_OK, info.used_bytes), storage)
  else
    let r1 := eraseLoop skipVolatile shrink_to info.used_bytes storage
    if r1.1 then ((cvmcache_status.CVMCACHE_STATUS_OK, r1.2.1), r1.2.2)
    else
      let r2 := eraseLoop skipOther shrink_to r1.2.1 r1.2.2
      if r2.1 then ((cvmcache_status.CVMCACHE_STATUS_OK, r2.2.1), r2.2.2)
      else ((cvmcache_status.CVMCACHE_STATUS_PARTIAL, r2.2.1), r2.2.2)

/-- The callback `ram_listing_begin` (lines 215-229). -/
def ram_listing_begin (g : Globals) (lst_id : Nat) (type : cvmcache_object_type) :
    cvmcache_status × Globals :=
  let lst : Listing := { type := type, pos := 0, elems := g.storage.map (fun e => e.2) }
  (cvmcache_status.CVMCACHE_STATUS_OK, { g with listings := Map.assign lst_id lst g.listings })

/-- The fields that `ram_listing_next` (lines 242-248) copies to `*item`. -/
def itemOf (o : Object) : cvmcache_object_info :=
  { id := o.id, size := o.data.length, type := o.type, pinned := decide (o.refcnt > 0),
    description := if o.description.isEmpty then none else some o.description }

/-- The loop of `ram_listing_next` (lines 236-252) over the elements from
`pos` on: the first element of the listed type and its position. -/
def listingScan (type : cvmcache_object_type) : List Object → Nat → Option (Object × Nat)
  | [], _ => none
  | o :: os, pos => if o.type = type then some (o, pos) else listingScan type os (pos + 1)

/-- The callback `ram_listing_next` (lines 231-256): the status, the item, if
one was written, and the globals afterwards. For a listing id that is not in
`listings` the pointer `elems` is not initialised; the model has no result
there. -/
def ram_listing_next (g : Globals) (listing_id : Nat) :
    Option ((cvmcache_status × Option cvmcache_object_info) × Globals) :=
  match Map.find listing_id g.listings with
  | none => none
  | some lst =>
    match listingScan lst.type (lst.elems.drop lst.pos) lst.pos with
    | none => some ((cvmcache_status.CVMCACHE_STATUS_OUTOFBOUNDS, none), g)
    | some (o, pos) =>
      some ((cvmcache_status.CVMCACHE_STATUS_OK, some (itemOf o)),
        { g with listings := Map.assign listing_id { lst with pos := pos + 1 } g.listings })

/-- The callback `ram_listing_end` (lines 258-262). -/
def ram_listing_end (g : Globals) (listing_id : Nat) : cvmcache_status × Globals :=
  (cvmcache_status.CVMCACHE_STATUS_OK, { g with listings := Map.erase listing_id g.listings })

end cache_plugin

namespace cache_plugin

/-- The globals after an object is created: `ram_start_txn`, one
`ram_write_txn` and `ram_commit_txn`. -/
def createObject (g : Globals) (id txn_id : Nat) (info : cvmcache_object_info)
    (buffer : List Nat) (size : Nat) : Globals :=
  (ram_commit_txn (ram_write_txn (ram_start_txn g id txn_id info).2 txn_id buffer size).2 txn_id).2

/-- The object info passed to `ram_start_txn` for an object of the given type
without a description. -/
def infoOf (type : cvmcache_object_type) : cvmcache_object_info :=
  { id := 0, size := 0, type := type, pinned := false, description := none }

/-- The regular object 1 of 10 bytes as `createObject` stores it. -/
def tenObject : Object :=
  { id := 1, data := [0, 1, 2, 3, 4, 5, 6, 7, 8, 9],
    type := cvmcache_object_type.CVMCACHE_OBJECT_REGULAR, refcnt := 1, description := "" }

/-- The storage after the regular object 1 of 10 bytes was created (scenario 5
of the spec). -/
def tenStorage : Storage :=
  (createObject Globals.empty 1 7 (infoOf cvmcache_object_type.CVMCACHE_OBJECT_REGULAR)
    [0, 1, 2, 3, 4, 5, 6, 7, 8, 9] 10).storage

end cache_plugin

namespace cache_plugin

/-- The object that `createObject` stores. -/
def createdObject (id : Nat) (info : cvmcache_object_info) (buffer : List Nat) (size : Nat) :
    Object :=
  { id := id, data := buffer.take size, type := info.type, refcnt := 1,
    description := match info.description with
      | some d => d
      | none => "" }

/-- The globals after object 1 of 10 bytes was created and a transaction 8 for
a volatile object 1 was started and filled with one byte. -/
def secondTxn : Globals :=
  (ram_write_txn
    (ram_start_txn
      (createObject Globals.empty 1 7 (infoOf cvmcache_object_type.CVMCACHE_OBJECT_REGULAR)
        [0, 1, 2, 3, 4, 5, 6, 7, 8, 9] 10)
      1 8 (infoOf cvmcache_object_type.CVMCACHE_OBJECT_VOLATILE)).2 8 [42] 1).2

/-- The globals after `ram_start_txn` of transaction 7 for object 1. -/
def startedTxn : Globals :=
  (ram_start_txn Globals.empty 1 7 (infoOf cvmcache_object_type.CVMCACHE_OBJECT_REGULAR)).2

end cache_plugin

namespace cache_plugin

/-- The sum of the payload lengths of the stored objects. -/
def sumLengths (storage : Storage) : Nat := (storage.map (fun e => e.2.data.length)).sum

/-- A volatile object of `2^32` bytes with id 1 that nobody references. -/
def bigVolatile : Object :=
  { id := 1, data := List.replicate (2 ^ 32) 65,
    type := cvmcache_object_type.CVMCACHE_OBJECT_VOLATILE, refcnt := 0, description := "" }

/-- A referenced regular object of 3 bytes. -/
def pinnedRegular : Object :=
  { id := 1, data := [1, 1, 1], type := cvmcache_object_type.CVMCACHE_OBJECT_REGULAR,
    refcnt := 1, description := "" }

/-- A volatile object of 4 bytes that nobody references. -/
def coldVolatile : Object :=
  { id := 2, data := [2, 2, 2, 2], type := cvmcache_object_type.CVMCACHE_OBJECT_VOLATILE,
    refcnt := 0, description := "" }

/-- A referenced volatile object of 2 bytes. -/
def pinnedVolatile : Object :=
  { id := 3, data := [3, 3], type := cvmcache_object_type.CVMCACHE_OBJECT_VOLATILE,
    refcnt := 2, description := "" }

/-- A regular object of 5 bytes that nobody references. -/
def coldRegular : Object :=
  { id := 4, data := [4, 4, 4, 4, 4], type := cvmcache_object_type.CVMCACHE_OBJECT_REGULAR,
    refcnt := 0, description := "" }

/-- A storage of 14 bytes with the four objects above. -/
def mixedStorage : Storage :=
  [(1, pinnedRegular), (2, coldVolatile), (3, pinnedVolatile), (4, coldRegular)]

end cache_plugin

namespace cache_plugin

/-- A storage that holds `bigVolatile` under id 1. -/
def bigVolatileStorage : Storage := [(1, bigVolatile)]

end cache_plugin

namespace cache_plugin

/-- The callbacks that work on `storage` and `transactions`. -/
inductive Call where
  | chrefcnt (id : Nat) (change_by : Int)
  | pread (id offset size : Nat)
  | start_txn (id txn_id : Nat) (info : cvmcache_object_info)
  | write_txn (txn_id : Nat) (buffer : List Nat) (size : Nat)
  | commit_txn (txn_id : Nat)
  | abort_txn (txn_id : Nat)
  | shrink (shrink_to : Nat)

/-- The globals after one callback. -/
def call (g : Globals) : Call → Globals
  | Call.chrefcnt id change_by => { g with storage := (ram_chrefcnt g.storage id change_by).2 }
  | Call.pread id offset size => { g with storage := (ram_pread g.storage id offset size).2 }
  | Call.start_txn id txn_id info => (ram_start_txn g id txn_id info).2
  | Call.write_txn txn_id buffer size => (ram_write_txn g txn_id buffer size).2
  | Call.commit_txn txn_id => (ram_commit_txn g txn_id).2
  | Call.abort_txn txn_id => (ram_abort_txn g txn_id).2
  | Call.shrink shrink_to => { g with storage := (ram_shrink g.storage shrink_to).2 }

/-- The globals after a sequence of callbacks. -/
def calls (g : Globals) (cs : List Call) : Globals := cs.foldl call g

/-- The results of `n` successive calls of `ram_listing_next` for one listing,
and the globals afterwards. -/
def listingNexts (listing_id : Nat) :
    Nat → Globals → Option (List (cvmcache_status × Option cvmcache_object_info) × Globals)
  | 0, g => some ([], g)
  | n + 1, g =>
    match ram_listing_next g listing_id with
    | none => none
    | some (r, g1) =>
      match listingNexts listing_id n g1 with
      | none => none
      | some (rs, g2) => some (r :: rs, g2)

/-- The object info of a regular object with the description "A". -/
def infoA : cvmcache_object_info :=
  { id := 0, size := 0, type := cvmcache_object_type.CVMCACHE_OBJECT_REGULAR, pinned := false,
    description := some "A" }

/-- The globals of scenario 6 of the spec before the listing begins: A (id 1,
regular, 2 bytes, description "A"), B (id 2, volatile, 1 byte) and C (id 3,
regular, 5 bytes) are created, and the reference of C is given up. -/
def threeObjects : Globals :=
  call
    (createObject
      (createObject
        (createObject Globals.empty 1 7 infoA [10, 11] 2)
        2 8 (infoOf cvmcache_object_type.CVMCACHE_OBJECT_VOLATILE) [20] 1)
      3 9 (infoOf cvmcache_object_type.CVMCACHE_OBJECT_REGULAR) [30, 31, 32, 33, 34] 5)
    (Call.chrefcnt 3 (-1))

/-- The calls after the listing has begun in scenario 6: D (id 4, regular) is
created, the reference of A is given up, and the storage is shrunk to 0
bytes, which erases A and C. -/
def createD : List Call :=
  [Call.start_txn 4 10 (infoOf cvmcache_object_type.CVMCACHE_OBJECT_REGULAR),
   Call.write_txn 10 [40] 1, Call.commit_txn 10, Call.chrefcnt 1 (-1), Call.shrink 0]

end cache_plugin

namespace cache

namespace RamCacheManager

open kvstore

/-- The partition that the switch of `CommitToKvStore` (lines 277-289) commits
an object of the given type to. -/
def target (m : RamCacheManager) : ObjectType → MemoryKvStore
  | ObjectType.kTypeRegular => m.regular_entries_
  | ObjectType.kTypeVolatile => m.volatile_entries_
  | ObjectType.kTypePinned => m.pinned_entries_
  | ObjectType.kTypeCatalog => m.pinned_entries_

/-- A handle table with the free slots 1 and 3. -/
def sparseTable : RamCacheManager :=
  { max_size_ := 1000
    open_fds_ := [⟨5, 0⟩, ⟨kInvalidHandle, 0⟩, ⟨6, 0⟩, ⟨kInvalidHandle, 0⟩]
    pinned_entries_ := ⟨0, []⟩
    regular_entries_ := ⟨0, []⟩
    volatile_entries_ := ⟨0, []⟩ }

end RamCacheManager

end cache

namespace cache

open kvstore RamCacheManager

/-- The cache of cap 1000 after the regular 10-byte object 1 was opened `k`
times: `k` handles and the reference count `k`. -/
def openedTimes (k : Nat) : RamCacheManager :=
  { max_size_ := 1000
    open_fds_ := List.replicate k ⟨1, 0⟩
    pinned_entries_ := ⟨10, [(1, ⟨payload 10, 10, k, ObjectType.kTypeRegular⟩)]⟩
    regular_entries_ := ⟨0, []⟩
    volatile_entries_ := ⟨0, []⟩ }

/-- The cache with `k` handles of object 1 and the reference count `k + 1`. -/
def overcounted (k : Nat) : RamCacheManager :=
  { max_size_ := 1000
    open_fds_ := List.replicate k ⟨1, 0⟩
    pinned_entries_ := ⟨10, [(1, ⟨payload 10, 10, k + 1, ObjectType.kTypeRegular⟩)]⟩
    regular_entries_ := ⟨0, []⟩
    volatile_entries_ := ⟨0, []⟩ }

end cache

namespace cache_plugin

/-- The callback `ram_obj_info` (lines 77-91): the status, `*info` afterwards,
and the storage afterwards. The copied description is never `NULL`. -/
def ram_obj_info (storage : Storage) (id : Nat) (info : cvmcache_object_info) :
    (cvmcache_status × cvmcache_object_info) × Storage :=
  if (Map.find id storage).isNone then ((cvmcache_status.CVMCACHE_STATUS_NOENTRY, info), storage)
  else
    let obj := (Map.index Object.zero id storage).1
    let storage1 := (Map.index Object.zero id storage).2
    ((cvmcache_status.CVMCACHE_STATUS_OK,
      { info with size := obj.data.length, type := obj.type, pinned := decide (obj.refcnt > 0),
                  description := some obj.description }), storage1)

end cache_plugin

namespace cache

namespace RamCacheManager

open kvstore

/-- Lines 245-248 of `CommitToKvStore`: for a transaction of unknown size the
buffer is passed to `realloc` with the size `pos`. For the size 0 the C
library may free the buffer and return `NULL` (glibc does), and the function
then returns `-errno` with nothing stored. `txnBuffer` and `CommitToKvStore`
describe the call in which `realloc` returns the buffer; `Reallocated t` says
that `realloc` is not called with the size 0. -/
def Reallocated (t : Transaction) : Prop := t.expected_size = kSizeUnknown → t.pos ≠ 0

instance (t : Transaction) : Decidable (Reallocated t) := by
  unfold Reallocated; infer_instance

/-- Lines 257-275 of `CommitToKvStore`: the state after the eviction cascade,
each `ShrinkTo` leaving the partition it returns. -/
def afterCascade (m : RamCacheManager) (t : Transaction) : RamCacheManager :=
  let buf := txnBuffer t
  let pinned_size := m.pinned_entries_.GetUsed
  let regular_size := m.regular_entries_.GetUsed
  let volatile_size := m.volatile_entries_.GetUsed
  let total_size := add64 (add64 (add64 pinned_size regular_size) volatile_size) buf.size
  if total_size > m.max_size_ then
    if add64 (add64 pinned_size regular_size) buf.size ≤ m.max_size_ then
      { m with volatile_entries_ :=
          (m.volatile_entries_.ShrinkTo (sub64 volatile_size (sub64 total_size m.max_size_))).2 }
    else if add64 pinned_size buf.size ≤ m.max_size_ then
      { m with volatile_entries_ := (m.volatile_entries_.ShrinkTo 0).2,
               regular_entries_ :=
          (m.regular_entries_.ShrinkTo
            (add64 (sub64 regular_size (sub64 total_size m.max_size_)) volatile_size)).2 }
    else m
  else m

end RamCacheManager

open kvstore RamCacheManager

/-- The cache of cap 1000 that holds a regular 10-byte object under the id
`kInvalidHandle`. -/
def nullRegular : RamCacheManager :=
  { max_size_ := 1000
    open_fds_ := []
    pinned_entries_ := ⟨0, []⟩
    regular_entries_ := ⟨10, [(kInvalidHandle, ⟨payload 10, 10, 0, ObjectType.kTypeRegular⟩)]⟩
    volatile_entries_ := ⟨0, []⟩ }

/-- The cache `nullRegular` after the object was opened. -/
def nullOpened : RamCacheManager :=
  { max_size_ := 1000
    open_fds_ := [⟨kInvalidHandle, 0⟩]
    pinned_entries_ := ⟨10, [(kInvalidHandle, ⟨payload 10, 10, 1, ObjectType.kTypeRegular⟩)]⟩
    regular_entries_ := ⟨0, []⟩
    volatile_entries_ := ⟨0, []⟩ }

end cache
/-! ## Theorems -/

namespace kvstore

theorem lookup_mem {id : shash.Any} {es : Entries} {b : MemoryBuffer}
    (h : lookup id es = some b) : (id, b) ∈ es := by
  induction es with
  | nil => simp [lookup] at h
  | cons e es ih =>
    unfold lookup at h
    split at h
    · rename_i he
      cases e with
      | mk k v =>
        simp only at he h
        simp only [Option.some.injEq] at h
        subst he; subst h
        exact List.mem_cons_self _ _
    · exact List.mem_cons_of_mem _ (ih h)

theorem lookup_eq_none_iff {id : shash.Any} {es : Entries} :
    lookup id es = none ↔ ∀ e ∈ es, e.1 ≠ id := by
  induction es with
  | nil => simp [lookup]
  | cons e es ih =>
    unfold lookup
    by_cases he : e.1 = id
    · simp [he]
    · simp [he, ih]

theorem lookup_append_of_some {id : shash.Any} {es l : Entries} {b : MemoryBuffer}
    (h : lookup id es = some b) : lookup id (es ++ l) = some b := by
  induction es with
  | nil => simp [lookup] at h
  | cons e es ih =>
    simp only [List.cons_append]
    unfold lookup at h ⊢
    split
    · rename_i he
      simp [he] at h ⊢; exact h
    · rename_i he
      simp only [he, if_false] at h
      exact ih h

theorem lookup_append_of_none {id : shash.Any} {es l : Entries}
    (h : lookup id es = none) : lookup id (es ++ l) = lookup id l := by
  induction es with
  | nil => rfl
  | cons e es ih =>
    simp only [List.cons_append]
    unfold lookup at h
    split at h
    · simp at h
    · rename_i he
      rw [lookup, if_neg he]
      exact ih h

theorem mem_forget {id : shash.Any} {es : Entries} {e : shash.Any × MemoryBuffer}
    (h : e ∈ forget id es) : e ∈ es := by
  induction es with
  | nil => simp [forget] at h
  | cons a es ih =>
    unfold forget at h
    split at h
    · exact List.mem_cons_of_mem _ h
    · rcases List.mem_cons.mp h with h1 | h1
      · exact h1 ▸ List.mem_cons_self _ _
      · exact List.mem_cons_of_mem _ (ih h1)

theorem lookup_forget_of_ne {id k : shash.Any} {es : Entries} (h : k ≠ id) :
    lookup k (forget id es) = lookup k es := by
  induction es with
  | nil => rfl
  | cons a es ih =>
    unfold forget
    by_cases ha : a.1 = id
    · have hk : ¬ a.1 = k := fun hk => h (hk ▸ ha)
      simp only [ha, if_true]
      rw [lookup.eq_2, if_neg (by rw [ha]; exact fun hh => h hh.symm)]
    · simp only [ha, if_false]
      rw [lookup.eq_2, lookup.eq_2, ih]

end kvstore

namespace kvstore

open MemoryKvStore

theorem sumSizes_cons (e : shash.Any × MemoryBuffer) (es : Entries) :
    sumSizes (e :: es) = e.2.size + sumSizes es := by
  simp [sumSizes]

theorem sumSizes_append (es l : Entries) : sumSizes (es ++ l) = sumSizes es + sumSizes l := by
  simp [sumSizes]

theorem sumSizes_forget {id : shash.Any} {es : Entries} {b : MemoryBuffer}
    (h : lookup id es = some b) : sumSizes (forget id es) + b.size = sumSizes es := by
  induction es with
  | nil => simp [lookup] at h
  | cons e es ih =>
    unfold lookup at h
    unfold forget
    by_cases he : e.1 = id
    · simp only [he, if_true, Option.some.injEq] at h ⊢
      rw [sumSizes_cons, h]; omega
    · simp only [he, if_false] at h ⊢
      rw [sumSizes_cons, sumSizes_cons]
      have := ih h
      omega

theorem sumSizes_update {id : shash.Any} {f : MemoryBuffer → MemoryBuffer} (es : Entries)
    (hf : ∀ b, (f b).size = b.size) : sumSizes (update id f es) = sumSizes es := by
  induction es with
  | nil => rfl
  | cons e es ih =>
    unfold update
    by_cases he : e.1 = id
    · simp only [he, if_true]
      rw [sumSizes_cons, sumSizes_cons, hf]
    · simp only [he, if_false]
      rw [sumSizes_cons, sumSizes_cons, ih]

theorem sumSizes_touch (id : shash.Any) (es : Entries) : sumSizes (touch id es) = sumSizes es := by
  unfold touch
  split
  · rename_i b hb
    rw [sumSizes_append, ← sumSizes_forget hb]
    simp [sumSizes]
  · rfl

theorem lookup_update (id k : shash.Any) (f : MemoryBuffer → MemoryBuffer) (es : Entries) :
    lookup k (update id f es) = if k = id then (lookup k es).map f else lookup k es := by
  induction es with
  | nil => simp [update, lookup]
  | cons e es ih =>
    unfold update
    by_cases he : e.1 = id
    · simp only [he, if_true]
      by_cases hk : k = id
      · subst hk
        simp [lookup, he]
      · have : ¬ id = k := fun h => hk h.symm
        simp [lookup, he, hk, this]
    · simp only [he, if_false]
      rw [lookup.eq_2, lookup.eq_2 k, ih]
      by_cases hk : k = id
      · subst hk
        simp [he]
      · simp [hk]

theorem shrinkLoop_sublist (target : Nat) (used : Nat) (es : Entries) :
    List.Sublist (shrinkLoop target used es).2 es := by
  induction es generalizing used with
  | nil => simp [shrinkLoop]
  | cons e es ih =>
    unfold shrinkLoop
    split
    · exact List.Sublist.refl _
    · split
      · exact List.Sublist.cons₂ _ (ih used)
      · exact List.Sublist.cons _ (ih _)

theorem shrinkLoop_accounted (target : Nat) (c : Nat) (es : Entries) :
    (shrinkLoop target (c + sumSizes es) es).1 = c + sumSizes (shrinkLoop target (c + sumSizes es) es).2 := by
  induction es generalizing c with
  | nil => simp [shrinkLoop]
  | cons e es ih =>
    unfold shrinkLoop
    split
    · rfl
    · split
      · have h := ih (c + e.2.size)
        have e1 : c + sumSizes (e :: es) = c + e.2.size + sumSizes es := by
          rw [sumSizes_cons]; omega
        rw [e1, sumSizes_cons]
        simp only
        rw [h]; omega
      · have h := ih c
        have e1 : c + sumSizes (e :: es) - e.2.size = c + sumSizes es := by
          rw [sumSizes_cons]; omega
        rw [e1]
        exact h

theorem shrinkLoop_reaches (target : Nat) (used : Nat) (es : Entries)
    (hu : unreferenced es) (hacc : used ≤ sumSizes es) :
    (shrinkLoop target used es).1 ≤ target := by
  induction es generalizing used with
  | nil =>
    simp only [shrinkLoop]
    simp [sumSizes] at hacc
    omega
  | cons e es ih =>
    unfold shrinkLoop
    split
    · assumption
    · have h0 : e.2.refcount = 0 := hu e (List.mem_cons_self _ _)
      simp only [h0, gt_iff_lt, lt_self_iff_false, if_false]
      apply ih
      · exact fun x hx => hu x (List.mem_cons_of_mem _ hx)
      · rw [sumSizes_cons] at hacc
        omega

end kvstore

namespace kvstore

namespace MemoryKvStore

theorem IncRef_used (s : MemoryKvStore) (id : shash.Any) :
    (s.IncRef id).2.used_bytes_ = s.used_bytes_ := by
  unfold IncRef; split <;> rfl

theorem IncRef_sumSizes (s : MemoryKvStore) (id : shash.Any) :
    sumSizes (s.IncRef id).2.entries_ = sumSizes s.entries_ := by
  unfold IncRef; split
  · exact sumSizes_update _ (fun _ => rfl)
  · rfl

theorem IncRef_accounted {s : MemoryKvStore} (id : shash.Any) (h : s.Accounted) :
    (s.IncRef id).2.Accounted := by
  unfold Accounted at h ⊢
  rw [IncRef_used, IncRef_sumSizes, h]

theorem IncRef_of_none {s : MemoryKvStore} {id : shash.Any} (h : lookup id s.entries_ = none) :
    s.IncRef id = (false, s) := by
  unfold IncRef; rw [h]

theorem IncRef_of_some {s : MemoryKvStore} {id : shash.Any} {b : MemoryBuffer}
    (h : lookup id s.entries_ = some b) :
    s.IncRef id =
      (true, { s with entries_ := update id (fun b => { b with refcount := b.refcount + 1 }) s.entries_ }) := by
  unfold IncRef; rw [h]

theorem Unref_used (s : MemoryKvStore) (id : shash.Any) :
    (s.Unref id).2.used_bytes_ = s.used_bytes_ := by
  unfold Unref; split
  · split <;> rfl
  · rfl

theorem Unref_sumSizes (s : MemoryKvStore) (id : shash.Any) :
    sumSizes (s.Unref id).2.entries_ = sumSizes s.entries_ := by
  unfold Unref; split
  · split
    · exact sumSizes_update _ (fun _ => rfl)
    · rfl
  · rfl

theorem Unref_accounted {s : MemoryKvStore} (id : shash.Any) (h : s.Accounted) :
    (s.Unref id).2.Accounted := by
  unfold Accounted at h ⊢
  rw [Unref_used, Unref_sumSizes, h]

theorem GetBuffer_used (s : MemoryKvStore) (id : shash.Any) :
    (s.GetBuffer id).2.used_bytes_ = s.used_bytes_ := by
  unfold GetBuffer; split <;> rfl

theorem GetBuffer_sumSizes (s : MemoryKvStore) (id : shash.Any) :
    sumSizes (s.GetBuffer id).2.entries_ = sumSizes s.entries_ := by
  unfold GetBuffer; split
  · exact sumSizes_touch _ _
  · rfl

theorem GetBuffer_accounted {s : MemoryKvStore} (id : shash.Any) (h : s.Accounted) :
    (s.GetBuffer id).2.Accounted := by
  unfold Accounted at h ⊢
  rw [GetBuffer_used, GetBuffer_sumSizes, h]

theorem PopBuffer_of_none {s : MemoryKvStore} {id : shash.Any} (h : lookup id s.entries_ = none) :
    s.PopBuffer id = (none, s) := by
  unfold PopBuffer; rw [h]

theorem PopBuffer_of_some {s : MemoryKvStore} {id : shash.Any} {b : MemoryBuffer}
    (h : lookup id s.entries_ = some b) :
    s.PopBuffer id = (some b, ⟨s.used_bytes_ - b.size, forget id s.entries_⟩) := by
  unfold PopBuffer; rw [h]

theorem PopBuffer_eq_some {s s1 : MemoryKvStore} {id : shash.Any} {b : MemoryBuffer}
    (h : s.PopBuffer id = (some b, s1)) :
    lookup id s.entries_ = some b ∧ s1 = ⟨s.used_bytes_ - b.size, forget id s.entries_⟩ := by
  unfold PopBuffer at h
  split at h
  · rename_i b1 hb
    simp only [Prod.mk.injEq, Option.some.injEq] at h
    obtain ⟨h1, h2⟩ := h
    subst h1
    exact ⟨hb, h2.symm⟩
  · simp at h

theorem PopBuffer_eq_none {s s1 : MemoryKvStore} {id : shash.Any}
    (h : s.PopBuffer id = (none, s1)) : lookup id s.entries_ = none ∧ s1 = s := by
  unfold PopBuffer at h
  split at h
  · simp at h
  · rename_i hb
    simp only [Prod.mk.injEq, true_and] at h
    exact ⟨hb, h.symm⟩

theorem PopBuffer_accounted {s s1 : MemoryKvStore} {id : shash.Any} {b : MemoryBuffer}
    (h : s.PopBuffer id = (some b, s1)) (ha : s.Accounted) :
    s1.Accounted ∧ s1.used_bytes_ + b.size = s.used_bytes_ := by
  obtain ⟨hb, rfl⟩ := PopBuffer_eq_some h
  unfold Accounted at ha ⊢
  have := sumSizes_forget hb
  simp only
  omega

theorem Commit_of_none {s : MemoryKvStore} {id : shash.Any} (buf : MemoryBuffer)
    (h : lookup id s.entries_ = none) :
    s.Commit id buf =
      (true, ⟨s.used_bytes_ + buf.size, s.entries_ ++ [(id, { buf with refcount := 0 })]⟩) := by
  unfold Commit; rw [h]

theorem Commit_of_some {s : MemoryKvStore} {id : shash.Any} {b : MemoryBuffer} (buf : MemoryBuffer)
    (h : lookup id s.entries_ = some b) : s.Commit id buf = (false, s) := by
  unfold Commit; rw [h]

theorem Commit_true {s : MemoryKvStore} {id : shash.Any} {buf : MemoryBuffer}
    (h : (s.Commit id buf).1 = true) :
    lookup id s.entries_ = none ∧
    (s.Commit id buf).2 = ⟨s.used_bytes_ + buf.size, s.entries_ ++ [(id, { buf with refcount := 0 })]⟩ := by
  unfold Commit at h ⊢
  split at h
  · simp at h
  · rename_i hb
    rw [hb]
    exact ⟨rfl, rfl⟩

theorem Commit_false {s : MemoryKvStore} {id : shash.Any} {buf : MemoryBuffer}
    (h : (s.Commit id buf).1 = false) :
    lookup id s.entries_ ≠ none ∧ (s.Commit id buf).2 = s := by
  unfold Commit at h ⊢
  split at h
  · rename_i b hb
    rw [hb]
    exact ⟨by simp, rfl⟩
  · simp at h

theorem Commit_accounted {s : MemoryKvStore} (id : shash.Any) (buf : MemoryBuffer)
    (ha : s.Accounted) : (s.Commit id buf).2.Accounted := by
  unfold Commit
  split
  · exact ha
  · unfold Accounted at ha ⊢
    simp only [sumSizes_append, ha]
    simp [sumSizes]

theorem ShrinkTo_true {s s1 : MemoryKvStore} {size : Nat} (h : s.ShrinkTo size = (true, s1)) :
    s1.used_bytes_ ≤ size := by
  unfold ShrinkTo at h
  split at h
  · simp only [Prod.mk.injEq, true_and] at h
    subst h; assumption
  · simp only [Prod.mk.injEq, decide_eq_true_eq] at h
    obtain ⟨h1, h2⟩ := h
    subst h2
    exact h1

theorem ShrinkTo_sublist (s : MemoryKvStore) (size : Nat) :
    List.Sublist (s.ShrinkTo size).2.entries_ s.entries_ := by
  unfold ShrinkTo
  split
  · exact List.Sublist.refl _
  · exact shrinkLoop_sublist _ _ _

theorem ShrinkTo_accounted {s : MemoryKvStore} (size : Nat) (ha : s.Accounted) :
    (s.ShrinkTo size).2.Accounted := by
  unfold ShrinkTo
  split
  · exact ha
  · unfold Accounted at ha ⊢
    have h := shrinkLoop_accounted size 0 s.entries_
    simp only [Nat.zero_add] at h
    simp only [ha]
    exact h

theorem ShrinkTo_of_le {s : MemoryKvStore} {size : Nat} (h : s.used_bytes_ ≤ size) :
    s.ShrinkTo size = (true, s) := by
  unfold ShrinkTo; rw [if_pos h]

theorem ShrinkTo_succeeds {s : MemoryKvStore} (size : Nat) (ha : s.Accounted)
    (hu : unreferenced s.entries_) : (s.ShrinkTo size).1 = true := by
  unfold ShrinkTo
  split
  · rfl
  · simp only [decide_eq_true_eq]
    exact shrinkLoop_reaches size _ _ hu (Nat.le_of_eq ha)

end MemoryKvStore

end kvstore

namespace cache

open kvstore kvstore.MemoryKvStore

namespace RamCacheManager

theorem add64_of_lt {a b : Nat} (h : a + b < u64) : add64 a b = a + b := by
  unfold add64; exact Nat.mod_eq_of_lt h

theorem sub64_of_le {a b : Nat} (h : b ≤ a) (ha : a < u64) : sub64 a b = a - b := by
  unfold sub64 u64 at *
  omega

theorem CommitToKvStore_exact (m : RamCacheManager) (t : Transaction)
    (hno : m.usedTotal + (txnBuffer t).size < u64) :
    m.CommitToKvStore t = commitExact m t := by
  unfold CommitToKvStore commitExact
  unfold usedTotal GetUsed at *
  simp only
  have e1 : add64 (add64 (add64 m.pinned_entries_.used_bytes_ m.regular_entries_.used_bytes_)
      m.volatile_entries_.used_bytes_) (txnBuffer t).size =
      m.pinned_entries_.used_bytes_ + m.regular_entries_.used_bytes_ +
        m.volatile_entries_.used_bytes_ + (txnBuffer t).size := by
    unfold add64 u64 at *; omega
  have e2 : add64 (add64 m.pinned_entries_.used_bytes_ m.regular_entries_.used_bytes_)
      (txnBuffer t).size =
      m.pinned_entries_.used_bytes_ + m.regular_entries_.used_bytes_ + (txnBuffer t).size := by
    unfold add64 u64 at *; omega
  have e3 : add64 m.pinned_entries_.used_bytes_ (txnBuffer t).size =
      m.pinned_entries_.used_bytes_ + (txnBuffer t).size := by
    unfold add64 u64 at *; omega
  rw [e1, e2, e3]
  by_cases h1 : m.pinned_entries_.used_bytes_ + m.regular_entries_.used_bytes_ +
        m.volatile_entries_.used_bytes_ + (txnBuffer t).size > m.max_size_
  · simp only [h1, if_true]
    by_cases h2 : m.pinned_entries_.used_bytes_ + m.regular_entries_.used_bytes_ +
        (txnBuffer t).size ≤ m.max_size_
    · simp only [h2, if_true]
      have e4 : sub64 m.volatile_entries_.used_bytes_
          (sub64 (m.pinned_entries_.used_bytes_ + m.regular_entries_.used_bytes_ +
            m.volatile_entries_.used_bytes_ + (txnBuffer t).size) m.max_size_) =
          m.max_size_ - m.pinned_entries_.used_bytes_ - m.regular_entries_.used_bytes_ -
            (txnBuffer t).size := by
        unfold sub64 u64 at *; omega
      rw [e4]
    · simp only [h2, if_false]
      by_cases h3 : m.pinned_entries_.used_bytes_ + (txnBuffer t).size ≤ m.max_size_
      · simp only [h3, if_true]
        have e5 : add64 (sub64 m.regular_entries_.used_bytes_
            (sub64 (m.pinned_entries_.used_bytes_ + m.regular_entries_.used_bytes_ +
              m.volatile_entries_.used_bytes_ + (txnBuffer t).size) m.max_size_))
            m.volatile_entries_.used_bytes_ =
            m.max_size_ - m.pinned_entries_.used_bytes_ - (txnBuffer t).size := by
          unfold add64 sub64 u64 at *; omega
        rw [e5]
      · simp only [h3, if_false]
  · simp only [h1, if_false]

end RamCacheManager

end cache

namespace kvstore

namespace MemoryKvStore

theorem Commit_used_le (s : MemoryKvStore) (id : shash.Any) (buf : MemoryBuffer) :
    (s.Commit id buf).2.used_bytes_ ≤ s.used_bytes_ + buf.size := by
  unfold Commit
  split
  · exact Nat.le_add_right _ _
  · exact Nat.le_refl _

end MemoryKvStore

end kvstore

namespace cache

open kvstore kvstore.MemoryKvStore

namespace RamCacheManager

theorem bounded_of_le {M : Nat} {m m1 : RamCacheManager} (h : Bounded M m)
    (hcap : m1.max_size_ = m.max_size_) (hp : m1.pinned_entries_.Accounted)
    (hr : m1.regular_entries_.Accounted) (hv : m1.volatile_entries_.Accounted)
    (hle : m1.usedTotal ≤ m.usedTotal) : Bounded M m1 :=
  ⟨hcap.trans h.cap, hp, hr, hv, Nat.le_trans hle h.bound⟩

theorem AddFd_cap (m : RamCacheManager) (fd : ReadOnlyFd) :
    (m.AddFd fd).2.max_size_ = m.max_size_ := by
  unfold AddFd; split
  · rfl
  · split <;> rfl

theorem AddFd_pinned (m : RamCacheManager) (fd : ReadOnlyFd) :
    (m.AddFd fd).2.pinned_entries_ = m.pinned_entries_ := by
  unfold AddFd; split
  · rfl
  · split <;> rfl

theorem AddFd_regular (m : RamCacheManager) (fd : ReadOnlyFd) :
    (m.AddFd fd).2.regular_entries_ = m.regular_entries_ := by
  unfold AddFd; split
  · rfl
  · split <;> rfl

theorem AddFd_volatile (m : RamCacheManager) (fd : ReadOnlyFd) :
    (m.AddFd fd).2.volatile_entries_ = m.volatile_entries_ := by
  unfold AddFd; split
  · rfl
  · split <;> rfl

theorem AddFd_bounded {M : Nat} {m : RamCacheManager} (fd : ReadOnlyFd) (h : Bounded M m) :
    Bounded M (m.AddFd fd).2 := by
  refine bounded_of_le h (AddFd_cap m fd) ?_ ?_ ?_ ?_
  · rw [AddFd_pinned]; exact h.pinned
  · rw [AddFd_regular]; exact h.regular
  · rw [AddFd_volatile]; exact h.volatile_ok
  · unfold usedTotal; rw [AddFd_pinned, AddFd_regular, AddFd_volatile]

theorem commitSwitch_cap (m : RamCacheManager) (id : shash.Any) (buf : MemoryBuffer) :
    (commitSwitch m id buf).2.max_size_ = m.max_size_ := by
  unfold commitSwitch
  split <;> split <;> rfl

theorem commitSwitch_fds (m : RamCacheManager) (id : shash.Any) (buf : MemoryBuffer) :
    (commitSwitch m id buf).2.open_fds_ = m.open_fds_ := by
  unfold commitSwitch
  split <;> split <;> rfl

theorem commitSwitch_accounted {m : RamCacheManager} (id : shash.Any) (buf : MemoryBuffer)
    (hp : m.pinned_entries_.Accounted) (hr : m.regular_entries_.Accounted)
    (hv : m.volatile_entries_.Accounted) :
    (commitSwitch m id buf).2.pinned_entries_.Accounted ∧
    (commitSwitch m id buf).2.regular_entries_.Accounted ∧
    (commitSwitch m id buf).2.volatile_entries_.Accounted := by
  unfold commitSwitch
  split <;> split <;>
    first
    | exact ⟨hp, hr, hv⟩
    | exact ⟨hp, Commit_accounted _ _ hr, hv⟩
    | exact ⟨hp, hr, Commit_accounted _ _ hv⟩
    | exact ⟨Commit_accounted _ _ hp, hr, hv⟩

theorem commitSwitch_usedTotal_le (m : RamCacheManager) (id : shash.Any) (buf : MemoryBuffer) :
    (commitSwitch m id buf).2.usedTotal ≤ m.usedTotal + buf.size := by
  unfold commitSwitch
  split <;> split <;> simp only [usedTotal, GetUsed]
  · have := Commit_used_le m.regular_entries_ id buf; omega
  · omega
  · have := Commit_used_le m.volatile_entries_ id buf; omega
  · omega
  · have := Commit_used_le m.pinned_entries_ id buf; omega
  · omega
  · have := Commit_used_le m.pinned_entries_ id buf; omega
  · omega

theorem commitExact_bounded {M : Nat} {m m1 : RamCacheManager} {t : Transaction} {r : Int}
    (h : Bounded M m) (hc : commitExact m t = some (r, m1)) : Bounded M m1 := by
  unfold commitExact at hc
  have hcap := h.cap
  split at hc
  · split at hc
    · rename_i h1 h2
      split at hc
      · rename_i vol hs
        simp only [Option.some.injEq] at hc
        have hv : vol.Accounted := by
          have := ShrinkTo_accounted (m.max_size_ - m.pinned_entries_.used_bytes_
            - m.regular_entries_.used_bytes_ - (txnBuffer t).size) h.volatile_ok
          rw [hs] at this; exact this
        have hle := ShrinkTo_true hs
        have hacc := commitSwitch_accounted (m := { m with volatile_entries_ := vol }) t.id
          (txnBuffer t) h.pinned h.regular hv
        have hu := commitSwitch_usedTotal_le { m with volatile_entries_ := vol } t.id (txnBuffer t)
        have hcp := commitSwitch_cap { m with volatile_entries_ := vol } t.id (txnBuffer t)
        rw [hc] at hacc hu hcp
        refine ⟨hcp.trans hcap, hacc.1, hacc.2.1, hacc.2.2, ?_⟩
        simp only [usedTotal, GetUsed] at hu ⊢
        omega
      · simp at hc
    · split at hc
      · rename_i h1 h2 h3
        split at hc
        · rename_i vol hs
          split at hc
          · rename_i regular hs2
            simp only [Option.some.injEq] at hc
            have hv : vol.Accounted := by
              have := ShrinkTo_accounted 0 h.volatile_ok
              rw [hs] at this; exact this
            have hr : regular.Accounted := by
              have := ShrinkTo_accounted (m.max_size_ - m.pinned_entries_.used_bytes_
                - (txnBuffer t).size) h.regular
              rw [hs2] at this; exact this
            have hle := ShrinkTo_true hs
            have hle2 := ShrinkTo_true hs2
            have hacc := commitSwitch_accounted
              (m := { m with volatile_entries_ := vol, regular_entries_ := regular }) t.id
              (txnBuffer t) h.pinned hr hv
            have hu := commitSwitch_usedTotal_le
              { m with volatile_entries_ := vol, regular_entries_ := regular } t.id (txnBuffer t)
            have hcp := commitSwitch_cap
              { m with volatile_entries_ := vol, regular_entries_ := regular } t.id (txnBuffer t)
            rw [hc] at hacc hu hcp
            refine ⟨hcp.trans hcap, hacc.1, hacc.2.1, hacc.2.2, ?_⟩
            simp only [usedTotal, GetUsed] at hu ⊢
            omega
          · simp at hc
        · simp at hc
      · simp only [Option.some.injEq, Prod.mk.injEq] at hc
        rw [← hc.2]; exact h
  · rename_i h1
    simp only [Option.some.injEq] at hc
    have hacc := commitSwitch_accounted (m := m) t.id (txnBuffer t) h.pinned h.regular h.volatile_ok
    have hu := commitSwitch_usedTotal_le m t.id (txnBuffer t)
    have hcp := commitSwitch_cap m t.id (txnBuffer t)
    rw [hc] at hacc hu hcp
    refine ⟨hcp.trans hcap, hacc.1, hacc.2.1, hacc.2.2, ?_⟩
    simp only [usedTotal, GetUsed] at hu ⊢
    have := h.bound
    simp only [usedTotal, GetUsed] at this h1
    omega

end RamCacheManager

end cache

namespace cache

open kvstore kvstore.MemoryKvStore

namespace RamCacheManager

theorem promote_eq_some {m m1 : RamCacheManager} {id : shash.Any} {buf : MemoryBuffer}
    {fd r : Int} (h : promote m id buf fd = some (r, m1)) :
    r = fd ∧ (m.pinned_entries_.Commit id buf).1 = true ∧
    ((m.pinned_entries_.Commit id buf).2.IncRef id).1 = true ∧
    m1 = { m with pinned_entries_ := ((m.pinned_entries_.Commit id buf).2.IncRef id).2 } := by
  unfold promote at h
  split at h
  · split at h
    · rename_i h1 h2
      simp only [Option.some.injEq, Prod.mk.injEq] at h
      exact ⟨h.1.symm, h1, h2, h.2.symm⟩
    · simp at h
  · simp at h

theorem promote_bounded {m m1 : RamCacheManager} {id : shash.Any} {buf : MemoryBuffer}
    {fd r : Int} (h : promote m id buf fd = some (r, m1)) :
    m1.max_size_ = m.max_size_ ∧ m1.regular_entries_ = m.regular_entries_ ∧
    m1.volatile_entries_ = m.volatile_entries_ ∧
    (m.pinned_entries_.Accounted → m1.pinned_entries_.Accounted) ∧
    m1.pinned_entries_.used_bytes_ = m.pinned_entries_.used_bytes_ + buf.size := by
  obtain ⟨_, h1, _, rfl⟩ := promote_eq_some h
  refine ⟨rfl, rfl, rfl, ?_, ?_⟩
  · intro ha
    exact IncRef_accounted _ (Commit_accounted _ _ ha)
  · simp only [IncRef_used]
    rw [(Commit_true h1).2]

theorem demote_bounded {m m2 : RamCacheManager} {pinned : MemoryKvStore} {id : shash.Any}
    {ty : ObjectType} (h : demote m pinned id ty = some m2) (hp : pinned.Accounted)
    (hr : m.regular_entries_.Accounted) (hv : m.volatile_entries_.Accounted) :
    m2.max_size_ = m.max_size_ ∧ m2.open_fds_ = m.open_fds_ ∧ m2.pinned_entries_.Accounted ∧
    m2.regular_entries_.Accounted ∧ m2.volatile_entries_.Accounted ∧
    m2.usedTotal = pinned.used_bytes_ + m.regular_entries_.used_bytes_ +
      m.volatile_entries_.used_bytes_ := by
  unfold demote at h
  split at h
  · split at h
    · rename_i buf pinned1 hpop
      split at h
      · rename_i hc
        simp only [Option.some.injEq] at h
        subst h
        obtain ⟨ha, hu⟩ := PopBuffer_accounted hpop hp
        refine ⟨rfl, rfl, ha, Commit_accounted _ _ hr, hv, ?_⟩
        simp only [usedTotal, GetUsed]
        rw [(Commit_true hc).2]
        simp only
        omega
      · simp at h
    · simp at h
  · split at h
    · rename_i buf pinned1 hpop
      split at h
      · rename_i hc
        simp only [Option.some.injEq] at h
        subst h
        obtain ⟨ha, hu⟩ := PopBuffer_accounted hpop hp
        refine ⟨rfl, rfl, ha, hr, Commit_accounted _ _ hv, ?_⟩
        simp only [usedTotal, GetUsed]
        rw [(Commit_true hc).2]
        simp only
        omega
      · simp at h
    · simp at h
  · simp only [Option.some.injEq] at h
    subst h
    exact ⟨rfl, rfl, hp, hr, hv, rfl⟩
  · simp only [Option.some.injEq] at h
    subst h
    exact ⟨rfl, rfl, hp, hr, hv, rfl⟩

theorem releaseFd_eq_some {m m1 : RamCacheManager} {fd r : Int}
    (h : releaseFd m fd = some (r, m1)) :
    r = 0 ∧ m1.max_size_ = m.max_size_ ∧ m1.pinned_entries_ = m.pinned_entries_ ∧
    m1.regular_entries_ = m.regular_entries_ ∧ m1.volatile_entries_ = m.volatile_entries_ := by
  unfold releaseFd at h
  simp only at h
  split at h
  · split at h
    · simp only [Option.some.injEq, Prod.mk.injEq] at h
      obtain ⟨h1, h2⟩ := h
      subst h2
      exact ⟨h1.symm, rfl, rfl, rfl, rfl⟩
    · simp at h
  · simp only [Option.some.injEq, Prod.mk.injEq] at h
    obtain ⟨h1, h2⟩ := h
    subst h2
    exact ⟨h1.symm, rfl, rfl, rfl, rfl⟩

theorem DoOpen_bounded {M : Nat} {m m1 : RamCacheManager} {id : shash.Any} {r : Int}
    (hb : Bounded M m) (h : m.DoOpen id = some (r, m1)) : Bounded M m1 := by
  unfold DoOpen at h
  simp only at h
  have hb1 := AddFd_bounded ⟨id, 0⟩ hb
  generalize (m.AddFd ⟨id, 0⟩).2 = ma at h hb1
  generalize (m.AddFd ⟨id, 0⟩).1 = fd at h
  split at h
  · simp only [Option.some.injEq, Prod.mk.injEq] at h
    rw [← h.2]; exact hb1
  · split at h
    · simp only [Option.some.injEq, Prod.mk.injEq] at h
      rw [← h.2]
      refine bounded_of_le hb1 rfl (IncRef_accounted _ hb1.pinned) hb1.regular hb1.volatile_ok ?_
      simp only [usedTotal, GetUsed, IncRef_used]
      exact Nat.le_refl _
    · split at h
      · rename_i buf regular hpop
        obtain ⟨hcap, hr, hv, hp, hu⟩ := promote_bounded h
        obtain ⟨ha, hu2⟩ := PopBuffer_accounted hpop hb1.regular
        refine bounded_of_le hb1 hcap (hp hb1.pinned) (by rw [hr]; exact ha)
          (by rw [hv]; exact hb1.volatile_ok) ?_
        simp only [usedTotal, GetUsed, hr, hv, hu]
        omega
      · split at h
        · rename_i buf vol hpop
          obtain ⟨hcap, hr, hv, hp, hu⟩ := promote_bounded h
          obtain ⟨ha, hu2⟩ := PopBuffer_accounted hpop hb1.volatile_ok
          refine bounded_of_le hb1 hcap (hp hb1.pinned) (by rw [hr]; exact hb1.regular)
            (by rw [hv]; exact ha) ?_
          simp only [usedTotal, GetUsed, hr, hv, hu]
          omega
        · simp only [Option.some.injEq, Prod.mk.injEq] at h
          rw [← h.2]
          exact bounded_of_le hb1 rfl hb1.pinned hb1.regular hb1.volatile_ok (Nat.le_refl _)

theorem Close_bounded {M : Nat} {m m1 : RamCacheManager} {fd r : Int}
    (hb : Bounded M m) (h : m.Close fd = some (r, m1)) : Bounded M m1 := by
  unfold Close at h
  split at h
  · simp only [Option.some.injEq, Prod.mk.injEq] at h
    rw [← h.2]; exact hb
  · split at h
    · simp at h
    · rename_i file_descriptor _
      split at h
      · simp at h
      · rename_i buf pinned1 hget
        have hp1 : pinned1.Accounted := by
          have := GetBuffer_accounted file_descriptor.handle hb.pinned
          rw [hget] at this; exact this
        have hu1 : pinned1.used_bytes_ = m.pinned_entries_.used_bytes_ := by
          have := GetBuffer_used m.pinned_entries_ file_descriptor.handle
          rw [hget] at this; exact this
        have hp2 := Unref_accounted file_descriptor.handle hp1
        have hu2 := Unref_used pinned1 file_descriptor.handle
        split at h
        · split at h
          · split at h
            · rename_i m2 hd
              obtain ⟨hcap, _, hp, hr, hv, hu⟩ := demote_bounded hd hp2 hb.regular hb.volatile_ok
              obtain ⟨_, hcap2, e1, e2, e3⟩ := releaseFd_eq_some h
              refine bounded_of_le hb (hcap2.trans hcap) (by rw [e1]; exact hp)
                (by rw [e2]; exact hr) (by rw [e3]; exact hv) ?_
              have : m1.usedTotal = m2.usedTotal := by
                simp only [usedTotal, e1, e2, e3]
              rw [this, hu, hu2, hu1]
              exact Nat.le_refl _
            · simp at h
          · simp only [Option.some.injEq, Prod.mk.injEq] at h
            rw [← h.2]
            refine bounded_of_le hb rfl hp2 hb.regular hb.volatile_ok ?_
            simp only [usedTotal, GetUsed, hu2, hu1]
            exact Nat.le_refl _
        · simp at h

theorem Dup_bounded {M : Nat} {m m1 : RamCacheManager} {fd r : Int}
    (hb : Bounded M m) (h : m.Dup fd = some (r, m1)) : Bounded M m1 := by
  unfold Dup at h
  split at h
  · simp only [Option.some.injEq, Prod.mk.injEq] at h
    rw [← h.2]; exact hb
  · split at h
    · simp at h
    · rename_i file_descriptor _
      split at h
      · simp only [Option.some.injEq] at h
        have h2 : m1 = (AddFd { m with pinned_entries_ :=
            (m.pinned_entries_.IncRef file_descriptor.handle).2 } file_descriptor).2 := by
          rw [h]
        rw [h2]
        apply AddFd_bounded
        refine bounded_of_le hb rfl (IncRef_accounted _ hb.pinned) hb.regular hb.volatile_ok ?_
        simp only [usedTotal, GetUsed, IncRef_used]
        exact Nat.le_refl _
      · simp at h

theorem create_bounded (M : Nat) : Bounded M (create M) :=
  ⟨rfl, rfl, rfl, rfl, Nat.zero_le _⟩

theorem call_bounded {M : Nat} {m m1 : RamCacheManager} {c : Call} {r : Int}
    (hb : Bounded M m) (ha : Allocated m c) (h : m.call c = some (r, m1)) : Bounded M m1 := by
  cases c with
  | CommitTxn t =>
    simp only [call, CommitTxn] at h
    rw [CommitToKvStore_exact m t ha] at h
    exact commitExact_bounded hb h
  | OpenFromTxn t =>
    simp only [call, OpenFromTxn] at h
    rw [CommitToKvStore_exact m t ha] at h
    split at h
    · rename_i retval m2 hc
      have hb2 := commitExact_bounded hb hc
      split at h
      · simp only [Option.some.injEq, Prod.mk.injEq] at h
        rw [← h.2]; exact hb2
      · exact DoOpen_bounded hb2 h
    · simp at h
  | Open id => exact DoOpen_bounded hb h
  | Dup fd => exact Dup_bounded hb h
  | Close fd => exact Close_bounded hb h

theorem reachable_bounded {M : Nat} {m : RamCacheManager} (h : Reachable M m) : Bounded M m := by
  induction h with
  | init => exact create_bounded M
  | step _ hc ha ih => exact call_bounded ih ha hc

end RamCacheManager

end cache

namespace kvstore

namespace MemoryKvStore

theorem Commit_mem {s : MemoryKvStore} (id : shash.Any) (buf : MemoryBuffer)
    {e : shash.Any × MemoryBuffer} (h : e ∈ s.entries_) : e ∈ (s.Commit id buf).2.entries_ := by
  unfold Commit
  split
  · exact h
  · exact List.mem_append_left _ h

end MemoryKvStore

end kvstore

namespace cache

open kvstore kvstore.MemoryKvStore

namespace RamCacheManager

theorem commitSwitch_code (m : RamCacheManager) (id : shash.Any) (buf : MemoryBuffer) :
    (commitSwitch m id buf).1 = 0 ∨
    ((commitSwitch m id buf).1 = -EEXIST ∧ (commitSwitch m id buf).2 = m) := by
  unfold commitSwitch
  split <;> split <;> first | exact Or.inl rfl | exact Or.inr ⟨rfl, rfl⟩

theorem commitSwitch_pinned_mem (m : RamCacheManager) (id : shash.Any) (buf : MemoryBuffer)
    {e : shash.Any × MemoryBuffer} (h : e ∈ m.pinned_entries_.entries_) :
    e ∈ (commitSwitch m id buf).2.pinned_entries_.entries_ := by
  unfold commitSwitch
  split <;> split <;> first | exact h | exact Commit_mem _ _ h

theorem commitSwitch_regular_mem (m : RamCacheManager) (id : shash.Any) (buf : MemoryBuffer)
    {e : shash.Any × MemoryBuffer} (h : e ∈ m.regular_entries_.entries_) :
    e ∈ (commitSwitch m id buf).2.regular_entries_.entries_ := by
  unfold commitSwitch
  split <;> split <;> first | exact h | exact Commit_mem _ _ h

theorem commitSwitch_volatile (m : RamCacheManager) (id : shash.Any) (buf : MemoryBuffer) :
    (commitSwitch m id buf).2.volatile_entries_ = m.volatile_entries_ ∨
    (commitSwitch m id buf).2.volatile_entries_ = (m.volatile_entries_.Commit id buf).2 := by
  unfold commitSwitch
  split <;> split <;> first | exact Or.inl rfl | exact Or.inr rfl

/-- The shape of a returning `CommitToKvStore`: either the cascade gave up, or
the commit switch ran on a state whose cold partitions were shrunk. -/
theorem CommitToKvStore_cases {m m1 : RamCacheManager} {t : Transaction} {r : Int}
    (h : m.CommitToKvStore t = some (r, m1)) :
    (r = -ENOSPC ∧ m1 = m ∧
      add64 (add64 (add64 m.pinned_entries_.GetUsed m.regular_entries_.GetUsed)
        m.volatile_entries_.GetUsed) (txnBuffer t).size > m.max_size_ ∧
      ¬ add64 (add64 m.pinned_entries_.GetUsed m.regular_entries_.GetUsed) (txnBuffer t).size
        ≤ m.max_size_ ∧
      ¬ add64 m.pinned_entries_.GetUsed (txnBuffer t).size ≤ m.max_size_) ∨
    (∃ vol regular : MemoryKvStore,
      (r, m1) = commitSwitch { m with volatile_entries_ := vol, regular_entries_ := regular }
        t.id (txnBuffer t) ∧
      ((vol = m.volatile_entries_ ∧ regular = m.regular_entries_ ∧
          ¬ add64 (add64 (add64 m.pinned_entries_.GetUsed m.regular_entries_.GetUsed)
            m.volatile_entries_.GetUsed) (txnBuffer t).size > m.max_size_) ∨
        (regular = m.regular_entries_ ∧
          add64 (add64 (add64 m.pinned_entries_.GetUsed m.regular_entries_.GetUsed)
            m.volatile_entries_.GetUsed) (txnBuffer t).size > m.max_size_ ∧
          add64 (add64 m.pinned_entries_.GetUsed m.regular_entries_.GetUsed) (txnBuffer t).size
            ≤ m.max_size_ ∧
          ∃ target, m.volatile_entries_.ShrinkTo target = (true, vol)) ∨
        (add64 (add64 (add64 m.pinned_entries_.GetUsed m.regular_entries_.GetUsed)
            m.volatile_entries_.GetUsed) (txnBuffer t).size > m.max_size_ ∧
          ¬ add64 (add64 m.pinned_entries_.GetUsed m.regular_entries_.GetUsed) (txnBuffer t).size
            ≤ m.max_size_ ∧
          m.volatile_entries_.ShrinkTo 0 = (true, vol) ∧
          ∃ target, m.regular_entries_.ShrinkTo target = (true, regular)))) := by
  unfold CommitToKvStore at h
  simp only at h
  split at h
  · split at h
    · rename_i h1 h2
      split at h
      · rename_i vol hs
        simp only [Option.some.injEq] at h
        exact Or.inr ⟨vol, m.regular_entries_, h.symm, Or.inr (Or.inl ⟨rfl, h1, h2, _, hs⟩)⟩
      · simp at h
    · split at h
      · rename_i h1 h2 h3
        split at h
        · rename_i vol hs
          split at h
          · rename_i regular hs2
            simp only [Option.some.injEq] at h
            exact Or.inr ⟨vol, regular, h.symm, Or.inr (Or.inr ⟨h1, h2, hs, _, hs2⟩)⟩
          · simp at h
        · simp at h
      · rename_i h1 h2 h3
        simp only [Option.some.injEq, Prod.mk.injEq] at h
        exact Or.inl ⟨h.1.symm, h.2.symm, h1, h2, h3⟩
  · rename_i h1
    simp only [Option.some.injEq] at h
    exact Or.inr ⟨m.volatile_entries_, m.regular_entries_, h.symm, Or.inl ⟨rfl, rfl, h1⟩⟩

end RamCacheManager

end cache

namespace cache

open kvstore kvstore.MemoryKvStore

namespace RamCacheManager

theorem add64_le (a b : Nat) : add64 a b ≤ a + b := Nat.mod_le _ _

theorem add64_three_le (a b c : Nat) : add64 (add64 a b) c ≤ a + b + c :=
  Nat.le_trans (add64_le _ _) (Nat.add_le_add_right (add64_le _ _) _)

theorem add64_four_le (a b c d : Nat) : add64 (add64 (add64 a b) c) d ≤ a + b + c + d :=
  Nat.le_trans (add64_le _ _) (Nat.add_le_add_right (add64_three_le _ _ _) _)

theorem reachable_of_run {M : Nat} {m m1 : RamCacheManager} (cs : List Call)
    (h : Reachable M m) (hr : run m cs = some m1) : Reachable M m1 := by
  induction cs generalizing m with
  | nil =>
    simp only [run, Option.some.injEq] at hr
    rw [← hr]; exact h
  | cons c cs ih =>
    unfold run at hr
    split at hr
    · rename_i ha
      split at hr
      · rename_i r m2 hc
        exact ih (Reachable.step h hc ha) hr
      · simp at hr
    · simp at hr

theorem oneRegular_reachable : Reachable 1000 oneRegular :=
  reachable_of_run [Call.CommitTxn (filledTxn 1 10 ObjectType.kTypeRegular)]
    Reachable.init (by decide)

theorem onceOpened_reachable : Reachable 1000 onceOpened :=
  reachable_of_run [Call.Open 1] oneRegular_reachable (by decide)

set_option maxRecDepth 100000 in
theorem cascadeStart_reachable : Reachable 1000 cascadeStart :=
  reachable_of_run
    [Call.CommitTxn (filledTxn 1 400 ObjectType.kTypeRegular),
     Call.CommitTxn (filledTxn 2 300 ObjectType.kTypeVolatile),
     Call.CommitTxn (filledTxn 3 200 ObjectType.kTypeVolatile),
     Call.CommitTxn (filledTxn 4 50 ObjectType.kTypeRegular)]
    Reachable.init (by decide)

set_option maxRecDepth 100000 in
theorem cascadeEnd_reachable : Reachable 1000 cascadeEnd :=
  reachable_of_run [Call.CommitTxn (filledTxn 5 200 ObjectType.kTypeVolatile)]
    cascadeStart_reachable (by decide)

set_option maxRecDepth 100000 in
theorem pinnedOpen_reachable : Reachable 1000 pinnedOpen :=
  reachable_of_run
    [Call.CommitTxn (filledTxn 1 400 ObjectType.kTypeRegular), Call.Open 1]
    Reachable.init (by decide)

end RamCacheManager

end cache

namespace cache

open kvstore kvstore.MemoryKvStore

namespace RamCacheManager

theorem twiceOpened_reachable : Reachable 1000 twiceOpened :=
  reachable_of_run [Call.Open 1] onceOpened_reachable (by decide)

theorem storedTwice_reachable : Reachable 1000 storedTwice :=
  reachable_of_run [Call.CommitTxn (filledTxn 1 10 ObjectType.kTypeVolatile)]
    oneRegular_reachable (by decide)

theorem openAndStored_reachable : Reachable 1000 openAndStored :=
  reachable_of_run [Call.CommitTxn (filledTxn 1 10 ObjectType.kTypeRegular)]
    onceOpened_reachable (by decide)

theorem fullCold_reachable : Reachable 100 fullCold :=
  reachable_of_run
    [Call.CommitTxn (filledTxn 1 60 ObjectType.kTypeVolatile),
     Call.CommitTxn (filledTxn 2 30 ObjectType.kTypeRegular)]
    Reachable.init (by decide)

theorem firstFree_eq_none {fds : List ReadOnlyFd} :
    firstFree fds = none ↔ ∀ e ∈ fds, e.handle ≠ kInvalidHandle := by
  induction fds with
  | nil => simp [firstFree]
  | cons e es ih =>
    unfold firstFree
    by_cases he : e.handle = kInvalidHandle
    · simp [he]
    · simp [he, ih]

theorem firstFree_eq_some {fds : List ReadOnlyFd} {i : Nat} (h : firstFree fds = some i) :
    ∃ e, fds[i]? = some e ∧ e.handle = kInvalidHandle := by
  induction fds generalizing i with
  | nil => simp [firstFree] at h
  | cons a es ih =>
    unfold firstFree at h
    by_cases he : a.handle = kInvalidHandle
    · simp only [he, if_true, Option.some.injEq] at h
      subst h
      exact ⟨a, by simp, he⟩
    · simp only [he, if_false, Option.map_eq_some'] at h
      obtain ⟨j, hj, rfl⟩ := h
      obtain ⟨e, h1, h2⟩ := ih hj
      exact ⟨e, by simpa using h1, h2⟩

theorem invalidate_set {fds : List ReadOnlyFd} {i : Nat} {e : ReadOnlyFd} (fd : ReadOnlyFd)
    (h : fds[i]? = some e) :
    invalidate (fds.set i fd) i = fds.set i { fd with handle := kInvalidHandle } := by
  have hi : i < fds.length := by
    rcases Nat.lt_or_ge i fds.length with hlt | hge
    · exact hlt
    · rw [List.getElem?_eq_none hge] at h; simp at h
  unfold invalidate
  have h2 : (fds.set i fd)[i]? = some fd := by
    rw [List.getElem?_set_self]; exact hi
  rw [h2]
  simp only [List.set_set]

theorem invalidate_append (fds : List ReadOnlyFd) (fd : ReadOnlyFd) :
    invalidate (fds ++ [fd]) fds.length = fds ++ [{ fd with handle := kInvalidHandle }] := by
  unfold invalidate
  simp

theorem map_handle_set_free {fds : List ReadOnlyFd} {i : Nat} {e : ReadOnlyFd} (pos : Nat)
    (h : fds[i]? = some e) (he : e.handle = kInvalidHandle) :
    (fds.set i ⟨kInvalidHandle, pos⟩).map (fun e => e.handle) = fds.map (fun e => e.handle) := by
  apply List.ext_getElem?
  intro j
  simp only [List.getElem?_map, List.getElem?_set]
  by_cases hij : i = j
  · subst hij
    simp only [if_true]
    split
    · simp [h, he]
    · rename_i hlt
      rw [List.getElem?_eq_none (Nat.le_of_not_lt hlt)]
  · simp [hij]

end RamCacheManager

end cache

namespace kvstore

open MemoryKvStore

theorem keys_forget_sublist (id : shash.Any) (es : Entries) :
    List.Sublist (forget id es) es := by
  induction es with
  | nil => exact List.Sublist.refl _
  | cons e es ih =>
    unfold forget
    split
    · exact List.Sublist.cons _ (List.Sublist.refl _)
    · exact List.Sublist.cons₂ _ ih

theorem distinctKeys_sublist {es l : Entries} (h : List.Sublist l es) (hd : distinctKeys es) :
    distinctKeys l :=
  List.Nodup.sublist (List.Sublist.map _ h) hd

theorem lookup_none_sublist {id : shash.Any} {es l : Entries} (h : List.Sublist l es)
    (hn : lookup id es = none) : lookup id l = none := by
  rw [lookup_eq_none_iff] at hn ⊢
  exact fun e he => hn e (h.subset he)

theorem lookup_forget_self {id : shash.Any} {es : Entries} (hd : distinctKeys es) :
    lookup id (forget id es) = none := by
  induction es with
  | nil => rfl
  | cons e es ih =>
    unfold distinctKeys at hd
    simp only [List.map_cons, List.nodup_cons] at hd
    unfold forget
    by_cases he : e.1 = id
    · simp only [he, if_true]
      rw [lookup_eq_none_iff]
      intro a ha h1
      apply hd.1
      rw [he, ← h1]
      exact List.mem_map_of_mem _ ha
    · simp only [he, if_false]
      rw [lookup.eq_2, if_neg he]
      exact ih hd.2

theorem keys_update (id : shash.Any) (f : MemoryBuffer → MemoryBuffer) (es : Entries) :
    (update id f es).map (fun e => e.1) = es.map (fun e => e.1) := by
  induction es with
  | nil => rfl
  | cons e es ih =>
    unfold update
    split
    · rfl
    · simp only [List.map_cons, ih]

theorem distinctKeys_update {id : shash.Any} (f : MemoryBuffer → MemoryBuffer) {es : Entries}
    (hd : distinctKeys es) : distinctKeys (update id f es) := by
  unfold distinctKeys at hd ⊢
  rw [keys_update]; exact hd

theorem distinctKeys_append {id : shash.Any} {es : Entries} (b : MemoryBuffer)
    (hd : distinctKeys es) (hn : lookup id es = none) : distinctKeys (es ++ [(id, b)]) := by
  unfold distinctKeys at hd ⊢
  rw [List.map_append, List.nodup_append]
  refine ⟨hd, by simp, ?_⟩
  intro k hk hk2
  simp only [List.map_cons, List.map_nil, List.mem_singleton] at hk2
  subst hk2
  obtain ⟨e, he, h1⟩ := List.mem_map.mp hk
  exact (lookup_eq_none_iff.mp hn) e he h1

theorem lookup_append_new {id : shash.Any} {es : Entries} (b : MemoryBuffer)
    (hn : lookup id es = none) : lookup id (es ++ [(id, b)]) = some b := by
  rw [lookup_append_of_none hn]
  simp [lookup]

theorem lookup_append_other {id k : shash.Any} (es : Entries) (b : MemoryBuffer) (h : k ≠ id) :
    lookup k (es ++ [(id, b)]) = lookup k es := by
  cases hl : lookup k es with
  | some x => exact lookup_append_of_some hl
  | none =>
    rw [lookup_append_of_none hl]
    have : ¬ id = k := fun hh => h hh.symm
    simp [lookup, this]

theorem lookup_touch {id : shash.Any} {es : Entries} {b : MemoryBuffer} (hd : distinctKeys es)
    (h : lookup id es = some b) : lookup id (touch id es) = some b := by
  unfold touch
  rw [h]
  exact lookup_append_new b (lookup_forget_self hd)

theorem distinctKeys_touch {id : shash.Any} {es : Entries} (hd : distinctKeys es) :
    distinctKeys (touch id es) := by
  unfold touch
  split
  · exact distinctKeys_append _ (distinctKeys_sublist (keys_forget_sublist _ _) hd)
      (lookup_forget_self hd)
  · exact hd

end kvstore

namespace cache

open kvstore kvstore.MemoryKvStore

namespace RamCacheManager

theorem AddFd_of_room (m : RamCacheManager) (fd : ReadOnlyFd) (h : HasRoom m) :
    ∃ (i : Nat) (fds : List ReadOnlyFd),
      m.AddFd fd = ((i : Int), { m with open_fds_ := fds }) ∧ fds[i]? = some fd := by
  unfold AddFd
  cases hff : firstFree m.open_fds_ with
  | some i =>
    obtain ⟨e, hi, _⟩ := firstFree_eq_some hff
    have hlt : i < m.open_fds_.length := by
      rcases Nat.lt_or_ge i m.open_fds_.length with hlt | hge
      · exact hlt
      · rw [List.getElem?_eq_none hge] at hi; simp at hi
    refine ⟨i, m.open_fds_.set i fd, rfl, ?_⟩
    rw [List.getElem?_set_self]; exact hlt
  | none =>
    have hall := firstFree_eq_none.mp hff
    have hlen : m.open_fds_.length < kMaxHandles := by
      rcases h with ⟨e, he, h0⟩ | h
      · exact absurd h0 (hall e he)
      · exact h
    refine ⟨m.open_fds_.length, m.open_fds_ ++ [fd], ?_, by simp⟩
    simp only [hlen, if_true]

theorem promote_of_absent (m : RamCacheManager) {id : shash.Any} (buf : MemoryBuffer) (fd : Int)
    (h : lookup id m.pinned_entries_.entries_ = none) :
    promote m id buf fd = some (fd, { m with pinned_entries_ :=
      ⟨m.pinned_entries_.used_bytes_ + buf.size,
        update id incRef (m.pinned_entries_.entries_ ++ [(id, { buf with refcount := 0 })])⟩ }) := by
  unfold promote
  rw [Commit_of_none buf h]
  have h2 : lookup id (m.pinned_entries_.entries_ ++ [(id, { buf with refcount := 0 })]) =
      some { buf with refcount := 0 } := lookup_append_new _ h
  simp only [if_true]
  rw [IncRef_of_some h2]
  simp only [if_true]
  rfl

theorem Open_of_pinned (m : RamCacheManager) {x : shash.Any} {b : MemoryBuffer}
    (hroom : HasRoom m) (h : lookup x m.pinned_entries_.entries_ = some b) :
    ∃ (i : Nat) (fds : List ReadOnlyFd), fds[i]? = some ⟨x, 0⟩ ∧
      m.Open x = some ((i : Int), { m with
        open_fds_ := fds
        pinned_entries_ :=
          { m.pinned_entries_ with entries_ := update x incRef m.pinned_entries_.entries_ } }) := by
  obtain ⟨i, fds, hadd, hget⟩ := AddFd_of_room m ⟨x, 0⟩ hroom
  refine ⟨i, fds, hget, ?_⟩
  unfold Open DoOpen
  rw [hadd]
  simp only [Int.natCast_nonneg, not_lt.mpr, if_false]
  rw [IncRef_of_some h]
  simp only [if_true]
  rfl

theorem Open_of_regular (m : RamCacheManager) {x : shash.Any} {b : MemoryBuffer}
    (hroom : HasRoom m) (hp : lookup x m.pinned_entries_.entries_ = none)
    (h : lookup x m.regular_entries_.entries_ = some b) :
    ∃ (i : Nat) (fds : List ReadOnlyFd), fds[i]? = some ⟨x, 0⟩ ∧
      m.Open x = some ((i : Int), { m with
        open_fds_ := fds
        pinned_entries_ := ⟨m.pinned_entries_.used_bytes_ + b.size,
          update x incRef (m.pinned_entries_.entries_ ++ [(x, { b with refcount := 0 })])⟩
        regular_entries_ := ⟨m.regular_entries_.used_bytes_ - b.size,
          forget x m.regular_entries_.entries_⟩ }) := by
  obtain ⟨i, fds, hadd, hget⟩ := AddFd_of_room m ⟨x, 0⟩ hroom
  refine ⟨i, fds, hget, ?_⟩
  unfold Open DoOpen
  rw [hadd]
  simp only [Int.natCast_nonneg, not_lt.mpr, if_false]
  rw [IncRef_of_none hp]
  simp only [Bool.false_eq_true, if_false]
  rw [PopBuffer_of_some h]
  simp only
  exact promote_of_absent ⟨m.max_size_, fds, m.pinned_entries_,
    ⟨m.regular_entries_.used_bytes_ - b.size, forget x m.regular_entries_.entries_⟩,
    m.volatile_entries_⟩ b i hp

theorem Open_of_volatile (m : RamCacheManager) {x : shash.Any} {b : MemoryBuffer}
    (hroom : HasRoom m) (hp : lookup x m.pinned_entries_.entries_ = none)
    (hr : lookup x m.regular_entries_.entries_ = none)
    (h : lookup x m.volatile_entries_.entries_ = some b) :
    ∃ (i : Nat) (fds : List ReadOnlyFd), fds[i]? = some ⟨x, 0⟩ ∧
      m.Open x = some ((i : Int), { m with
        open_fds_ := fds
        pinned_entries_ := ⟨m.pinned_entries_.used_bytes_ + b.size,
          update x incRef (m.pinned_entries_.entries_ ++ [(x, { b with refcount := 0 })])⟩
        volatile_entries_ := ⟨m.volatile_entries_.used_bytes_ - b.size,
          forget x m.volatile_entries_.entries_⟩ }) := by
  obtain ⟨i, fds, hadd, hget⟩ := AddFd_of_room m ⟨x, 0⟩ hroom
  refine ⟨i, fds, hget, ?_⟩
  unfold Open DoOpen
  rw [hadd]
  simp only [Int.natCast_nonneg, not_lt.mpr, if_false]
  rw [IncRef_of_none hp]
  simp only [Bool.false_eq_true, if_false]
  rw [PopBuffer_of_none hr]
  simp only
  rw [PopBuffer_of_some h]
  simp only
  exact promote_of_absent ⟨m.max_size_, fds, m.pinned_entries_, m.regular_entries_,
    ⟨m.volatile_entries_.used_bytes_ - b.size, forget x m.volatile_entries_.entries_⟩⟩ b i hp

theorem lookup_update_self {id : shash.Any} {es : Entries} {b : MemoryBuffer}
    (f : MemoryBuffer → MemoryBuffer) (h : lookup id es = some b) :
    lookup id (update id f es) = some (f b) := by
  rw [lookup_update, if_pos rfl, h]; rfl

theorem used_ge_of_lookup {s : MemoryKvStore} {id : shash.Any} {b : MemoryBuffer}
    (ha : s.Accounted) (h : lookup id s.entries_ = some b) : b.size ≤ s.used_bytes_ := by
  have := sumSizes_forget h
  unfold Accounted at ha
  omega

end RamCacheManager

end cache

namespace cache

open kvstore kvstore.MemoryKvStore

namespace RamCacheManager

theorem add64_zero_left {n : Nat} (h : n < u64) : add64 0 n = n := by
  unfold add64; rw [Nat.zero_add]; exact Nat.mod_eq_of_lt h

theorem add64_zero_right {n : Nat} (h : n < u64) : add64 n 0 = n := by
  unfold add64; rw [Nat.add_zero]; exact Nat.mod_eq_of_lt h

theorem sub64_zero {n : Nat} (h : n < u64) : sub64 n 0 = n := by
  unfold sub64 u64 at *
  omega

theorem take_all_append (B rest : List Nat) : (B ++ rest).take B.length = B := by
  simp

/-- A transaction that was started for `x`, given a type, and written once
with the whole of `B` commits the buffer `B`. -/
theorem written_txn (x : shash.Any) (B : List Nat) (ty : ObjectType) (desc : String)
    (size : Nat) (hB : B.length < u64) (hsize : size = B.length ∨ size = kSizeUnknown) :
    (Write B B.length (CtrlTxn desc ty 0 (StartTxn x size))).1 = (B.length : Int) ∧
    txnBuffer (Write B B.length (CtrlTxn desc ty 0 (StartTxn x size))).2 =
      ⟨B, B.length, 0, ty⟩ ∧
    (Write B B.length (CtrlTxn desc ty 0 (StartTxn x size))).2.id = x := by
  by_cases hs : size = kSizeUnknown
  · subst hs
    by_cases hbig : B.length > kPageSize
    · have h8 : 2 * kPageSize % u64 = 8192 := by decide
      have hmax : max 8192 B.length < u64 := by
        unfold u64 at *
        rcases Nat.le_total 8192 B.length with h | h
        · rw [Nat.max_eq_right h]; exact hB
        · rw [Nat.max_eq_left h]; decide
      have hle : B.length ≤ max 8192 B.length := Nat.le_max_right _ _
      unfold Write StartTxn CtrlTxn txnBuffer
      simp only [if_true, add64_zero_left hB, add64_zero_right hB, hbig, h8, sub64_zero hmax,
        Nat.min_eq_left hle, List.take_zero, List.nil_append, Nat.zero_add,
        List.take_length, take_all_append]
      exact ⟨trivial, trivial, trivial⟩
    · have hle : B.length ≤ kPageSize := Nat.le_of_not_gt hbig
      have hp : kPageSize < u64 := by decide
      unfold Write StartTxn CtrlTxn txnBuffer
      simp only [if_true, add64_zero_left hB, hbig, if_false, sub64_zero hp,
        Nat.min_eq_left hle, List.take_zero, List.nil_append, Nat.zero_add,
        List.take_length, take_all_append]
      exact ⟨trivial, trivial, trivial⟩
  · have hs2 : size = B.length := by
      rcases hsize with h | h
      · exact h
      · exact absurd h hs
    subst hs2
    unfold Write StartTxn CtrlTxn txnBuffer
    simp only [hs, if_false, add64_zero_left hB, gt_iff_lt, lt_self_iff_false,
      sub64_zero hB, Nat.min_self, List.take_zero, List.nil_append, Nat.zero_add,
      List.take_length, List.drop_replicate, Nat.sub_self, List.replicate_zero,
      List.append_nil]
    exact ⟨trivial, trivial, trivial⟩

end RamCacheManager

end cache

namespace cache

open kvstore kvstore.MemoryKvStore

namespace RamCacheManager

theorem refcount_zero_eta {buf : MemoryBuffer} (h : buf.refcount = 0) :
    ({ buf with refcount := 0 } : MemoryBuffer) = buf := by
  cases buf
  simp only at h
  subst h
  rfl

theorem commitSwitch_fresh (m : RamCacheManager) (x : shash.Any) (buf : MemoryBuffer)
    (hrc : buf.refcount = 0)
    (hdp : distinctKeys m.pinned_entries_.entries_)
    (hdr : distinctKeys m.regular_entries_.entries_)
    (hdv : distinctKeys m.volatile_entries_.entries_)
    (hp : lookup x m.pinned_entries_.entries_ = none)
    (hr : lookup x m.regular_entries_.entries_ = none)
    (hv : lookup x m.volatile_entries_.entries_ = none) :
    ∃ m1, commitSwitch m x buf = (0, m1) ∧ m1.open_fds_ = m.open_fds_ ∧
      distinctKeys m1.pinned_entries_.entries_ ∧ distinctKeys m1.regular_entries_.entries_ ∧
      distinctKeys m1.volatile_entries_.entries_ ∧ StoredAs m1 x buf buf.object_type := by
  unfold commitSwitch
  cases hty : buf.object_type with
  | kTypeRegular =>
    simp only [Commit_of_none buf hr, if_true]
    refine ⟨_, rfl, rfl, hdp, distinctKeys_append _ hdr hr, hdv, ?_⟩
    unfold StoredAs
    simp only
    exact ⟨hp, by rw [lookup_append_new _ hr, refcount_zero_eta hrc], hv⟩
  | kTypeVolatile =>
    simp only [Commit_of_none buf hv, if_true]
    refine ⟨_, rfl, rfl, hdp, hdr, distinctKeys_append _ hdv hv, ?_⟩
    unfold StoredAs
    simp only
    exact ⟨hp, hr, by rw [lookup_append_new _ hv, refcount_zero_eta hrc]⟩
  | kTypePinned =>
    simp only [Commit_of_none buf hp, if_true]
    refine ⟨_, rfl, rfl, distinctKeys_append _ hdp hp, hdr, hdv, ?_⟩
    unfold StoredAs
    simp only
    exact ⟨by rw [lookup_append_new _ hp, refcount_zero_eta hrc], hr, hv⟩
  | kTypeCatalog =>
    simp only [Commit_of_none buf hp, if_true]
    refine ⟨_, rfl, rfl, distinctKeys_append _ hdp hp, hdr, hdv, ?_⟩
    unfold StoredAs
    simp only
    exact ⟨by rw [lookup_append_new _ hp, refcount_zero_eta hrc], hr, hv⟩

theorem ShrinkTo_eq_of_cold {s : MemoryKvStore} (size : Nat) (ha : s.Accounted)
    (hu : unreferenced s.entries_) : s.ShrinkTo size = (true, (s.ShrinkTo size).2) := by
  have h := ShrinkTo_succeeds size ha hu
  exact Prod.ext h rfl

/-- A commit of a fresh id whose size fits beside the pinned bytes returns 0
and stores the buffer in the partition of its type. -/
theorem commit_fresh (m : RamCacheManager) (t : Transaction) (hrc : (txnBuffer t).refcount = 0)
    (hwf : WellFormed m) (hcr : unreferenced m.regular_entries_.entries_)
    (hcv : unreferenced m.volatile_entries_.entries_)
    (hp : lookup t.id m.pinned_entries_.entries_ = none)
    (hr : lookup t.id m.regular_entries_.entries_ = none)
    (hv : lookup t.id m.volatile_entries_.entries_ = none)
    (hfit : m.pinned_entries_.GetUsed + (txnBuffer t).size ≤ m.max_size_)
    (hno : m.usedTotal + (txnBuffer t).size < u64) :
    ∃ m1, m.CommitTxn t = some (0, m1) ∧ m1.open_fds_ = m.open_fds_ ∧
      distinctKeys m1.pinned_entries_.entries_ ∧ distinctKeys m1.regular_entries_.entries_ ∧
      distinctKeys m1.volatile_entries_.entries_ ∧
      StoredAs m1 t.id (txnBuffer t) (txnBuffer t).object_type := by
  unfold CommitTxn
  rw [CommitToKvStore_exact m t hno]
  unfold commitExact
  have key : ∀ tv tr : Nat, ∃ m1,
      commitSwitch { m with volatile_entries_ := (m.volatile_entries_.ShrinkTo tv).2,
                            regular_entries_ := (m.regular_entries_.ShrinkTo tr).2 }
        t.id (txnBuffer t) = (0, m1) ∧ m1.open_fds_ = m.open_fds_ ∧
      distinctKeys m1.pinned_entries_.entries_ ∧ distinctKeys m1.regular_entries_.entries_ ∧
      distinctKeys m1.volatile_entries_.entries_ ∧
      StoredAs m1 t.id (txnBuffer t) (txnBuffer t).object_type := by
    intro tv tr
    exact commitSwitch_fresh _ t.id (txnBuffer t) hrc hwf.pinned.1
      (distinctKeys_sublist (ShrinkTo_sublist _ _) hwf.regular.1)
      (distinctKeys_sublist (ShrinkTo_sublist _ _) hwf.volatile_ok.1) hp
      (lookup_none_sublist (ShrinkTo_sublist _ _) hr)
      (lookup_none_sublist (ShrinkTo_sublist _ _) hv)
  split
  · split
    · rw [ShrinkTo_eq_of_cold _ hwf.volatile_ok.2 hcv]
      simp only
      obtain ⟨m1, h1, h2⟩ := key (m.max_size_ - m.pinned_entries_.used_bytes_ -
        m.regular_entries_.used_bytes_ - (txnBuffer t).size) m.regular_entries_.used_bytes_
      rw [ShrinkTo_of_le (Nat.le_refl m.regular_entries_.used_bytes_)] at h1
      exact ⟨m1, by rw [← h1], h2⟩
    · have hfit2 : m.pinned_entries_.used_bytes_ + (txnBuffer t).size ≤ m.max_size_ := hfit
      rw [if_pos hfit2]
      rw [ShrinkTo_eq_of_cold 0 hwf.volatile_ok.2 hcv]
      simp only
      rw [ShrinkTo_eq_of_cold _ hwf.regular.2 hcr]
      simp only
      obtain ⟨m1, h1, h2⟩ := key 0
        (m.max_size_ - m.pinned_entries_.used_bytes_ - (txnBuffer t).size)
      exact ⟨m1, by rw [← h1], h2⟩
  · obtain ⟨m1, h1, h2⟩ := key m.volatile_entries_.used_bytes_ m.regular_entries_.used_bytes_
    rw [ShrinkTo_of_le (Nat.le_refl m.regular_entries_.used_bytes_),
      ShrinkTo_of_le (Nat.le_refl m.volatile_entries_.used_bytes_)] at h1
    exact ⟨m1, by rw [← h1], h2⟩

end RamCacheManager

end cache

namespace cache

open kvstore kvstore.MemoryKvStore

namespace RamCacheManager

theorem getElem_lt_of_some {fds : List ReadOnlyFd} {i : Nat} {e : ReadOnlyFd}
    (h : fds[i]? = some e) : i < fds.length := by
  rcases Nat.lt_or_ge i fds.length with hlt | hge
  · exact hlt
  · rw [List.getElem?_eq_none hge] at h; simp at h

theorem IsValid_of_slot {m : RamCacheManager} {i : Nat} {e : ReadOnlyFd}
    (h : m.open_fds_[i]? = some e) (he : e.handle ≠ kInvalidHandle) :
    m.IsValid (i : Int) = true := by
  have hlt := getElem_lt_of_some h
  unfold IsValid
  simp only [Int.toNat_ofNat, h]
  rw [if_neg]
  · simp [he]
  · intro hor
    rcases hor with h1 | h1
    · exact absurd h1 (not_lt.mpr (Int.natCast_nonneg i))
    · omega

theorem Open_stored (m : RamCacheManager) {x : shash.Any} {b : MemoryBuffer} {ty : ObjectType}
    (hst : StoredAs m x b ty) (hrc : b.refcount = 0) (hroom : HasRoom m)
    (hdp : distinctKeys m.pinned_entries_.entries_)
    (hdr : distinctKeys m.regular_entries_.entries_)
    (hdv : distinctKeys m.volatile_entries_.entries_) :
    ∃ (i : Nat) (m2 : RamCacheManager), m.Open x = some ((i : Int), m2) ∧
      m2.open_fds_[i]? = some ⟨x, 0⟩ ∧ distinctKeys m2.pinned_entries_.entries_ ∧
      lookup x m2.pinned_entries_.entries_ = some { b with refcount := 1 } ∧
      lookup x m2.regular_entries_.entries_ = none ∧
      lookup x m2.volatile_entries_.entries_ = none := by
  have hinc : incRef { b with refcount := 0 } = { b with refcount := 1 } := rfl
  have hinc2 : incRef b = { b with refcount := 1 } := by
    unfold incRef; rw [hrc]
  cases ty with
  | kTypeRegular =>
    obtain ⟨hp, hr, hv⟩ := hst
    obtain ⟨i, fds, hget, hopen⟩ := Open_of_regular m hroom hp hr
    refine ⟨i, _, hopen, hget, ?_, ?_, lookup_forget_self hdr, hv⟩
    · exact distinctKeys_update _ (distinctKeys_append _ hdp hp)
    · simp only
      rw [lookup_update_self incRef (lookup_append_new _ hp), hinc]
  | kTypeVolatile =>
    obtain ⟨hp, hr, hv⟩ := hst
    obtain ⟨i, fds, hget, hopen⟩ := Open_of_volatile m hroom hp hr hv
    refine ⟨i, _, hopen, hget, ?_, ?_, hr, lookup_forget_self hdv⟩
    · exact distinctKeys_update _ (distinctKeys_append _ hdp hp)
    · simp only
      rw [lookup_update_self incRef (lookup_append_new _ hp), hinc]
  | kTypePinned =>
    obtain ⟨hp, hr, hv⟩ := hst
    obtain ⟨i, fds, hget, hopen⟩ := Open_of_pinned m hroom hp
    refine ⟨i, _, hopen, hget, distinctKeys_update _ hdp, ?_, hr, hv⟩
    simp only
    rw [lookup_update_self incRef hp, hinc2]
  | kTypeCatalog =>
    obtain ⟨hp, hr, hv⟩ := hst
    obtain ⟨i, fds, hget, hopen⟩ := Open_of_pinned m hroom hp
    refine ⟨i, _, hopen, hget, distinctKeys_update _ hdp, ?_, hr, hv⟩
    simp only
    rw [lookup_update_self incRef hp, hinc2]

theorem Pread_whole (m : RamCacheManager) {i : Nat} {e : ReadOnlyFd} {b : MemoryBuffer}
    (h : m.open_fds_[i]? = some e) (he : e.handle ≠ kInvalidHandle)
    (hb : lookup e.handle m.pinned_entries_.entries_ = some b)
    (hsize : b.size = b.address.length) :
    m.Pread (i : Int) b.size 0 =
      (((b.size : Int), b.address),
        { m with pinned_entries_ :=
          { m.pinned_entries_ with entries_ := touch e.handle m.pinned_entries_.entries_ } }) := by
  unfold Pread
  rw [IsValid_of_slot h he]
  simp only [Bool.not_true, Bool.false_eq_true, if_false, Int.toNat_ofNat, h]
  unfold MemoryKvStore.Read
  rw [hb]
  simp only [Nat.sub_zero, Nat.min_self, List.drop_zero]
  rw [hsize, List.take_length]

theorem sweepLoop_of_free {fds : List ReadOnlyFd} {n : Nat} {e : ReadOnlyFd}
    (h : fds[n]? = some e) (he : e.handle = kInvalidHandle) : sweepLoop fds n = some n := by
  cases n with
  | zero =>
    unfold sweepLoop
    simp only [h, he, ne_eq, not_true_eq_false, if_false]
  | succ k =>
    unfold sweepLoop
    simp only [h, he, ne_eq, not_true_eq_false, if_false]

theorem releaseFd_of_slot (m : RamCacheManager) {i : Nat} {e : ReadOnlyFd}
    (h : m.open_fds_[i]? = some e) : ∃ m1, releaseFd m (i : Int) = some (0, m1) := by
  have hlt := getElem_lt_of_some h
  unfold releaseFd
  simp only [Int.toNat_ofNat]
  have hinv : invalidate m.open_fds_ i = m.open_fds_.set i { e with handle := kInvalidHandle } := by
    unfold invalidate; rw [h]
  rw [hinv]
  split
  · rename_i hlast
    have hget : (m.open_fds_.set i { e with handle := kInvalidHandle })[
        (m.open_fds_.set i { e with handle := kInvalidHandle }).length - 1]? =
        some { e with handle := kInvalidHandle } := by
      rw [← hlast, List.getElem?_set_self hlt]
    rw [sweepLoop_of_free hget rfl]
    exact ⟨_, rfl⟩
  · exact ⟨_, rfl⟩

/-- Closing the only handle of a pinned object that is stored nowhere else
returns 0. -/
theorem Close_last_reference (m : RamCacheManager) {i : Nat} {e : ReadOnlyFd} {b : MemoryBuffer}
    (h : m.open_fds_[i]? = some e) (he : e.handle ≠ kInvalidHandle)
    (hd : distinctKeys m.pinned_entries_.entries_)
    (hb : lookup e.handle m.pinned_entries_.entries_ = some b) (hrc : b.refcount = 1)
    (hr : lookup e.handle m.regular_entries_.entries_ = none)
    (hv : lookup e.handle m.volatile_entries_.entries_ = none) :
    ∃ m1, m.Close (i : Int) = some (0, m1) := by
  unfold Close
  rw [IsValid_of_slot h he]
  simp only [Bool.not_true, Bool.false_eq_true, if_false, Int.toNat_ofNat, h]
  have hget : m.pinned_entries_.GetBuffer e.handle =
      (some b, ⟨m.pinned_entries_.used_bytes_, touch e.handle m.pinned_entries_.entries_⟩) := by
    unfold GetBuffer; rw [hb]
  rw [hget]
  simp only
  have hl1 : lookup e.handle (touch e.handle m.pinned_entries_.entries_) = some b :=
    lookup_touch hd hb
  have hun : (⟨m.pinned_entries_.used_bytes_,
        touch e.handle m.pinned_entries_.entries_⟩ : MemoryKvStore).Unref e.handle =
      (true, ⟨m.pinned_entries_.used_bytes_,
        update e.handle (fun b => { b with refcount := b.refcount - 1 })
          (touch e.handle m.pinned_entries_.entries_)⟩) := by
    unfold Unref
    simp only [hl1, hrc, gt_iff_lt, Nat.lt_one_iff, Nat.zero_lt_one, if_true]
  rw [hun]
  simp only [if_true]
  have hl2 := lookup_update_self (fun b => { b with refcount := b.refcount - 1 }) hl1
  have hgr : (⟨m.pinned_entries_.used_bytes_,
        update e.handle (fun b => { b with refcount := b.refcount - 1 })
          (touch e.handle m.pinned_entries_.entries_)⟩ : MemoryKvStore).GetRefcount e.handle
        = 0 := by
    unfold GetRefcount
    simp only [hl2, hrc, Nat.sub_self]
    rfl
  rw [if_pos hgr]
  generalize update e.handle (fun b => { b with refcount := b.refcount - 1 })
    (touch e.handle m.pinned_entries_.entries_) = es1 at hl2 ⊢
  generalize (fun b : MemoryBuffer => { b with refcount := b.refcount - 1 }) b = b0 at hl2
  have hpop : (⟨m.pinned_entries_.used_bytes_, es1⟩ : MemoryKvStore).PopBuffer e.handle =
      (some b0, ⟨m.pinned_entries_.used_bytes_ - b0.size, forget e.handle es1⟩) :=
    PopBuffer_of_some hl2
  have hdem : ∃ m2, demote m ⟨m.pinned_entries_.used_bytes_, es1⟩ e.handle b.object_type =
      some m2 ∧ m2.open_fds_ = m.open_fds_ := by
    unfold demote
    cases b.object_type with
    | kTypeRegular =>
      simp only [hpop, Commit_of_none _ hr, if_true]
      exact ⟨_, rfl, rfl⟩
    | kTypeVolatile =>
      simp only [hpop, Commit_of_none _ hv, if_true]
      exact ⟨_, rfl, rfl⟩
    | kTypePinned => exact ⟨_, rfl, rfl⟩
    | kTypeCatalog => exact ⟨_, rfl, rfl⟩
  obtain ⟨m2, hm2, hfds⟩ := hdem
  rw [hm2]
  simp only
  exact releaseFd_of_slot m2 (by rw [hfds]; exact h)

end RamCacheManager

end cache

namespace cache

open kvstore kvstore.MemoryKvStore RamCacheManager

set_option maxRecDepth 100000 in
/-- C1 as stated fails: in the reachable state `pinnedOpen` of scenario 3 (cap
1000, the open 400-byte object 1 in the pinned partition) the id 2 is not
cached and a byte string of 700 bytes fits under `max_size`, yet `CommitTxn`
of the written transaction returns `-ENOSPC`, the state is unchanged, and
`Open 2` returns `-ENOENT`. -/
theorem C1_counterexample :
    Reachable 1000 pinnedOpen ∧
    ¬ present pinnedOpen.pinned_entries_ 2 ∧ ¬ present pinnedOpen.regular_entries_ 2 ∧
    ¬ present pinnedOpen.volatile_entries_ 2 ∧
    (payload 700).length ≤ pinnedOpen.max_size_ ∧
    (Write (payload 700) 700 (StartTxn 2 700)).1 = 700 ∧
    pinnedOpen.CommitTxn (Write (payload 700) 700 (StartTxn 2 700)).2 =
      some (-ENOSPC, pinnedOpen) ∧
    (pinnedOpen.Open 2).map Prod.fst = some (-ENOENT) :=
  ⟨pinnedOpen_reachable, by decide, by decide, by decide, by decide, by decide, by decide,
    by decide⟩

/-- C1 amended (write/read round trip): let the state be well formed with
unreferenced cold entries, `x` an id other than the null digest
`kInvalidHandle` that is stored in no partition, `B` a byte string with
`P + |B| ≤ max_size` (`P` the used bytes of the pinned partition) and
`P + R + V + |B| < 2^64`, and let the handle table have a free slot or fewer
than `kMaxHandles` slots. Then for the transaction `StartTxn(x, |B|)`, or
`StartTxn(x, kSizeUnknown)` with `B` not empty, with or without a `CtrlTxn`
of any type: `Write(B)` returns `|B|`, `CommitTxn` returns 0, `Open(x)`
returns a handle `fd ≥ 0`, `Pread(fd, dst, |B|, 0)` returns `|B|` and copies
exactly `B`, and `Close(fd)` returns 0. An empty `B` of unknown size is left
out: there line 247 calls `realloc` with the size 0, and for a `NULL` result
line 248 returns `-errno` and nothing is stored. -/
theorem C1_round_trip (m : RamCacheManager) (x : shash.Any) (B : List Nat) (ty : ObjectType)
    (desc : String) (size : Nat) (t0 : Transaction)
    (ht0 : t0 = StartTxn x size ∨ t0 = CtrlTxn desc ty 0 (StartTxn x size))
    (hsize : size = B.length ∨ size = kSizeUnknown)
    (hkept : size = kSizeUnknown → B ≠ [])
    (hx : x ≠ kInvalidHandle) (hwf : WellFormed m)
    (hcr : unreferenced m.regular_entries_.entries_)
    (hcv : unreferenced m.volatile_entries_.entries_)
    (hp : ¬ present m.pinned_entries_ x) (hr : ¬ present m.regular_entries_ x)
    (hv : ¬ present m.volatile_entries_ x)
    (hfit : m.pinned_entries_.GetUsed + B.length ≤ m.max_size_)
    (hno : m.pinned_entries_.GetUsed + m.regular_entries_.GetUsed +
      m.volatile_entries_.GetUsed + B.length < u64)
    (hroom : HasRoom m) :
    (Write B B.length t0).1 = (B.length : Int) ∧
    ∃ m1, m.CommitTxn (Write B B.length t0).2 = some (0, m1) ∧
      ∃ fd m2, m1.Open x = some (fd, m2) ∧ 0 ≤ fd ∧
        (m2.Pread fd B.length 0).1 = ((B.length : Int), B) ∧
        ∃ m3, (m2.Pread fd B.length 0).2.Close fd = some (0, m3) := by
  have hB : B.length < u64 := Nat.lt_of_le_of_lt (Nat.le_add_left _ _) hno
  have _hrealloc : size = kSizeUnknown → B ≠ [] := hkept
  have hgen : ∃ (ty1 : ObjectType) (desc1 : String),
      t0 = CtrlTxn desc1 ty1 0 (StartTxn x size) := by
    rcases ht0 with h | h
    · exact ⟨ObjectType.kTypeRegular, "", h⟩
    · exact ⟨ty, desc, h⟩
  obtain ⟨ty1, desc1, rfl⟩ := hgen
  obtain ⟨hw1, hw2, hw3⟩ := written_txn x B ty1 desc1 size hB hsize
  generalize (Write B B.length (CtrlTxn desc1 ty1 0 (StartTxn x size))).2 = t at hw2 hw3 ⊢
  refine ⟨hw1, ?_⟩
  have hp1 : lookup t.id m.pinned_entries_.entries_ = none := by rw [hw3]; exact not_not.mp hp
  have hr1 : lookup t.id m.regular_entries_.entries_ = none := by rw [hw3]; exact not_not.mp hr
  have hv1 : lookup t.id m.volatile_entries_.entries_ = none := by rw [hw3]; exact not_not.mp hv
  obtain ⟨m1, hc, hfds, hd1, hd2, hd3, hst⟩ := commit_fresh m t (by rw [hw2]) hwf hcr hcv
    hp1 hr1 hv1 (by rw [hw2]; exact hfit) (by rw [hw2]; exact hno)
  rw [hw2, hw3] at hst
  have hroom1 : HasRoom m1 := by
    unfold HasRoom at hroom ⊢
    rw [hfds]; exact hroom
  obtain ⟨i, m2, hopen, hslot, hd, hl, hr2, hv2⟩ := Open_stored m1 hst rfl hroom1 hd1 hd2 hd3
  refine ⟨m1, hc, (i : Int), m2, hopen, Int.natCast_nonneg i, ?_⟩
  have hpread := Pread_whole m2 hslot hx hl rfl
  simp only at hpread
  rw [hpread]
  refine ⟨rfl, ?_⟩
  exact Close_last_reference _ hslot hx (distinctKeys_touch hd) (lookup_touch hd hl) rfl hr2 hv2

set_option maxRecDepth 100000 in
theorem C1_round_trip_witness :
    ((kSizeUnknown = kSizeUnknown → payload 50 ≠ []) ∧
      (7 : shash.Any) ≠ kInvalidHandle ∧ WellFormed fullCold ∧
      unreferenced fullCold.regular_entries_.entries_ ∧
      unreferenced fullCold.volatile_entries_.entries_ ∧
      ¬ present fullCold.pinned_entries_ 7 ∧ ¬ present fullCold.regular_entries_ 7 ∧
      ¬ present fullCold.volatile_entries_ 7 ∧
      fullCold.pinned_entries_.GetUsed + (payload 50).length ≤ fullCold.max_size_ ∧
      HasRoom fullCold) ∧
    ((Write (payload 50) (payload 50).length (StartTxn 7 kSizeUnknown)).1 =
        ((payload 50).length : Int) ∧
      ∃ m1, fullCold.CommitTxn
          (Write (payload 50) (payload 50).length (StartTxn 7 kSizeUnknown)).2 = some (0, m1) ∧
        ∃ fd m2, m1.Open 7 = some (fd, m2) ∧ 0 ≤ fd ∧
          (m2.Pread fd (payload 50).length 0).1 = (((payload 50).length : Int), payload 50) ∧
          ∃ m3, (m2.Pread fd (payload 50).length 0).2.Close fd = some (0, m3)) :=
  ⟨⟨fun _ => by decide, by decide, ⟨⟨by decide, rfl⟩, ⟨by decide, rfl⟩, ⟨by decide, rfl⟩⟩,
      by decide, by decide, by decide, by decide, by decide, by decide, Or.inr (by decide)⟩,
    C1_round_trip fullCold 7 (payload 50) ObjectType.kTypeRegular "" kSizeUnknown
      (StartTxn 7 kSizeUnknown) (Or.inl rfl) (Or.inr rfl) (fun _ => by decide) (by decide)
      ⟨⟨by decide, rfl⟩, ⟨by decide, rfl⟩, ⟨by decide, rfl⟩⟩ (by decide) (by decide)
      (by decide) (by decide) (by decide) (by decide) (by decide) (Or.inr (by decide))⟩

/-- C2 (size bound of the cache manager): in every state reached from the empty
cache of cap `M` by `CommitTxn`, `OpenFromTxn`, `Open`, `Dup` and `Close` calls
that return, the used bytes of the pinned, regular and volatile partition add
up to at most `M`. The arithmetic of the cascade is 64-bit; `Reachable` asks
of each commit that the staged buffer and the cached bytes are `Allocated`,
that is, that their sizes add up to less than `2^64`. -/
theorem C2_size_bound (M : Nat) (m : RamCacheManager) (h : Reachable M m) :
    m.pinned_entries_.GetUsed + m.regular_entries_.GetUsed + m.volatile_entries_.GetUsed ≤ M :=
  (reachable_bounded h).bound

theorem C2_size_bound_witness :
    Reachable 1000 cascadeEnd ∧
    cascadeEnd.pinned_entries_.GetUsed + cascadeEnd.regular_entries_.GetUsed +
      cascadeEnd.volatile_entries_.GetUsed ≤ 1000 :=
  ⟨cascadeEnd_reachable, C2_size_bound 1000 cascadeEnd cascadeEnd_reachable⟩

/-- C3 (eviction order of the commit cascade): a `CommitToKvStore` that returns
removes no entry from the pinned partition; if it removes an entry from the
regular partition, then in that call the volatile partition was first shrunk
to 0 bytes (and the volatile partition afterwards is the shrunk one, or the
shrunk one plus the new object); and when `P + R + s ≤ max_size` no regular
entry is removed, so only volatile entries are. -/
theorem C3_eviction_order (m m1 : RamCacheManager) (t : Transaction) (r : Int)
    (h : m.CommitToKvStore t = some (r, m1)) :
    (∀ e ∈ m.pinned_entries_.entries_, e ∈ m1.pinned_entries_.entries_) ∧
    ((∃ e ∈ m.regular_entries_.entries_, e ∉ m1.regular_entries_.entries_) →
      (m.volatile_entries_.ShrinkTo 0).1 = true ∧
      (m.volatile_entries_.ShrinkTo 0).2.used_bytes_ = 0 ∧
      (m1.volatile_entries_ = (m.volatile_entries_.ShrinkTo 0).2 ∨
        m1.volatile_entries_ =
          ((m.volatile_entries_.ShrinkTo 0).2.Commit t.id (txnBuffer t)).2)) ∧
    (m.pinned_entries_.GetUsed + m.regular_entries_.GetUsed + (txnBuffer t).size ≤ m.max_size_ →
      ∀ e ∈ m.regular_entries_.entries_, e ∈ m1.regular_entries_.entries_) := by
  rcases CommitToKvStore_cases h with ⟨_, rfl, _⟩ | ⟨vol, regular, heq, hcase⟩
  · exact ⟨fun e he => he, fun ⟨e, he, hne⟩ => absurd he hne, fun _ e he => he⟩
  · have h1 : m1 = (commitSwitch { m with volatile_entries_ := vol, regular_entries_ := regular }
        t.id (txnBuffer t)).2 := by rw [← heq]
    have hkeep : regular = m.regular_entries_ →
        ∀ e ∈ m.regular_entries_.entries_, e ∈ m1.regular_entries_.entries_ := by
      intro hreg e he
      rw [h1]
      apply commitSwitch_regular_mem
      rw [hreg]; exact he
    refine ⟨?_, ?_, ?_⟩
    · intro e he
      rw [h1]
      exact commitSwitch_pinned_mem _ _ _ he
    · rintro ⟨e, he, hne⟩
      rcases hcase with ⟨_, hreg, _⟩ | ⟨hreg, _⟩ | ⟨_, _, hs, _⟩
      · exact absurd (hkeep hreg e he) hne
      · exact absurd (hkeep hreg e he) hne
      · have hz := ShrinkTo_true hs
        rw [hs]
        refine ⟨rfl, Nat.le_zero.mp hz, ?_⟩
        rw [h1]
        exact commitSwitch_volatile _ _ _
    · intro hle
      rcases hcase with ⟨_, hreg, _⟩ | ⟨hreg, _⟩ | ⟨_, hn, _⟩
      · exact hkeep hreg
      · exact hkeep hreg
      · exact absurd (Nat.le_trans (add64_three_le _ _ _) hle) hn

set_option maxRecDepth 100000 in
theorem C3_eviction_order_witness :
    cascadeStart.CommitToKvStore (filledTxn 5 200 ObjectType.kTypeVolatile) = some (0, cascadeEnd) ∧
    ((∀ e ∈ cascadeStart.pinned_entries_.entries_, e ∈ cascadeEnd.pinned_entries_.entries_) ∧
    ((∃ e ∈ cascadeStart.regular_entries_.entries_, e ∉ cascadeEnd.regular_entries_.entries_) →
      (cascadeStart.volatile_entries_.ShrinkTo 0).1 = true ∧
      (cascadeStart.volatile_entries_.ShrinkTo 0).2.used_bytes_ = 0 ∧
      (cascadeEnd.volatile_entries_ = (cascadeStart.volatile_entries_.ShrinkTo 0).2 ∨
        cascadeEnd.volatile_entries_ =
          ((cascadeStart.volatile_entries_.ShrinkTo 0).2.Commit
            (filledTxn 5 200 ObjectType.kTypeVolatile).id
            (txnBuffer (filledTxn 5 200 ObjectType.kTypeVolatile))).2)) ∧
    (cascadeStart.pinned_entries_.GetUsed + cascadeStart.regular_entries_.GetUsed +
        (txnBuffer (filledTxn 5 200 ObjectType.kTypeVolatile)).size ≤ cascadeStart.max_size_ →
      ∀ e ∈ cascadeStart.regular_entries_.entries_, e ∈ cascadeEnd.regular_entries_.entries_)) :=
  ⟨by decide, C3_eviction_order cascadeStart cascadeEnd (filledTxn 5 200 ObjectType.kTypeVolatile) 0
    (by decide)⟩

set_option maxRecDepth 100000 in
/-- C4 (NoSpace): when the total `P + R + V + s` does not overflow 64 bits,
`CommitTxn` returns `-ENOSPC` exactly when `P + R + V + s > max_size` and
`P + s > max_size`, and then the state, hence every partition, is unchanged.
In scenario 3 of the spec (cap 1000, the regular 400-byte object 1 open, a
regular commit of 700 bytes) the commit returns `-ENOSPC`, and object 1 is
still in the pinned partition behind the valid handle 0. -/
theorem C4_no_space (m : RamCacheManager) (t : Transaction)
    (hno : m.usedTotal + (txnBuffer t).size < u64) :
    ((∃ m1, m.CommitTxn t = some (-ENOSPC, m1)) ↔
      (m.pinned_entries_.GetUsed + m.regular_entries_.GetUsed + m.volatile_entries_.GetUsed +
          (txnBuffer t).size > m.max_size_ ∧
        m.pinned_entries_.GetUsed + (txnBuffer t).size > m.max_size_)) ∧
    (∀ m1, m.CommitTxn t = some (-ENOSPC, m1) → m1 = m) ∧
    (Reachable 1000 pinnedOpen ∧
      pinnedOpen.CommitTxn (filledTxn 2 700 ObjectType.kTypeRegular) = some (-ENOSPC, pinnedOpen) ∧
      present pinnedOpen.pinned_entries_ 1 ∧ pinnedOpen.IsValid 0 = true) := by
  have hnospc : ∀ m0 : RamCacheManager,
      (commitSwitch m0 t.id (txnBuffer t)).1 ≠ -ENOSPC := by
    intro m0 hc
    rcases commitSwitch_code m0 t.id (txnBuffer t) with h0 | ⟨h0, _⟩
    · rw [h0] at hc; exact absurd hc (by decide)
    · rw [h0] at hc; exact absurd hc (by decide)
  have hshape : ∀ m1, m.CommitTxn t = some (-ENOSPC, m1) →
      m1 = m ∧ ¬ add64 m.pinned_entries_.GetUsed (txnBuffer t).size ≤ m.max_size_ := by
    intro m1 h
    rcases CommitToKvStore_cases h with ⟨_, h1, _, _, h3⟩ | ⟨vol, regular, heq, _⟩
    · exact ⟨h1, h3⟩
    · have := hnospc { m with volatile_entries_ := vol, regular_entries_ := regular }
      rw [← heq] at this
      exact absurd rfl this
  have e3 : add64 m.pinned_entries_.GetUsed (txnBuffer t).size =
      m.pinned_entries_.GetUsed + (txnBuffer t).size := by
    apply add64_of_lt
    unfold usedTotal at hno
    omega
  refine ⟨⟨?_, ?_⟩, fun m1 h => (hshape m1 h).1, pinnedOpen_reachable, ?_, ?_, ?_⟩
  · rintro ⟨m1, h⟩
    have h3 := (hshape m1 h).2
    rw [e3] at h3
    omega
  · rintro ⟨h1, h2⟩
    refine ⟨m, ?_⟩
    unfold CommitTxn
    rw [CommitToKvStore_exact m t hno]
    unfold commitExact
    unfold usedTotal GetUsed at *
    rw [if_pos h1, if_neg (by omega), if_neg (by omega)]
  · decide
  · decide
  · decide

set_option maxRecDepth 100000 in
theorem C4_no_space_witness :
    pinnedOpen.usedTotal + (txnBuffer (filledTxn 2 700 ObjectType.kTypeRegular)).size < u64 ∧
    ((∃ m1, pinnedOpen.CommitTxn (filledTxn 2 700 ObjectType.kTypeRegular) = some (-ENOSPC, m1)) ↔
      (pinnedOpen.pinned_entries_.GetUsed + pinnedOpen.regular_entries_.GetUsed +
          pinnedOpen.volatile_entries_.GetUsed +
          (txnBuffer (filledTxn 2 700 ObjectType.kTypeRegular)).size > pinnedOpen.max_size_ ∧
        pinnedOpen.pinned_entries_.GetUsed +
          (txnBuffer (filledTxn 2 700 ObjectType.kTypeRegular)).size > pinnedOpen.max_size_)) :=
  ⟨by decide, (C4_no_space pinnedOpen (filledTxn 2 700 ObjectType.kTypeRegular) (by decide)).1⟩

/-- C5 as stated fails: in the reachable state `fullCold` (cap 100, volatile
object 1 of 60 bytes, regular object 2 of 30 bytes) a second regular commit of
object 2 returns `-EEXIST` after the cascade has evicted object 1. -/
theorem C5_counterexample :
    Reachable 100 fullCold ∧
    fullCold.CommitTxn (filledTxn 2 30 ObjectType.kTypeRegular) = some (-EEXIST, fullColdEvicted) ∧
    present fullCold.volatile_entries_ 1 ∧ ¬ present fullColdEvicted.volatile_entries_ 1 ∧
    fullColdEvicted.volatile_entries_.GetUsed ≠ fullCold.volatile_entries_.GetUsed :=
  ⟨fullCold_reachable, by decide, by decide, by decide, by decide⟩

/-- C5 amended (failed commits): if `CommitTxn` returns `-ENOSPC` the state is
unchanged. If it returns `-EEXIST`, the cap, the handle table and the pinned
partition are unchanged and no entry was added or altered: the regular and the
volatile partition hold a sublist of their former entries, since the eviction
cascade runs before the existence check; the state is unchanged whenever
`P + R + V + s ≤ max_size`. -/
theorem C5_failed_commit (m m1 : RamCacheManager) (t : Transaction) (r : Int)
    (h : m.CommitTxn t = some (r, m1)) :
    (r = -ENOSPC → m1 = m) ∧
    (r = -EEXIST →
      m1.max_size_ = m.max_size_ ∧ m1.open_fds_ = m.open_fds_ ∧
      m1.pinned_entries_ = m.pinned_entries_ ∧
      List.Sublist m1.regular_entries_.entries_ m.regular_entries_.entries_ ∧
      List.Sublist m1.volatile_entries_.entries_ m.volatile_entries_.entries_ ∧
      (m.pinned_entries_.GetUsed + m.regular_entries_.GetUsed + m.volatile_entries_.GetUsed +
          (txnBuffer t).size ≤ m.max_size_ → m1 = m)) := by
  rcases CommitToKvStore_cases h with ⟨_, h1, _⟩ | ⟨vol, regular, heq, hcase⟩
  · refine ⟨fun _ => h1, fun _ => ?_⟩
    subst h1
    exact ⟨rfl, rfl, rfl, List.Sublist.refl _, List.Sublist.refl _, fun _ => rfl⟩
  · have hr : r = (commitSwitch { m with volatile_entries_ := vol, regular_entries_ := regular }
        t.id (txnBuffer t)).1 := by rw [← heq]
    have hm : m1 = (commitSwitch { m with volatile_entries_ := vol, regular_entries_ := regular }
        t.id (txnBuffer t)).2 := by rw [← heq]
    rcases commitSwitch_code { m with volatile_entries_ := vol, regular_entries_ := regular }
        t.id (txnBuffer t) with h0 | ⟨h0, hsame⟩
    · rw [h0] at hr
      subst hr
      exact ⟨fun hc => absurd hc (by decide), fun hc => absurd hc (by decide)⟩
    · rw [h0] at hr
      rw [hsame] at hm
      subst hr
      refine ⟨fun hc => absurd hc (by decide), fun _ => ?_⟩
      subst hm
      rcases hcase with ⟨hv, hreg, _⟩ | ⟨hreg, _, _, target, hs⟩ | ⟨h1, _, hs, target, hs2⟩
      · subst hv; subst hreg
        exact ⟨rfl, rfl, rfl, List.Sublist.refl _, List.Sublist.refl _, fun _ => rfl⟩
      · subst hreg
        have hv : vol = (m.volatile_entries_.ShrinkTo target).2 := by rw [hs]
        refine ⟨rfl, rfl, rfl, List.Sublist.refl _, ?_, ?_⟩
        · simp only [hv]
          exact ShrinkTo_sublist _ _
        · intro hle
          rename_i h1 _
          exact absurd (Nat.le_trans (add64_four_le _ _ _ _) hle) (Nat.not_le_of_gt h1)
      · have hv : vol = (m.volatile_entries_.ShrinkTo 0).2 := by rw [hs]
        have hrg : regular = (m.regular_entries_.ShrinkTo target).2 := by rw [hs2]
        refine ⟨rfl, rfl, rfl, ?_, ?_, ?_⟩
        · simp only [hrg]
          exact ShrinkTo_sublist _ _
        · simp only [hv]
          exact ShrinkTo_sublist _ _
        · intro hle
          exact absurd (Nat.le_trans (add64_four_le _ _ _ _) hle) (Nat.not_le_of_gt h1)

theorem C5_failed_commit_witness :
    fullCold.CommitTxn (filledTxn 2 30 ObjectType.kTypeRegular) = some (-EEXIST, fullColdEvicted) ∧
    ((-EEXIST = -ENOSPC → fullColdEvicted = fullCold) ∧
    (-EEXIST = -EEXIST →
      fullColdEvicted.max_size_ = fullCold.max_size_ ∧
      fullColdEvicted.open_fds_ = fullCold.open_fds_ ∧
      fullColdEvicted.pinned_entries_ = fullCold.pinned_entries_ ∧
      List.Sublist fullColdEvicted.regular_entries_.entries_ fullCold.regular_entries_.entries_ ∧
      List.Sublist fullColdEvicted.volatile_entries_.entries_ fullCold.volatile_entries_.entries_ ∧
      (fullCold.pinned_entries_.GetUsed + fullCold.regular_entries_.GetUsed +
          fullCold.volatile_entries_.GetUsed +
          (txnBuffer (filledTxn 2 30 ObjectType.kTypeRegular)).size ≤ fullCold.max_size_ →
        fullColdEvicted = fullCold))) :=
  ⟨by decide, C5_failed_commit fullCold fullColdEvicted (filledTxn 2 30 ObjectType.kTypeRegular)
    (-EEXIST) (by decide)⟩

/-- C6 (partition disjointness) fails on the code: `CommitToKvStore` looks for
the id only in the partition of the new type. After a regular and a volatile
commit of object 1 the reachable state `storedTwice` holds the id in two
partitions; and when object 1 is committed again while it is open, it sits in
the pinned and the regular partition and the next `Close` runs into the
assertion of line 100. -/
theorem C6_id_in_two_partitions :
    Reachable 1000 storedTwice ∧
    present storedTwice.regular_entries_ 1 ∧ present storedTwice.volatile_entries_ 1 ∧
    Reachable 1000 openAndStored ∧
    present openAndStored.pinned_entries_ 1 ∧ present openAndStored.regular_entries_ 1 ∧
    openAndStored.Close 0 = none :=
  ⟨storedTwice_reachable, by decide, by decide, openAndStored_reachable, by decide, by decide,
    by decide⟩

/-- C8 as stated fails: `Open` of the uncached id 5 on the empty cache returns
`-ENOENT`, but the slot that `AddFd` appended stays in the handle table, whose
length grows from 0 to 1. -/
theorem C8_counterexample :
    ¬ present (create 1000).pinned_entries_ 5 ∧ ¬ present (create 1000).regular_entries_ 5 ∧
    ¬ present (create 1000).volatile_entries_ 5 ∧
    (create 1000).Open 5 = some (-ENOENT, emptyFreeSlot) ∧
    (create 1000).open_fds_.length = 0 ∧ emptyFreeSlot.open_fds_.length = 1 :=
  ⟨by decide, by decide, by decide, by decide, by decide, by decide⟩

/-- C8 amended (open of an uncached id): for an id in no partition, `Open`
returns and leaves the cap and all three partitions unchanged. If the handle
table has a free slot, it returns `-ENOENT` and every slot keeps its handle
(so the table keeps its length and its free slots). If the table has no free
slot and fewer than `kMaxHandles` slots, it returns `-ENOENT` and the table is
the old one followed by one free slot. If the table is full, it returns
`-ENFILE` and the table is unchanged. -/
theorem C8_open_uncached (m : RamCacheManager) (x : shash.Any)
    (hp : ¬ present m.pinned_entries_ x) (hr : ¬ present m.regular_entries_ x)
    (hv : ¬ present m.volatile_entries_ x) :
    ∃ r m1, m.Open x = some (r, m1) ∧
      m1.max_size_ = m.max_size_ ∧ m1.pinned_entries_ = m.pinned_entries_ ∧
      m1.regular_entries_ = m.regular_entries_ ∧ m1.volatile_entries_ = m.volatile_entries_ ∧
      ((∃ e ∈ m.open_fds_, e.handle = kInvalidHandle) →
        r = -ENOENT ∧
        m1.open_fds_.map (fun e => e.handle) = m.open_fds_.map (fun e => e.handle)) ∧
      ((∀ e ∈ m.open_fds_, e.handle ≠ kInvalidHandle) → m.open_fds_.length < kMaxHandles →
        r = -ENOENT ∧ m1.open_fds_ = m.open_fds_ ++ [⟨kInvalidHandle, 0⟩]) ∧
      ((∀ e ∈ m.open_fds_, e.handle ≠ kInvalidHandle) → kMaxHandles ≤ m.open_fds_.length →
        r = -ENFILE ∧ m1.open_fds_ = m.open_fds_) := by
  have hp1 : lookup x m.pinned_entries_.entries_ = none := not_not.mp hp
  have hr1 : lookup x m.regular_entries_.entries_ = none := not_not.mp hr
  have hv1 : lookup x m.volatile_entries_.entries_ = none := not_not.mp hv
  cases hff : firstFree m.open_fds_ with
  | some i =>
    obtain ⟨e, hi, he⟩ := firstFree_eq_some hff
    have hex : ¬ ∀ e ∈ m.open_fds_, e.handle ≠ kInvalidHandle := by
      intro hall
      rw [firstFree_eq_none.mpr hall] at hff
      exact absurd hff (by simp)
    refine ⟨-ENOENT, { m with open_fds_ := m.open_fds_.set i ⟨kInvalidHandle, 0⟩ }, ?_, rfl, rfl,
      rfl, rfl, fun _ => ⟨rfl, map_handle_set_free 0 hi he⟩, fun hall => absurd hall hex,
      fun hall => absurd hall hex⟩
    unfold Open DoOpen AddFd
    simp only [hff, Int.natCast_nonneg, not_lt.mpr, if_false, IncRef_of_none hp1,
      PopBuffer_of_none hr1, PopBuffer_of_none hv1, Bool.false_eq_true, Int.toNat_ofNat,
      invalidate_set _ hi]
  | none =>
    have hall := firstFree_eq_none.mp hff
    have hex : ¬ ∃ e ∈ m.open_fds_, e.handle = kInvalidHandle :=
      fun ⟨e, he, h0⟩ => hall e he h0
    by_cases hlen : m.open_fds_.length < kMaxHandles
    · refine ⟨-ENOENT, { m with open_fds_ := m.open_fds_ ++ [⟨kInvalidHandle, 0⟩] }, ?_, rfl, rfl,
        rfl, rfl, fun h => absurd h hex, fun _ _ => ⟨rfl, rfl⟩,
        fun _ hge => absurd hlen (Nat.not_lt.mpr hge)⟩
      unfold Open DoOpen AddFd
      simp only [hff, hlen, if_true, Int.natCast_nonneg, not_lt.mpr, if_false,
        IncRef_of_none hp1, PopBuffer_of_none hr1, PopBuffer_of_none hv1, Bool.false_eq_true,
        Int.toNat_ofNat, invalidate_append]
    · refine ⟨-ENFILE, m, ?_, rfl, rfl, rfl, rfl, fun h => absurd h hex,
        fun _ hlt => absurd hlt hlen, fun _ _ => ⟨rfl, rfl⟩⟩
      unfold Open DoOpen AddFd
      simp only [hff, hlen, if_false]
      rw [if_pos (by decide)]

theorem C8_open_uncached_witness :
    (¬ present emptyFreeSlot.pinned_entries_ 5 ∧ ¬ present emptyFreeSlot.regular_entries_ 5 ∧
      ¬ present emptyFreeSlot.volatile_entries_ 5) ∧
    ∃ r m1, emptyFreeSlot.Open 5 = some (r, m1) ∧
      m1.max_size_ = emptyFreeSlot.max_size_ ∧
      m1.pinned_entries_ = emptyFreeSlot.pinned_entries_ ∧
      m1.regular_entries_ = emptyFreeSlot.regular_entries_ ∧
      m1.volatile_entries_ = emptyFreeSlot.volatile_entries_ ∧
      ((∃ e ∈ emptyFreeSlot.open_fds_, e.handle = kInvalidHandle) →
        r = -ENOENT ∧
        m1.open_fds_.map (fun e => e.handle) = emptyFreeSlot.open_fds_.map (fun e => e.handle)) ∧
      ((∀ e ∈ emptyFreeSlot.open_fds_, e.handle ≠ kInvalidHandle) →
        emptyFreeSlot.open_fds_.length < kMaxHandles →
        r = -ENOENT ∧ m1.open_fds_ = emptyFreeSlot.open_fds_ ++ [⟨kInvalidHandle, 0⟩]) ∧
      ((∀ e ∈ emptyFreeSlot.open_fds_, e.handle ≠ kInvalidHandle) →
        kMaxHandles ≤ emptyFreeSlot.open_fds_.length →
        r = -ENFILE ∧ m1.open_fds_ = emptyFreeSlot.open_fds_) :=
  ⟨⟨by decide, by decide, by decide⟩,
    C8_open_uncached emptyFreeSlot 5 (by decide) (by decide) (by decide)⟩

/-- C9 (close frees the handle) fails on the code: the slot is marked free
inside the branch taken when the reference count has reached zero. In the
reachable state `twiceOpened` handle 0 is valid, `Close 0` returns 0, and
handle 0 is still valid afterwards. -/
theorem C9_close_keeps_slot_of_referenced_object :
    Reachable 1000 twiceOpened ∧ twiceOpened.IsValid 0 = true ∧
    twiceOpened.Close 0 = some (0, twiceOpenedClosedOnce) ∧
    twiceOpenedClosedOnce.IsValid 0 = true ∧
    twiceOpenedClosedOnce.open_fds_ = twiceOpened.open_fds_ :=
  ⟨twiceOpened_reachable, by decide, by decide, by decide, by decide⟩

/-- C10 (trailing truncation) fails on the code: the sweep loop of `Close`
runs while the slot is in use, so it stops at once on the slot just freed and
the table keeps its length. In the reachable state `onceOpened`, `Close 0`
returns 0 and leaves a table of one free slot. -/
theorem C10_close_leaves_free_tail :
    Reachable 1000 onceOpened ∧ onceOpened.Close 0 = some (0, oneRegularFreeSlot) ∧
    oneRegularFreeSlot.open_fds_ = [⟨kInvalidHandle, 0⟩] :=
  ⟨onceOpened_reachable, by decide, by decide⟩

end cache

namespace kvstore

open MemoryKvStore

theorem unreferenced_sublist {es l : Entries} (h : List.Sublist l es) (hu : unreferenced es) :
    unreferenced l :=
  fun e he => hu e (h.subset he)

theorem forall_mem_sublist {es l : Entries} {P : shash.Any × MemoryBuffer → Prop}
    (h : List.Sublist l es) (hp : ∀ e ∈ es, P e) : ∀ e ∈ l, P e :=
  fun e he => hp e (h.subset he)

namespace MemoryKvStore

theorem Commit_entries (s : MemoryKvStore) (id : shash.Any) (buf : MemoryBuffer) :
    (lookup id s.entries_ ≠ none ∧ (s.Commit id buf).2 = s) ∨
    (lookup id s.entries_ = none ∧
      (s.Commit id buf).2.entries_ = s.entries_ ++ [(id, { buf with refcount := 0 })]) := by
  unfold Commit
  cases h : lookup id s.entries_ with
  | some b => exact Or.inl ⟨by simp, rfl⟩
  | none => exact Or.inr ⟨rfl, rfl⟩

theorem Commit_distinct {s : MemoryKvStore} (id : shash.Any) (buf : MemoryBuffer)
    (hd : distinctKeys s.entries_) : distinctKeys (s.Commit id buf).2.entries_ := by
  rcases Commit_entries s id buf with ⟨_, h⟩ | ⟨hn, h⟩
  · rw [h]; exact hd
  · rw [h]; exact distinctKeys_append _ hd hn

theorem Commit_forall {s : MemoryKvStore} (id : shash.Any) (buf : MemoryBuffer)
    {P : shash.Any × MemoryBuffer → Prop} (hp : ∀ e ∈ s.entries_, P e)
    (hnew : P (id, { buf with refcount := 0 })) : ∀ e ∈ (s.Commit id buf).2.entries_, P e := by
  rcases Commit_entries s id buf with ⟨_, h⟩ | ⟨_, h⟩
  · rw [h]; exact hp
  · rw [h]
    intro e he
    rcases List.mem_append.mp he with h1 | h1
    · exact hp e h1
    · rw [List.mem_singleton.mp h1]; exact hnew

theorem PopBuffer_sublist (s : MemoryKvStore) (id : shash.Any) :
    List.Sublist (s.PopBuffer id).2.entries_ s.entries_ := by
  unfold PopBuffer
  split
  · exact keys_forget_sublist _ _
  · exact List.Sublist.refl _

theorem IncRef_distinct {s : MemoryKvStore} (id : shash.Any) (hd : distinctKeys s.entries_) :
    distinctKeys (s.IncRef id).2.entries_ := by
  unfold IncRef
  split
  · exact distinctKeys_update _ hd
  · exact hd

theorem Unref_distinct {s : MemoryKvStore} (id : shash.Any) (hd : distinctKeys s.entries_) :
    distinctKeys (s.Unref id).2.entries_ := by
  unfold Unref
  split
  · split
    · exact distinctKeys_update _ hd
    · exact hd
  · exact hd

theorem GetBuffer_distinct {s : MemoryKvStore} (id : shash.Any) (hd : distinctKeys s.entries_) :
    distinctKeys (s.GetBuffer id).2.entries_ := by
  unfold GetBuffer
  split
  · exact distinctKeys_touch hd
  · exact hd

theorem GetBuffer_eq_some {s s1 : MemoryKvStore} {id : shash.Any} {b : MemoryBuffer}
    (h : s.GetBuffer id = (some b, s1)) :
    lookup id s.entries_ = some b ∧ s1 = ⟨s.used_bytes_, touch id s.entries_⟩ := by
  unfold GetBuffer at h
  split at h
  · rename_i b1 hb
    simp only [Prod.mk.injEq, Option.some.injEq] at h
    obtain ⟨h1, h2⟩ := h
    subst h1
    exact ⟨hb, h2.symm⟩
  · simp at h

theorem Unref_lookup_type {s : MemoryKvStore} {id : shash.Any} {b b1 : MemoryBuffer}
    (hb : lookup id s.entries_ = some b) (h1 : lookup id (s.Unref id).2.entries_ = some b1) :
    b1.object_type = b.object_type ∧ b1.size = b.size ∧ b1.address = b.address := by
  unfold Unref at h1
  rw [hb] at h1
  simp only at h1
  split at h1
  · simp only at h1
    rw [lookup_update, if_pos rfl, hb] at h1
    simp only [Option.map_some', Option.some.injEq] at h1
    subst h1
    exact ⟨rfl, rfl, rfl⟩
  · rw [hb] at h1
    simp only [Option.some.injEq] at h1
    subst h1
    exact ⟨rfl, rfl, rfl⟩

end MemoryKvStore

end kvstore

namespace cache

open kvstore kvstore.MemoryKvStore

namespace RamCacheManager

theorem commitSwitch_sound {m : RamCacheManager} (id : shash.Any) (buf : MemoryBuffer)
    (h : Sound m) : Sound (commitSwitch m id buf).2 := by
  unfold commitSwitch
  split
  · rename_i hty
    split
    · exact ⟨h.pinnedKeys, Commit_distinct _ _ h.regularKeys, h.volatileKeys,
        Commit_forall _ _ h.regularCold rfl, h.volatileCold,
        Commit_forall _ _ h.regularTyped hty, h.volatileTyped⟩
    · exact h
  · rename_i hty
    split
    · exact ⟨h.pinnedKeys, h.regularKeys, Commit_distinct _ _ h.volatileKeys,
        h.regularCold, Commit_forall _ _ h.volatileCold rfl,
        h.regularTyped, Commit_forall _ _ h.volatileTyped hty⟩
    · exact h
  · split
    · exact ⟨Commit_distinct _ _ h.pinnedKeys, h.regularKeys, h.volatileKeys,
        h.regularCold, h.volatileCold, h.regularTyped, h.volatileTyped⟩
    · exact h
  · split
    · exact ⟨Commit_distinct _ _ h.pinnedKeys, h.regularKeys, h.volatileKeys,
        h.regularCold, h.volatileCold, h.regularTyped, h.volatileTyped⟩
    · exact h

theorem sound_of_sublists {m : RamCacheManager} {vol regular : MemoryKvStore} (h : Sound m)
    (hv : List.Sublist vol.entries_ m.volatile_entries_.entries_)
    (hr : List.Sublist regular.entries_ m.regular_entries_.entries_) :
    Sound { m with volatile_entries_ := vol, regular_entries_ := regular } :=
  ⟨h.pinnedKeys, distinctKeys_sublist hr h.regularKeys, distinctKeys_sublist hv h.volatileKeys,
    unreferenced_sublist hr h.regularCold, unreferenced_sublist hv h.volatileCold,
    forall_mem_sublist hr h.regularTyped, forall_mem_sublist hv h.volatileTyped⟩

theorem ShrinkTo_true_sublist {s s1 : MemoryKvStore} {size : Nat}
    (h : s.ShrinkTo size = (true, s1)) : List.Sublist s1.entries_ s.entries_ := by
  have := ShrinkTo_sublist s size
  rw [h] at this
  exact this

theorem CommitToKvStore_sound {m m1 : RamCacheManager} {t : Transaction} {r : Int}
    (hs : Sound m) (h : m.CommitToKvStore t = some (r, m1)) : Sound m1 := by
  rcases CommitToKvStore_cases h with ⟨_, h1, _⟩ | ⟨vol, regular, heq, hcase⟩
  · rw [h1]; exact hs
  · have hm : m1 = (commitSwitch { m with volatile_entries_ := vol, regular_entries_ := regular }
        t.id (txnBuffer t)).2 := by rw [← heq]
    rw [hm]
    apply commitSwitch_sound
    rcases hcase with ⟨hv, hr, _⟩ | ⟨hr, _, _, target, hsv⟩ | ⟨_, _, hsv, target, hsr⟩
    · subst hv; subst hr
      exact hs
    · subst hr
      exact sound_of_sublists hs (ShrinkTo_true_sublist hsv) (List.Sublist.refl _)
    · exact sound_of_sublists hs (ShrinkTo_true_sublist hsv) (ShrinkTo_true_sublist hsr)

theorem AddFd_sound {m : RamCacheManager} (fd : ReadOnlyFd) (h : Sound m) :
    Sound (m.AddFd fd).2 := by
  have hp := AddFd_pinned m fd
  have hr := AddFd_regular m fd
  have hv := AddFd_volatile m fd
  exact ⟨by rw [hp]; exact h.pinnedKeys, by rw [hr]; exact h.regularKeys,
    by rw [hv]; exact h.volatileKeys, by rw [hr]; exact h.regularCold,
    by rw [hv]; exact h.volatileCold, by rw [hr]; exact h.regularTyped,
    by rw [hv]; exact h.volatileTyped⟩

theorem promote_sound {m m1 : RamCacheManager} {id : shash.Any} {buf : MemoryBuffer}
    {fd r : Int} (hs : Sound m) (h : promote m id buf fd = some (r, m1)) : Sound m1 := by
  obtain ⟨_, _, _, rfl⟩ := promote_eq_some h
  exact ⟨IncRef_distinct _ (Commit_distinct _ _ hs.pinnedKeys), hs.regularKeys, hs.volatileKeys,
    hs.regularCold, hs.volatileCold, hs.regularTyped, hs.volatileTyped⟩

theorem DoOpen_sound {m m1 : RamCacheManager} {id : shash.Any} {r : Int}
    (hs : Sound m) (h : m.DoOpen id = some (r, m1)) : Sound m1 := by
  unfold DoOpen at h
  simp only at h
  have hs1 := AddFd_sound ⟨id, 0⟩ hs
  generalize (m.AddFd ⟨id, 0⟩).2 = ma at h hs1
  generalize (m.AddFd ⟨id, 0⟩).1 = fd at h
  split at h
  · simp only [Option.some.injEq, Prod.mk.injEq] at h
    rw [← h.2]; exact hs1
  · split at h
    · simp only [Option.some.injEq, Prod.mk.injEq] at h
      rw [← h.2]
      exact ⟨IncRef_distinct _ hs1.pinnedKeys, hs1.regularKeys, hs1.volatileKeys,
        hs1.regularCold, hs1.volatileCold, hs1.regularTyped, hs1.volatileTyped⟩
    · split at h
      · rename_i buf regular hpop
        have hsub : List.Sublist regular.entries_ ma.regular_entries_.entries_ := by
          have := PopBuffer_sublist ma.regular_entries_ id
          rw [hpop] at this; exact this
        refine promote_sound ?_ h
        exact ⟨hs1.pinnedKeys, distinctKeys_sublist hsub hs1.regularKeys, hs1.volatileKeys,
          unreferenced_sublist hsub hs1.regularCold, hs1.volatileCold,
          forall_mem_sublist hsub hs1.regularTyped, hs1.volatileTyped⟩
      · split at h
        · rename_i buf vol hpop
          have hsub : List.Sublist vol.entries_ ma.volatile_entries_.entries_ := by
            have := PopBuffer_sublist ma.volatile_entries_ id
            rw [hpop] at this; exact this
          refine promote_sound ?_ h
          exact ⟨hs1.pinnedKeys, hs1.regularKeys, distinctKeys_sublist hsub hs1.volatileKeys,
            hs1.regularCold, unreferenced_sublist hsub hs1.volatileCold,
            hs1.regularTyped, forall_mem_sublist hsub hs1.volatileTyped⟩
        · simp only [Option.some.injEq, Prod.mk.injEq] at h
          rw [← h.2]
          exact ⟨hs1.pinnedKeys, hs1.regularKeys, hs1.volatileKeys,
            hs1.regularCold, hs1.volatileCold, hs1.regularTyped, hs1.volatileTyped⟩

end RamCacheManager

end cache

namespace cache

open kvstore kvstore.MemoryKvStore

namespace RamCacheManager

theorem demote_sound {m m2 : RamCacheManager} {pinned : MemoryKvStore} {id : shash.Any}
    {ty : ObjectType} (hs : Sound m) (hd : distinctKeys pinned.entries_)
    (hty : ∀ b, lookup id pinned.entries_ = some b → b.object_type = ty)
    (h : demote m pinned id ty = some m2) : Sound m2 := by
  unfold demote at h
  split at h
  · split at h
    · rename_i buf pinned1 hpop
      split at h
      · simp only [Option.some.injEq] at h
        subst h
        obtain ⟨hb, rfl⟩ := PopBuffer_eq_some hpop
        exact ⟨distinctKeys_sublist (keys_forget_sublist _ _) hd,
          Commit_distinct _ _ hs.regularKeys, hs.volatileKeys,
          Commit_forall _ _ hs.regularCold rfl, hs.volatileCold,
          Commit_forall _ _ hs.regularTyped (hty buf hb), hs.volatileTyped⟩
      · simp at h
    · simp at h
  · split at h
    · rename_i buf pinned1 hpop
      split at h
      · simp only [Option.some.injEq] at h
        subst h
        obtain ⟨hb, rfl⟩ := PopBuffer_eq_some hpop
        exact ⟨distinctKeys_sublist (keys_forget_sublist _ _) hd,
          hs.regularKeys, Commit_distinct _ _ hs.volatileKeys,
          hs.regularCold, Commit_forall _ _ hs.volatileCold rfl,
          hs.regularTyped, Commit_forall _ _ hs.volatileTyped (hty buf hb)⟩
      · simp at h
    · simp at h
  · simp only [Option.some.injEq] at h
    subst h
    exact ⟨hd, hs.regularKeys, hs.volatileKeys, hs.regularCold, hs.volatileCold,
      hs.regularTyped, hs.volatileTyped⟩
  · simp only [Option.some.injEq] at h
    subst h
    exact ⟨hd, hs.regularKeys, hs.volatileKeys, hs.regularCold, hs.volatileCold,
      hs.regularTyped, hs.volatileTyped⟩

theorem sound_of_partitions {m m1 : RamCacheManager} (hs : Sound m)
    (hp : m1.pinned_entries_ = m.pinned_entries_) (hr : m1.regular_entries_ = m.regular_entries_)
    (hv : m1.volatile_entries_ = m.volatile_entries_) : Sound m1 :=
  ⟨by rw [hp]; exact hs.pinnedKeys, by rw [hr]; exact hs.regularKeys,
    by rw [hv]; exact hs.volatileKeys, by rw [hr]; exact hs.regularCold,
    by rw [hv]; exact hs.volatileCold, by rw [hr]; exact hs.regularTyped,
    by rw [hv]; exact hs.volatileTyped⟩

theorem Close_sound {m m1 : RamCacheManager} {fd r : Int}
    (hs : Sound m) (h : m.Close fd = some (r, m1)) : Sound m1 := by
  unfold Close at h
  split at h
  · simp only [Option.some.injEq, Prod.mk.injEq] at h
    rw [← h.2]; exact hs
  · split at h
    · simp at h
    · rename_i file_descriptor _
      split at h
      · simp at h
      · rename_i buf pinned1 hget
        obtain ⟨hb, hp1⟩ := GetBuffer_eq_some hget
        have hd1 : distinctKeys pinned1.entries_ := by
          rw [hp1]; exact distinctKeys_touch hs.pinnedKeys
        have hl1 : lookup file_descriptor.handle pinned1.entries_ = some buf := by
          rw [hp1]; exact lookup_touch hs.pinnedKeys hb
        have hd2 := Unref_distinct file_descriptor.handle hd1
        split at h
        · split at h
          · split at h
            · rename_i m2 hdem
              have hs2 : Sound m2 :=
                demote_sound hs hd2 (fun b hb2 => (Unref_lookup_type hl1 hb2).1) hdem
              obtain ⟨_, _, e1, e2, e3⟩ := releaseFd_eq_some h
              exact sound_of_partitions hs2 e1 e2 e3
            · simp at h
          · simp only [Option.some.injEq, Prod.mk.injEq] at h
            rw [← h.2]
            exact ⟨hd2, hs.regularKeys, hs.volatileKeys, hs.regularCold, hs.volatileCold,
              hs.regularTyped, hs.volatileTyped⟩
        · simp at h

theorem Dup_sound {m m1 : RamCacheManager} {fd r : Int}
    (hs : Sound m) (h : m.Dup fd = some (r, m1)) : Sound m1 := by
  unfold Dup at h
  split at h
  · simp only [Option.some.injEq, Prod.mk.injEq] at h
    rw [← h.2]; exact hs
  · split at h
    · simp at h
    · rename_i file_descriptor _
      split at h
      · simp only [Option.some.injEq] at h
        have h2 : m1 = (AddFd { m with pinned_entries_ :=
            (m.pinned_entries_.IncRef file_descriptor.handle).2 } file_descriptor).2 := by
          rw [h]
        rw [h2]
        apply AddFd_sound
        exact ⟨IncRef_distinct _ hs.pinnedKeys, hs.regularKeys, hs.volatileKeys,
          hs.regularCold, hs.volatileCold, hs.regularTyped, hs.volatileTyped⟩
      · simp at h

theorem create_sound (M : Nat) : Sound (create M) :=
  ⟨List.nodup_nil, List.nodup_nil, List.nodup_nil, fun _ h => absurd h (List.not_mem_nil _),
    fun _ h => absurd h (List.not_mem_nil _), fun _ h => absurd h (List.not_mem_nil _),
    fun _ h => absurd h (List.not_mem_nil _)⟩

theorem call_sound {m m1 : RamCacheManager} {c : Call} {r : Int}
    (hs : Sound m) (h : m.call c = some (r, m1)) : Sound m1 := by
  cases c with
  | CommitTxn t => exact CommitToKvStore_sound hs h
  | OpenFromTxn t =>
    simp only [call, OpenFromTxn] at h
    split at h
    · rename_i retval m2 hc
      have hs2 := CommitToKvStore_sound hs hc
      split at h
      · simp only [Option.some.injEq, Prod.mk.injEq] at h
        rw [← h.2]; exact hs2
      · exact DoOpen_sound hs2 h
    · simp at h
  | Open id => exact DoOpen_sound hs h
  | Dup fd => exact Dup_sound hs h
  | Close fd => exact Close_sound hs h

theorem reachable_reached {M : Nat} {m : RamCacheManager} (h : Reachable M m) :
    ReachedByCalls M m := by
  induction h with
  | init => exact ReachedByCalls.init
  | step _ hc _ ih => exact ReachedByCalls.step ih hc

theorem reached_sound {M : Nat} {m : RamCacheManager} (h : ReachedByCalls M m) : Sound m := by
  induction h with
  | init => exact create_sound M
  | step _ hc ih => exact call_sound ih hc

theorem CommitToKvStore_accounts {m m1 : RamCacheManager} {t : Transaction} {r : Int}
    (ha : Accounts m) (h : m.CommitToKvStore t = some (r, m1)) : Accounts m1 := by
  rcases CommitToKvStore_cases h with ⟨_, h1, _⟩ | ⟨vol, regular, heq, hcase⟩
  · rw [h1]; exact ha
  · have hm : m1 = (commitSwitch { m with volatile_entries_ := vol, regular_entries_ := regular }
        t.id (txnBuffer t)).2 := by rw [← heq]
    have hvr : vol.Accounted ∧ regular.Accounted := by
      rcases hcase with ⟨hv, hr, _⟩ | ⟨hr, _, _, target, hsv⟩ | ⟨_, _, hsv, target, hsr⟩
      · subst hv; subst hr
        exact ⟨ha.volatile_ok, ha.regular⟩
      · subst hr
        have := ShrinkTo_accounted target ha.volatile_ok
        rw [hsv] at this
        exact ⟨this, ha.regular⟩
      · have h1 := ShrinkTo_accounted 0 ha.volatile_ok
        have h2 := ShrinkTo_accounted target ha.regular
        rw [hsv] at h1
        rw [hsr] at h2
        exact ⟨h1, h2⟩
    have hacc := commitSwitch_accounted
      (m := { m with volatile_entries_ := vol, regular_entries_ := regular }) t.id (txnBuffer t)
      ha.pinned hvr.2 hvr.1
    rw [hm]
    exact ⟨hacc.1, hacc.2.1, hacc.2.2⟩

theorem accounts_of_partitions {m m1 : RamCacheManager} (ha : Accounts m)
    (hp : m1.pinned_entries_ = m.pinned_entries_) (hr : m1.regular_entries_ = m.regular_entries_)
    (hv : m1.volatile_entries_ = m.volatile_entries_) : Accounts m1 :=
  ⟨by rw [hp]; exact ha.pinned, by rw [hr]; exact ha.regular, by rw [hv]; exact ha.volatile_ok⟩

theorem AddFd_accounts {m : RamCacheManager} (fd : ReadOnlyFd) (ha : Accounts m) :
    Accounts (m.AddFd fd).2 :=
  accounts_of_partitions ha (AddFd_pinned m fd) (AddFd_regular m fd) (AddFd_volatile m fd)

theorem DoOpen_accounts {m m1 : RamCacheManager} {id : shash.Any} {r : Int}
    (ha : Accounts m) (h : m.DoOpen id = some (r, m1)) : Accounts m1 := by
  unfold DoOpen at h
  simp only at h
  have ha1 := AddFd_accounts ⟨id, 0⟩ ha
  generalize (m.AddFd ⟨id, 0⟩).2 = ma at h ha1
  generalize (m.AddFd ⟨id, 0⟩).1 = fd at h
  split at h
  · simp only [Option.some.injEq, Prod.mk.injEq] at h
    rw [← h.2]; exact ha1
  · split at h
    · simp only [Option.some.injEq, Prod.mk.injEq] at h
      rw [← h.2]
      exact ⟨IncRef_accounted _ ha1.pinned, ha1.regular, ha1.volatile_ok⟩
    · split at h
      · rename_i buf regular hpop
        obtain ⟨_, hr, hv, hp, _⟩ := promote_bounded h
        obtain ⟨hacc, _⟩ := PopBuffer_accounted hpop ha1.regular
        exact ⟨hp ha1.pinned, by rw [hr]; exact hacc, by rw [hv]; exact ha1.volatile_ok⟩
      · split at h
        · rename_i buf vol hpop
          obtain ⟨_, hr, hv, hp, _⟩ := promote_bounded h
          obtain ⟨hacc, _⟩ := PopBuffer_accounted hpop ha1.volatile_ok
          exact ⟨hp ha1.pinned, by rw [hr]; exact ha1.regular, by rw [hv]; exact hacc⟩
        · simp only [Option.some.injEq, Prod.mk.injEq] at h
          rw [← h.2]
          exact ⟨ha1.pinned, ha1.regular, ha1.volatile_ok⟩

theorem Close_accounts {m m1 : RamCacheManager} {fd r : Int}
    (ha : Accounts m) (h : m.Close fd = some (r, m1)) : Accounts m1 := by
  unfold Close at h
  split at h
  · simp only [Option.some.injEq, Prod.mk.injEq] at h
    rw [← h.2]; exact ha
  · split at h
    · simp at h
    · rename_i file_descriptor _
      split at h
      · simp at h
      · rename_i buf pinned1 hget
        have hp1 : pinned1.Accounted := by
          have := GetBuffer_accounted file_descriptor.handle ha.pinned
          rw [hget] at this; exact this
        have hp2 := Unref_accounted file_descriptor.handle hp1
        split at h
        · split at h
          · split at h
            · rename_i m2 hd
              obtain ⟨_, _, hp, hr, hv, _⟩ := demote_bounded hd hp2 ha.regular ha.volatile_ok
              obtain ⟨_, _, e1, e2, e3⟩ := releaseFd_eq_some h
              exact ⟨by rw [e1]; exact hp, by rw [e2]; exact hr, by rw [e3]; exact hv⟩
            · simp at h
          · simp only [Option.some.injEq, Prod.mk.injEq] at h
            rw [← h.2]
            exact ⟨hp2, ha.regular, ha.volatile_ok⟩
        · simp at h

theorem Dup_accounts {m m1 : RamCacheManager} {fd r : Int}
    (ha : Accounts m) (h : m.Dup fd = some (r, m1)) : Accounts m1 := by
  unfold Dup at h
  split at h
  · simp only [Option.some.injEq, Prod.mk.injEq] at h
    rw [← h.2]; exact ha
  · split at h
    · simp at h
    · rename_i file_descriptor _
      split at h
      · simp only [Option.some.injEq] at h
        have h2 : m1 = (AddFd { m with pinned_entries_ :=
            (m.pinned_entries_.IncRef file_descriptor.handle).2 } file_descriptor).2 := by
          rw [h]
        rw [h2]
        apply AddFd_accounts
        exact ⟨IncRef_accounted _ ha.pinned, ha.regular, ha.volatile_ok⟩
      · simp at h

theorem call_accounts {m m1 : RamCacheManager} {c : Call} {r : Int}
    (ha : Accounts m) (h : m.call c = some (r, m1)) : Accounts m1 := by
  cases c with
  | CommitTxn t => exact CommitToKvStore_accounts ha h
  | OpenFromTxn t =>
    simp only [call, OpenFromTxn] at h
    split at h
    · rename_i retval m2 hc
      have ha2 := CommitToKvStore_accounts ha hc
      split at h
      · simp only [Option.some.injEq, Prod.mk.injEq] at h
        rw [← h.2]; exact ha2
      · exact DoOpen_accounts ha2 h
    · simp at h
  | Open id => exact DoOpen_accounts ha h
  | Dup fd => exact Dup_accounts ha h
  | Close fd => exact Close_accounts ha h

theorem reached_accounts {M : Nat} {m : RamCacheManager} (h : ReachedByCalls M m) :
    Accounts m := by
  induction h with
  | init => exact ⟨rfl, rfl, rfl⟩
  | step _ hc ih => exact call_accounts ih hc

end RamCacheManager

end cache

namespace cache

open kvstore kvstore.MemoryKvStore

namespace RamCacheManager

/-- A close of the only handle of a pinned object reaches the demotion switch. -/
theorem Close_to_demote (m : RamCacheManager) {i : Nat} {e : ReadOnlyFd} {b : MemoryBuffer}
    (h : m.open_fds_[i]? = some e) (he : e.handle ≠ kInvalidHandle)
    (hd : distinctKeys m.pinned_entries_.entries_)
    (hb : lookup e.handle m.pinned_entries_.entries_ = some b) (hrc : b.refcount = 1) :
    m.Close (i : Int) =
      (demote m ⟨m.pinned_entries_.used_bytes_,
        update e.handle (fun b => { b with refcount := b.refcount - 1 })
          (touch e.handle m.pinned_entries_.entries_)⟩ e.handle b.object_type).bind
        (fun m2 => releaseFd m2 (i : Int)) := by
  unfold Close
  rw [IsValid_of_slot h he]
  simp only [Bool.not_true, Bool.false_eq_true, if_false, Int.toNat_ofNat, h]
  have hget : m.pinned_entries_.GetBuffer e.handle =
      (some b, ⟨m.pinned_entries_.used_bytes_, touch e.handle m.pinned_entries_.entries_⟩) := by
    unfold GetBuffer; rw [hb]
  rw [hget]
  simp only
  have hl1 : lookup e.handle (touch e.handle m.pinned_entries_.entries_) = some b :=
    lookup_touch hd hb
  have hun : (⟨m.pinned_entries_.used_bytes_,
        touch e.handle m.pinned_entries_.entries_⟩ : MemoryKvStore).Unref e.handle =
      (true, ⟨m.pinned_entries_.used_bytes_,
        update e.handle (fun b => { b with refcount := b.refcount - 1 })
          (touch e.handle m.pinned_entries_.entries_)⟩) := by
    unfold Unref
    simp only [hl1, hrc, gt_iff_lt, Nat.lt_one_iff, Nat.zero_lt_one, if_true]
  rw [hun]
  simp only [if_true]
  have hl2 := lookup_update_self (fun b => { b with refcount := b.refcount - 1 }) hl1
  have hgr : (⟨m.pinned_entries_.used_bytes_,
        update e.handle (fun b => { b with refcount := b.refcount - 1 })
          (touch e.handle m.pinned_entries_.entries_)⟩ : MemoryKvStore).GetRefcount e.handle
        = 0 := by
    unfold GetRefcount
    simp only [hl2, hrc, Nat.sub_self]
    rfl
  rw [if_pos hgr]
  cases demote m ⟨m.pinned_entries_.used_bytes_,
        update e.handle (fun b => { b with refcount := b.refcount - 1 })
          (touch e.handle m.pinned_entries_.entries_)⟩ e.handle b.object_type with
  | some m2 => rfl
  | none => rfl

/-- Closing the only handle of a pinned regular object that is not in the
regular partition moves it there with reference count 0. -/
theorem Close_demotes_regular (m : RamCacheManager) {i : Nat} {e : ReadOnlyFd}
    {b : MemoryBuffer} (h : m.open_fds_[i]? = some e) (he : e.handle ≠ kInvalidHandle)
    (hd : distinctKeys m.pinned_entries_.entries_)
    (hb : lookup e.handle m.pinned_entries_.entries_ = some b) (hrc : b.refcount = 1)
    (hty : b.object_type = ObjectType.kTypeRegular)
    (hr : lookup e.handle m.regular_entries_.entries_ = none) :
    ∃ m1, m.Close (i : Int) = some (0, m1) ∧
      lookup e.handle m1.regular_entries_.entries_ = some { b with refcount := 0 } ∧
      m1.regular_entries_.used_bytes_ = m.regular_entries_.used_bytes_ + b.size ∧
      m1.pinned_entries_.used_bytes_ = m.pinned_entries_.used_bytes_ - b.size ∧
      lookup e.handle m1.pinned_entries_.entries_ = none ∧
      m1.volatile_entries_ = m.volatile_entries_ := by
  rw [Close_to_demote m h he hd hb hrc, hty]
  have hl2 := lookup_update_self (fun b => { b with refcount := b.refcount - 1 })
    (lookup_touch hd hb)
  have hd2 : distinctKeys (update e.handle (fun b => { b with refcount := b.refcount - 1 })
      (touch e.handle m.pinned_entries_.entries_)) :=
    distinctKeys_update _ (distinctKeys_touch hd)
  generalize update e.handle (fun b => { b with refcount := b.refcount - 1 })
    (touch e.handle m.pinned_entries_.entries_) = es1 at hl2 hd2 ⊢
  have hpop : (⟨m.pinned_entries_.used_bytes_, es1⟩ : MemoryKvStore).PopBuffer e.handle =
      (some { b with refcount := b.refcount - 1 },
        ⟨m.pinned_entries_.used_bytes_ - b.size, forget e.handle es1⟩) :=
    PopBuffer_of_some hl2
  unfold demote
  simp only [hpop, Commit_of_none _ hr, if_true, Option.some_bind]
  obtain ⟨m1, hrel⟩ := releaseFd_of_slot
    { m with pinned_entries_ := ⟨m.pinned_entries_.used_bytes_ - b.size, forget e.handle es1⟩,
             regular_entries_ := ⟨m.regular_entries_.used_bytes_ + b.size,
               m.regular_entries_.entries_ ++ [(e.handle, { b with refcount := 0 })]⟩ } h
  obtain ⟨_, _, e1, e2, e3⟩ := releaseFd_eq_some hrel
  refine ⟨m1, hrel, ?_, ?_, ?_, ?_, e3⟩
  · rw [e2]
    simp only
    rw [lookup_append_new _ hr, hty]
  · rw [e2]
  · rw [e1]
  · rw [e1]; exact lookup_forget_self hd2

/-- Closing the only handle of a pinned volatile object that is not in the
volatile partition moves it there with reference count 0. -/
theorem Close_demotes_volatile (m : RamCacheManager) {i : Nat} {e : ReadOnlyFd}
    {b : MemoryBuffer} (h : m.open_fds_[i]? = some e) (he : e.handle ≠ kInvalidHandle)
    (hd : distinctKeys m.pinned_entries_.entries_)
    (hb : lookup e.handle m.pinned_entries_.entries_ = some b) (hrc : b.refcount = 1)
    (hty : b.object_type = ObjectType.kTypeVolatile)
    (hv : lookup e.handle m.volatile_entries_.entries_ = none) :
    ∃ m1, m.Close (i : Int) = some (0, m1) ∧
      lookup e.handle m1.volatile_entries_.entries_ = some { b with refcount := 0 } ∧
      m1.volatile_entries_.used_bytes_ = m.volatile_entries_.used_bytes_ + b.size ∧
      m1.pinned_entries_.used_bytes_ = m.pinned_entries_.used_bytes_ - b.size ∧
      lookup e.handle m1.pinned_entries_.entries_ = none ∧
      m1.regular_entries_ = m.regular_entries_ := by
  rw [Close_to_demote m h he hd hb hrc, hty]
  have hl2 := lookup_update_self (fun b => { b with refcount := b.refcount - 1 })
    (lookup_touch hd hb)
  have hd2 : distinctKeys (update e.handle (fun b => { b with refcount := b.refcount - 1 })
      (touch e.handle m.pinned_entries_.entries_)) :=
    distinctKeys_update _ (distinctKeys_touch hd)
  generalize update e.handle (fun b => { b with refcount := b.refcount - 1 })
    (touch e.handle m.pinned_entries_.entries_) = es1 at hl2 hd2 ⊢
  have hpop : (⟨m.pinned_entries_.used_bytes_, es1⟩ : MemoryKvStore).PopBuffer e.handle =
      (some { b with refcount := b.refcount - 1 },
        ⟨m.pinned_entries_.used_bytes_ - b.size, forget e.handle es1⟩) :=
    PopBuffer_of_some hl2
  unfold demote
  simp only [hpop, Commit_of_none _ hv, if_true, Option.some_bind]
  obtain ⟨m1, hrel⟩ := releaseFd_of_slot
    { m with pinned_entries_ := ⟨m.pinned_entries_.used_bytes_ - b.size, forget e.handle es1⟩,
             volatile_entries_ := ⟨m.volatile_entries_.used_bytes_ + b.size,
               m.volatile_entries_.entries_ ++ [(e.handle, { b with refcount := 0 })]⟩ } h
  obtain ⟨_, _, e1, e2, e3⟩ := releaseFd_eq_some hrel
  refine ⟨m1, hrel, ?_, ?_, ?_, ?_, e2⟩
  · rw [e3]
    simp only
    rw [lookup_append_new _ hv, hty]
  · rw [e3]
  · rw [e1]
  · rw [e1]; exact lookup_forget_self hd2

end RamCacheManager

end cache

namespace cache

open kvstore kvstore.MemoryKvStore

namespace RamCacheManager

theorem open_close_regular (m : RamCacheManager) {x : shash.Any} {b : MemoryBuffer}
    (hx : x ≠ kInvalidHandle) (hroom : HasRoom m)
    (hdp : distinctKeys m.pinned_entries_.entries_)
    (hdr : distinctKeys m.regular_entries_.entries_) (har : m.regular_entries_.Accounted)
    (hp : lookup x m.pinned_entries_.entries_ = none)
    (hr : lookup x m.regular_entries_.entries_ = some b)
    (hty : b.object_type = ObjectType.kTypeRegular) :
    ∃ (i : Nat) (m1 m2 : RamCacheManager), m.Open x = some ((i : Int), m1) ∧
      m1.Close (i : Int) = some (0, m2) ∧
      lookup x m2.regular_entries_.entries_ = some { b with refcount := 0 } ∧
      lookup x m2.pinned_entries_.entries_ = none ∧
      m2.pinned_entries_.used_bytes_ = m.pinned_entries_.used_bytes_ ∧
      m2.regular_entries_.used_bytes_ = m.regular_entries_.used_bytes_ ∧
      m2.volatile_entries_ = m.volatile_entries_ := by
  obtain ⟨i, fds, hget, hopen⟩ := Open_of_regular m hroom hp hr
  have hge := used_ge_of_lookup har hr
  have hl : lookup x (update x incRef (m.pinned_entries_.entries_ ++
      [(x, { b with refcount := 0 })])) = some (incRef { b with refcount := 0 }) :=
    lookup_update_self incRef (lookup_append_new _ hp)
  obtain ⟨m2, hclose, h1, h2, h3, h4, h5⟩ := Close_demotes_regular
    (e := ⟨x, 0⟩) (b := incRef { b with refcount := 0 })
    ⟨m.max_size_, fds, ⟨m.pinned_entries_.used_bytes_ + b.size,
        update x incRef (m.pinned_entries_.entries_ ++ [(x, { b with refcount := 0 })])⟩,
      ⟨m.regular_entries_.used_bytes_ - b.size, forget x m.regular_entries_.entries_⟩,
      m.volatile_entries_⟩
    hget hx (distinctKeys_update _ (distinctKeys_append _ hdp hp)) hl rfl hty
    (lookup_forget_self hdr)
  refine ⟨i, _, m2, hopen, hclose, h1, h4, ?_, ?_, h5⟩
  · rw [h3]
    simp only [incRef]
    omega
  · rw [h2]
    simp only [incRef]
    omega

theorem open_close_volatile (m : RamCacheManager) {x : shash.Any} {b : MemoryBuffer}
    (hx : x ≠ kInvalidHandle) (hroom : HasRoom m)
    (hdp : distinctKeys m.pinned_entries_.entries_)
    (hdv : distinctKeys m.volatile_entries_.entries_) (hav : m.volatile_entries_.Accounted)
    (hp : lookup x m.pinned_entries_.entries_ = none)
    (hr : lookup x m.regular_entries_.entries_ = none)
    (hv : lookup x m.volatile_entries_.entries_ = some b)
    (hty : b.object_type = ObjectType.kTypeVolatile) :
    ∃ (i : Nat) (m1 m2 : RamCacheManager), m.Open x = some ((i : Int), m1) ∧
      m1.Close (i : Int) = some (0, m2) ∧
      lookup x m2.volatile_entries_.entries_ = some { b with refcount := 0 } ∧
      lookup x m2.pinned_entries_.entries_ = none ∧
      m2.pinned_entries_.used_bytes_ = m.pinned_entries_.used_bytes_ ∧
      m2.volatile_entries_.used_bytes_ = m.volatile_entries_.used_bytes_ ∧
      m2.regular_entries_ = m.regular_entries_ := by
  obtain ⟨i, fds, hget, hopen⟩ := Open_of_volatile m hroom hp hr hv
  have hge := used_ge_of_lookup hav hv
  have hl : lookup x (update x incRef (m.pinned_entries_.entries_ ++
      [(x, { b with refcount := 0 })])) = some (incRef { b with refcount := 0 }) :=
    lookup_update_self incRef (lookup_append_new _ hp)
  obtain ⟨m2, hclose, h1, h2, h3, h4, h5⟩ := Close_demotes_volatile
    (e := ⟨x, 0⟩) (b := incRef { b with refcount := 0 })
    ⟨m.max_size_, fds, ⟨m.pinned_entries_.used_bytes_ + b.size,
        update x incRef (m.pinned_entries_.entries_ ++ [(x, { b with refcount := 0 })])⟩,
      m.regular_entries_,
      ⟨m.volatile_entries_.used_bytes_ - b.size, forget x m.volatile_entries_.entries_⟩⟩
    hget hx (distinctKeys_update _ (distinctKeys_append _ hdp hp)) hl rfl hty
    (lookup_forget_self hdv)
  refine ⟨i, _, m2, hopen, hclose, h1, h4, ?_, ?_, h5⟩
  · rw [h3]
    simp only [incRef]
    omega
  · rw [h2]
    simp only [incRef]
    omega

theorem oneRegularFreeSlot_reachable : Reachable 1000 oneRegularFreeSlot :=
  reachable_of_run [Call.Close 0] onceOpened_reachable (by decide)

set_option maxRecDepth 100000 in
theorem regular500_reachable : Reachable 1000 regular500 :=
  reachable_of_run [Call.CommitTxn (filledTxn 1 500 ObjectType.kTypeRegular)]
    Reachable.init (by decide)

end RamCacheManager

end cache

namespace cache

open kvstore kvstore.MemoryKvStore

namespace RamCacheManager

theorem Write_expected_size (buf : List Nat) (n : Nat) (t : Transaction) :
    (Write buf n t).2.expected_size = t.expected_size := by
  unfold Write
  split
  · split <;> rfl
  · rfl

theorem Write_size_of_known (buf : List Nat) (n : Nat) {t : Transaction}
    (h : t.expected_size ≠ kSizeUnknown) : (Write buf n t).2.size = t.size := by
  unfold Write
  split
  · rfl
  · rfl

theorem started_sizes {id : shash.Any} {size : Nat} {t : Transaction} (h : Started id size t) :
    t.expected_size = size ∧ (size ≠ kSizeUnknown → t.size = size) := by
  induction h with
  | start =>
    refine ⟨rfl, fun hk => ?_⟩
    unfold StartTxn
    simp only [hk, if_false]
  | ctrl description type flags _ ih => exact ih
  | write buf n _ ih =>
    refine ⟨by rw [Write_expected_size]; exact ih.1, fun hk => ?_⟩
    rw [Write_size_of_known buf n (by rw [ih.1]; exact hk)]
    exact ih.2 hk
  | reset _ ih => exact ih

end RamCacheManager

end cache

namespace kvstore_cc

open MemoryKvStore

theorem toInt64_of_lt {n : Nat} (h : n < 2 ^ 63) : toInt64 n = (n : Int) := by
  unfold toInt64
  have h1 : n % 2 ^ 64 = n := Nat.mod_eq_of_lt (by omega)
  rw [h1, if_pos h]

theorem Lookup_fst (s : MemoryKvStore) (id : shash.Any) : (s.Lookup id).1 = find id s.Entries := by
  unfold MemoryKvStore.Lookup MemoryCache.Lookup
  cases find id s.Entries <;> rfl

end kvstore_cc

namespace cache_plugin

theorem Map.index_found {V : Type} {zero : V} {k : Nat} {m : Map V} {v : V}
    (h : Map.find k m = some v) : Map.index zero k m = (v, m) := by
  unfold Map.index
  rw [h]

theorem ram_pread_found {storage : Storage} {id : Nat} {o : Object}
    (h : Map.find id storage = some o) {offset : Nat} (size : Nat) (hle : offset ≤ o.data.length) :
    (ram_pread storage id offset size).1 =
      (cvmcache_status.CVMCACHE_STATUS_OK, min size ((o.data.length - offset) % 2 ^ 32),
        (o.data.drop offset).take (min size ((o.data.length - offset) % 2 ^ 32))) := by
  unfold ram_pread
  rw [Map.index_found h]
  simp only
  rw [if_neg (Nat.not_lt.mpr hle)]

theorem bigStorage_find : Map.find 1 bigStorage = some bigObject := by
  unfold bigStorage Map.find
  rw [if_pos rfl]

end cache_plugin

namespace cache_plugin

theorem Map.find_assign_self {V : Type} (k : Nat) (v : V) (m : Map V) :
    Map.find k (Map.assign k v m) = some v := by
  induction m with
  | nil =>
    show (if (k, v).1 = k then some (k, v).2 else Map.find k []) = some v
    rw [if_pos rfl]
  | cons e es ih =>
    unfold Map.assign
    by_cases he : e.1 = k
    · rw [if_pos he]
      show (if (k, v).1 = k then some (k, v).2 else Map.find k es) = some v
      rw [if_pos rfl]
    · rw [if_neg he]
      by_cases hlt : k < e.1
      · rw [if_pos hlt]
        show (if (k, v).1 = k then some (k, v).2 else Map.find k (e :: es)) = some v
        rw [if_pos rfl]
      · rw [if_neg hlt]
        show (if e.1 = k then some e.2 else Map.find k (Map.assign k v es)) = some v
        rw [if_neg he, ih]

theorem Map.find_assign_ne {V : Type} {k j : Nat} (v : V) (m : Map V) (h : j ≠ k) :
    Map.find j (Map.assign k v m) = Map.find j m := by
  have hk : ¬ (k, v).1 = j := fun e => h e.symm
  induction m with
  | nil =>
    show (if (k, v).1 = j then some (k, v).2 else Map.find j []) = Map.find j []
    rw [if_neg hk]
  | cons e es ih =>
    unfold Map.assign
    by_cases he : e.1 = k
    · rw [if_pos he]
      show (if (k, v).1 = j then some (k, v).2 else Map.find j es) =
        (if e.1 = j then some e.2 else Map.find j es)
      rw [if_neg hk, if_neg (by rw [he]; exact fun e => h e.symm)]
    · rw [if_neg he]
      by_cases hlt : k < e.1
      · rw [if_pos hlt]
        show (if (k, v).1 = j then some (k, v).2 else Map.find j (e :: es)) = Map.find j (e :: es)
        rw [if_neg hk]
      · rw [if_neg hlt]
        show (if e.1 = j then some e.2 else Map.find j (Map.assign k v es)) =
          (if e.1 = j then some e.2 else Map.find j es)
        rw [ih]

theorem wrap32_of_fits {x : Int} (h1 : -2 ^ 31 ≤ x) (h2 : x < 2 ^ 31) : wrap32 x = x := by
  unfold wrap32
  omega

theorem ram_chrefcnt_absent {storage : Storage} {id : Nat} (change_by : Int)
    (h : Map.find id storage = none) :
    ram_chrefcnt storage id change_by = (cvmcache_status.CVMCACHE_STATUS_NOENTRY, storage) := by
  unfold ram_chrefcnt
  rw [h]
  rfl

theorem ram_chrefcnt_found {storage : Storage} {id : Nat} {o : Object} (change_by : Int)
    (h : Map.find id storage = some o) :
    ram_chrefcnt storage id change_by =
      if wrap32 (o.refcnt + change_by) < 0 then
        (cvmcache_status.CVMCACHE_STATUS_BADCOUNT, storage)
      else
        (cvmcache_status.CVMCACHE_STATUS_OK,
          Map.assign id { o with refcnt := wrap32 (o.refcnt + change_by) } storage) := by
  unfold ram_chrefcnt
  rw [h, Map.index_found h]
  rfl

end cache_plugin

namespace cache_plugin

theorem Map.find_index {V : Type} (zero : V) (k : Nat) (m : Map V) :
    Map.find k (Map.index zero k m).2 = some (Map.index zero k m).1 := by
  unfold Map.index
  cases h : Map.find k m with
  | none => exact Map.find_assign_self _ _ _
  | some v => exact h

theorem createObject_storage (g : Globals) (id txn_id : Nat) (info : cvmcache_object_info)
    (buffer : List Nat) (size : Nat) :
    (createObject g id txn_id info buffer size).storage =
      Map.assign id (createdObject id info buffer size) g.storage := by
  unfold createObject ram_commit_txn ram_write_txn ram_start_txn
  simp only
  rw [Map.index_found (Map.find_assign_self _ _ _), Map.index_found (Map.find_assign_self _ _ _)]
  rfl

theorem ram_commit_txn_found {g : Globals} {txn_id : Nat} {txn : TxnInfo}
    (h : Map.find txn_id g.transactions = some txn) :
    ram_commit_txn g txn_id =
      (cvmcache_status.CVMCACHE_STATUS_OK,
        { g with storage := Map.assign txn.id txn.partial_object g.storage }) := by
  unfold ram_commit_txn
  rw [Map.index_found h]

end cache_plugin

namespace cache_plugin

theorem eraseLoop_sublist (skip : Object → Bool) (shrink_to : Nat) (used_bytes : Nat)
    (storage : Storage) :
    List.Sublist (eraseLoop skip shrink_to used_bytes storage).2.2 storage := by
  induction storage generalizing used_bytes with
  | nil => exact List.Sublist.refl _
  | cons e es ih =>
    unfold eraseLoop
    by_cases hs : skip e.2 = true
    · rw [if_pos hs]
      exact List.Sublist.cons₂ _ (ih used_bytes)
    · rw [if_neg hs]
      simp only
      split
      · exact List.Sublist.cons _ (List.Sublist.refl _)
      · exact List.Sublist.cons _ (ih _)

theorem eraseLoop_keeps (skip : Object → Bool) (shrink_to : Nat) (used_bytes : Nat)
    (storage : Storage) {e : Nat × Object} (he : e ∈ storage) (hk : skip e.2 = true) :
    e ∈ (eraseLoop skip shrink_to used_bytes storage).2.2 := by
  induction storage generalizing used_bytes with
  | nil => exact he
  | cons a es ih =>
    unfold eraseLoop
    by_cases hs : skip a.2 = true
    · rw [if_pos hs]
      rcases List.mem_cons.mp he with h | h
      · exact List.mem_cons.mpr (Or.inl h)
      · exact List.mem_cons.mpr (Or.inr (ih used_bytes h))
    · rw [if_neg hs]
      have hne : e ∈ es := by
        rcases List.mem_cons.mp he with h | h
        · rw [h] at hk
          exact absurd hk hs
        · exact h
      simp only
      split
      · exact hne
      · exact ih _ hne

theorem eraseLoop_false (skip : Object → Bool) (shrink_to : Nat) (used_bytes : Nat)
    (storage : Storage) (h : (eraseLoop skip shrink_to used_bytes storage).1 = false) :
    ∀ e ∈ (eraseLoop skip shrink_to used_bytes storage).2.2, skip e.2 = true := by
  induction storage generalizing used_bytes with
  | nil =>
    intro e he
    cases he
  | cons a es ih =>
    unfold eraseLoop at h ⊢
    by_cases hs : skip a.2 = true
    · rw [if_pos hs] at h ⊢
      intro e he
      rcases List.mem_cons.mp he with h1 | h1
      · rw [h1]
        exact hs
      · exact ih used_bytes h e h1
    · rw [if_neg hs] at h ⊢
      simp only at h ⊢
      split at h
      · cases h
      · rename_i hgt
        rw [if_neg hgt]
        exact ih _ h

theorem Map.find_iff_mem {V : Type} {m : Map V} (hd : (m.map Prod.fst).Nodup) (k : Nat) (v : V) :
    Map.find k m = some v ↔ (k, v) ∈ m := by
  induction m with
  | nil =>
    constructor
    · intro h
      cases h
    · intro h
      cases h
  | cons e es ih =>
    rw [List.map_cons, List.nodup_cons] at hd
    show (if e.1 = k then some e.2 else Map.find k es) = some v ↔ (k, v) ∈ e :: es
    by_cases he : e.1 = k
    · rw [if_pos he]
      constructor
      · intro h
        have hv : e.2 = v := Option.some.inj h
        rw [← he, ← hv]
        exact List.mem_cons_self _ _
      · intro h
        rcases List.mem_cons.mp h with h1 | h1
        · rw [← h1]
        · exact absurd (List.mem_map_of_mem Prod.fst h1) (he ▸ hd.1)
    · rw [if_neg he, ih hd.2]
      constructor
      · intro h
        exact List.mem_cons_of_mem _ h
      · intro h
        rcases List.mem_cons.mp h with h1 | h1
        · rw [← h1] at he
          exact absurd rfl he
        · exact h1

/-- The storage that `ram_shrink` leaves: one of three shapes. -/
theorem ram_shrink_storage (storage : Storage) (shrink_to : Nat) :
    (ram_shrink storage shrink_to).2 = storage ∨
    (∃ u, (ram_shrink storage shrink_to).2 = (eraseLoop skipVolatile shrink_to u storage).2.2) ∨
    (∃ u v, (eraseLoop skipVolatile shrink_to u storage).1 = false ∧
      (ram_shrink storage shrink_to).2 =
        (eraseLoop skipOther shrink_to v (eraseLoop skipVolatile shrink_to u storage).2.2).2.2) := by
  unfold ram_shrink
  simp only
  split
  · exact Or.inl rfl
  · split
    · exact Or.inr (Or.inl ⟨_, rfl⟩)
    · rename_i h1
      have hf : (eraseLoop skipVolatile shrink_to (ram_info storage).used_bytes storage).1 = false := by
        cases hb : (eraseLoop skipVolatile shrink_to (ram_info storage).used_bytes storage).1 with
        | true => exact absurd hb h1
        | false => rfl
      split
      · exact Or.inr (Or.inr ⟨_, _, hf, rfl⟩)
      · exact Or.inr (Or.inr ⟨_, _, hf, rfl⟩)

end cache_plugin

namespace cache_plugin

theorem foldl_add64_lengths (storage : Storage) (a : Nat)
    (h : a + sumLengths storage < cache.u64) :
    storage.foldl (fun acc e => cache.add64 acc e.2.data.length) a = a + sumLengths storage := by
  induction storage generalizing a with
  | nil => rfl
  | cons e es ih =>
    have hs : sumLengths (e :: es) = e.2.data.length + sumLengths es := by
      unfold sumLengths
      rw [List.map_cons, List.sum_cons]
    rw [hs] at h ⊢
    have ha : cache.add64 a e.2.data.length = a + e.2.data.length := by
      unfold cache.add64
      exact Nat.mod_eq_of_lt (by omega)
    rw [List.foldl_cons, ha, ih _ (by omega)]
    omega

theorem ram_info_used (storage : Storage) (h : sumLengths storage < cache.u64) :
    (ram_info storage).used_bytes = sumLengths storage := by
  unfold ram_info
  simp only
  rw [foldl_add64_lengths storage 0 (by omega)]
  omega

/-- The loops of `ram_shrink` keep `info.used_bytes` equal to the sum of the
lengths as long as every object is shorter than `2^32` bytes, and they return
from the function exactly when the target is reached. -/
theorem eraseLoop_exact (skip : Object → Bool) (shrink_to : Nat) (storage : Storage)
    (hshort : ∀ e ∈ storage, e.2.data.length < 2 ^ 32) (hsum : sumLengths storage < cache.u64) :
    (eraseLoop skip shrink_to (sumLengths storage) storage).2.1 =
      sumLengths (eraseLoop skip shrink_to (sumLengths storage) storage).2.2 ∧
    ((eraseLoop skip shrink_to (sumLengths storage) storage).1 = true →
      (eraseLoop skip shrink_to (sumLengths storage) storage).2.1 ≤ shrink_to) ∧
    ((eraseLoop skip shrink_to (sumLengths storage) storage).1 = false →
      shrink_to < sumLengths storage →
      shrink_to < (eraseLoop skip shrink_to (sumLengths storage) storage).2.1) := by
  suffices hgen : ∀ (pre : Nat), pre + sumLengths storage < cache.u64 →
      (eraseLoop skip shrink_to (pre + sumLengths storage) storage).2.1 =
        pre + sumLengths (eraseLoop skip shrink_to (pre + sumLengths storage) storage).2.2 ∧
      ((eraseLoop skip shrink_to (pre + sumLengths storage) storage).1 = true →
        (eraseLoop skip shrink_to (pre + sumLengths storage) storage).2.1 ≤ shrink_to) ∧
      ((eraseLoop skip shrink_to (pre + sumLengths storage) storage).1 = false →
        shrink_to < pre + sumLengths storage →
        shrink_to < (eraseLoop skip shrink_to (pre + sumLengths storage) storage).2.1) by
    have h0 := hgen 0 (by omega)
    simp only [Nat.zero_add] at h0
    exact h0
  induction storage with
  | nil =>
    intro pre _
    exact ⟨rfl, fun h => Bool.noConfusion h, fun _ h => h⟩
  | cons e es ih =>
    intro pre hpre
    have hs : sumLengths (e :: es) = e.2.data.length + sumLengths es := by
      unfold sumLengths
      rw [List.map_cons, List.sum_cons]
    have hshort1 : ∀ a ∈ es, a.2.data.length < 2 ^ 32 :=
      fun a ha => hshort a (List.mem_cons_of_mem _ ha)
    have hlen := hshort e (List.mem_cons_self _ _)
    have hsum1 : sumLengths es < cache.u64 := by omega
    rw [hs] at hpre ⊢
    unfold eraseLoop
    by_cases hk : skip e.2 = true
    · rw [if_pos hk]
      have e1 : pre + (e.2.data.length + sumLengths es) =
          (pre + e.2.data.length) + sumLengths es := by omega
      rw [e1]
      obtain ⟨h1, h2, h3⟩ := ih hshort1 hsum1 (pre + e.2.data.length) (by omega)
      refine ⟨?_, h2, h3⟩
      show (eraseLoop skip shrink_to (pre + e.2.data.length + sumLengths es) es).2.1 =
        pre + sumLengths (e :: (eraseLoop skip shrink_to
          (pre + e.2.data.length + sumLengths es) es).2.2)
      have hs2 : ∀ l : Storage, sumLengths (e :: l) = e.2.data.length + sumLengths l := by
        intro l
        unfold sumLengths
        rw [List.map_cons, List.sum_cons]
      rw [h1, hs2]
      omega
    · rw [if_neg hk]
      have hsub : cache.sub64 (pre + (e.2.data.length + sumLengths es))
          (e.2.data.length % 2 ^ 32) = pre + sumLengths es := by
        rw [Nat.mod_eq_of_lt hlen]
        unfold cache.sub64
        unfold cache.u64 at hpre ⊢
        omega
      simp only
      rw [hsub]
      by_cases hle : pre + sumLengths es ≤ shrink_to
      · rw [if_pos hle]
        exact ⟨rfl, fun _ => hle, fun h => Bool.noConfusion h⟩
      · rw [if_neg hle]
        obtain ⟨h1, h2, h3⟩ := ih hshort1 hsum1 pre (by omega)
        exact ⟨h1, h2, fun hf _ => h3 hf (by omega)⟩

end cache_plugin

namespace cache_plugin

theorem sumLengths_sublist {s1 s2 : Storage} (h : List.Sublist s1 s2) :
    sumLengths s1 ≤ sumLengths s2 := by
  induction h with
  | slnil => exact Nat.le_refl _
  | cons a _ ih =>
    unfold sumLengths at ih ⊢
    rw [List.map_cons, List.sum_cons]
    omega
  | cons₂ a _ ih =>
    unfold sumLengths at ih ⊢
    rw [List.map_cons, List.sum_cons, List.map_cons, List.sum_cons]
    omega

/-- What `ram_shrink` reports when every object is shorter than `2^32` bytes:
`*used` is the sum of the lengths left, the status is Ok exactly when that sum
is at most the target and Partial otherwise, and nothing is removed when the
target is met at the start. -/
theorem ram_shrink_exact (storage : Storage) (shrink_to : Nat)
    (hshort : ∀ e ∈ storage, e.2.data.length < 2 ^ 32) (hsum : sumLengths storage < cache.u64) :
    (ram_shrink storage shrink_to).1.2 = sumLengths (ram_shrink storage shrink_to).2 ∧
    ((ram_shrink storage shrink_to).1.1 = cvmcache_status.CVMCACHE_STATUS_OK ↔
      sumLengths (ram_shrink storage shrink_to).2 ≤ shrink_to) ∧
    ((ram_shrink storage shrink_to).1.1 ≠ cvmcache_status.CVMCACHE_STATUS_OK →
      (ram_shrink storage shrink_to).1.1 = cvmcache_status.CVMCACHE_STATUS_PARTIAL) ∧
    (sumLengths storage ≤ shrink_to → (ram_shrink storage shrink_to).2 = storage) := by
  unfold ram_shrink
  simp only
  rw [ram_info_used storage hsum]
  by_cases h0 : sumLengths storage ≤ shrink_to
  · rw [if_pos h0]
    exact ⟨rfl, ⟨fun _ => h0, fun _ => rfl⟩, fun h => absurd rfl h, fun _ => rfl⟩
  · rw [if_neg h0]
    obtain ⟨a1, a2, a3⟩ := eraseLoop_exact skipVolatile shrink_to storage hshort hsum
    cases hb : (eraseLoop skipVolatile shrink_to (sumLengths storage) storage).1 with
    | true =>
      rw [if_pos rfl]
      have hle := a2 hb
      rw [a1] at hle
      exact ⟨a1, ⟨fun _ => hle, fun _ => rfl⟩, fun h => absurd rfl h, fun h => absurd h h0⟩
    | false =>
      rw [if_neg Bool.false_ne_true]
      have hgt := a3 hb (Nat.lt_of_not_le h0)
      have hsub := eraseLoop_sublist skipVolatile shrink_to (sumLengths storage) storage
      have hshort1 : ∀ e ∈ (eraseLoop skipVolatile shrink_to (sumLengths storage) storage).2.2,
          e.2.data.length < 2 ^ 32 := fun e he => hshort e (hsub.subset he)
      have hsum1 : sumLengths (eraseLoop skipVolatile shrink_to (sumLengths storage) storage).2.2 <
          cache.u64 := Nat.lt_of_le_of_lt (sumLengths_sublist hsub) hsum
      rw [a1] at hgt ⊢
      obtain ⟨b1, b2, b3⟩ := eraseLoop_exact skipOther shrink_to _ hshort1 hsum1
      cases hc : (eraseLoop skipOther shrink_to
          (sumLengths (eraseLoop skipVolatile shrink_to (sumLengths storage) storage).2.2)
          (eraseLoop skipVolatile shrink_to (sumLengths storage) storage).2.2).1 with
      | true =>
        rw [if_pos rfl]
        have hle := b2 hc
        rw [b1] at hle
        exact ⟨b1, ⟨fun _ => hle, fun _ => rfl⟩, fun h => absurd rfl h, fun h => absurd h h0⟩
      | false =>
        rw [if_neg Bool.false_ne_true]
        have hgt2 := b3 hc hgt
        rw [b1] at hgt2
        refine ⟨b1, ⟨fun h => ?_, fun h => absurd h (Nat.not_le_of_gt hgt2)⟩, fun _ => rfl,
          fun h => absurd h h0⟩
        cases h

theorem ram_shrink_partial (storage : Storage) (shrink_to : Nat)
    (h : (ram_shrink storage shrink_to).1.1 = cvmcache_status.CVMCACHE_STATUS_PARTIAL) :
    ∀ e ∈ (ram_shrink storage shrink_to).2, e.2.refcnt > 0 := by
  unfold ram_shrink at h ⊢
  simp only at h ⊢
  split at h
  · cases h
  · split at h
    · cases h
    · split at h
      · cases h
      · rename_i h0 h1 h2
        rw [if_neg h0, if_neg h1, if_neg h2]
        intro e he
        have hf : (eraseLoop skipOther shrink_to
            (eraseLoop skipVolatile shrink_to (ram_info storage).used_bytes storage).2.1
            (eraseLoop skipVolatile shrink_to (ram_info storage).used_bytes storage).2.2).1 =
            false := by
          cases hb : (eraseLoop skipOther shrink_to
            (eraseLoop skipVolatile shrink_to (ram_info storage).used_bytes storage).2.1
            (eraseLoop skipVolatile shrink_to (ram_info storage).used_bytes storage).2.2).1 with
          | true => exact absurd hb h2
          | false => rfl
        have hs := eraseLoop_false _ _ _ _ hf e he
        unfold skipOther at hs
        exact of_decide_eq_true hs

/-- The shrink of a storage with one unreferenced volatile object of `2^32`
bytes to the target 0. -/
theorem ram_shrink_big (k : Nat) (o : Object) (hlen : o.data.length = 2 ^ 32)
    (href : o.refcnt = 0) (hty : o.type = cvmcache_object_type.CVMCACHE_OBJECT_VOLATILE) :
    ram_shrink [(k, o)] 0 = ((cvmcache_status.CVMCACHE_STATUS_PARTIAL, 2 ^ 32), []) := by
  have hu : (ram_info [(k, o)]).used_bytes = 2 ^ 32 := by
    unfold ram_info
    simp only [List.foldl_cons, List.foldl_nil, hlen]
    decide
  have hskip : skipVolatile o = false := by
    unfold skipVolatile
    simp [href, hty]
  have hsub : cache.sub64 (2 ^ 32) (2 ^ 32 % 2 ^ 32) = 2 ^ 32 := by decide
  have h1 : eraseLoop skipVolatile 0 (2 ^ 32) [(k, o)] = (false, 2 ^ 32, []) := by
    unfold eraseLoop
    simp only [hskip, hlen, hsub]
    rfl
  unfold ram_shrink
  simp only [hu, h1]
  rfl

end cache_plugin

namespace cache_plugin

theorem call_listings (g : Globals) (c : Call) : (call g c).listings = g.listings := by
  cases c <;> rfl

theorem calls_listings (g : Globals) (cs : List Call) : (calls g cs).listings = g.listings := by
  unfold calls
  induction cs generalizing g with
  | nil => rfl
  | cons c cs ih =>
    rw [List.foldl_cons, ih, call_listings]

theorem listingScan_spec (type : cvmcache_object_type) (l : List Object) (pos : Nat) :
    (listingScan type l pos = none ∧ l.filter (fun o => decide (o.type = type)) = []) ∨
    (∃ o k, listingScan type l pos = some (o, pos + k) ∧
      l.filter (fun o => decide (o.type = type)) =
        o :: (l.drop (k + 1)).filter (fun o => decide (o.type = type))) := by
  induction l generalizing pos with
  | nil => exact Or.inl ⟨rfl, rfl⟩
  | cons a as ih =>
    unfold listingScan
    by_cases ha : a.type = type
    · rw [if_pos ha]
      refine Or.inr ⟨a, 0, rfl, ?_⟩
      rw [List.filter_cons_of_pos (by simp [ha])]
      rfl
    · rw [if_neg ha, List.filter_cons_of_neg (by simp [ha])]
      rcases ih (pos + 1) with ⟨h1, h2⟩ | ⟨o, k, h1, h2⟩
      · exact Or.inl ⟨h1, h2⟩
      · refine Or.inr ⟨o, k + 1, ?_, ?_⟩
        · rw [h1]
          congr 2
          omega
        · rw [h2]
          rfl

/-- The results of `n` successive calls for a listing at position `pos`: the
items of the elements from `pos` on that have the listed type, then
OutOfBounds. -/
theorem listingNexts_spec (listing_id : Nat) (n : Nat) (g : Globals) (lst : Listing)
    (h : Map.find listing_id g.listings = some lst) :
    (listingNexts listing_id n g).map Prod.fst = some
      ((((lst.elems.drop lst.pos).filter (fun o => decide (o.type = lst.type))).map
          (fun o => (cvmcache_status.CVMCACHE_STATUS_OK, some (itemOf o)))).take n ++
        List.replicate
          (n - ((lst.elems.drop lst.pos).filter (fun o => decide (o.type = lst.type))).length)
          (cvmcache_status.CVMCACHE_STATUS_OUTOFBOUNDS, none)) := by
  induction n generalizing g lst with
  | zero => simp [listingNexts]
  | succ n ih =>
    unfold listingNexts ram_listing_next
    rw [h]
    simp only
    rcases listingScan_spec lst.type (lst.elems.drop lst.pos) lst.pos with
      ⟨h1, h2⟩ | ⟨o, k, h1, h2⟩
    · rw [h1]
      simp only
      have hn := ih g lst h
      rw [h2] at hn ⊢
      cases hr : listingNexts listing_id n g with
      | none =>
        rw [hr] at hn
        cases hn
      | some r =>
        rw [hr] at hn
        simp only [Option.map_some', Option.some.injEq, List.filter_nil, List.map_nil,
          List.take_nil, List.nil_append, List.length_nil, Nat.sub_zero] at hn ⊢
        rw [hn]
        rfl
    · rw [h1]
      simp only
      have hf : Map.find listing_id
          ({ g with listings := (Map.assign listing_id { lst with pos := lst.pos + k + 1 }
              g.listings) } : Globals).listings =
          some { lst with pos := lst.pos + k + 1 } := Map.find_assign_self _ _ _
      have hn := ih _ _ hf
      simp only at hn
      have hd : List.drop (lst.pos + k + 1) lst.elems =
          List.drop (k + 1) (List.drop lst.pos lst.elems) := by
        rw [List.drop_drop]
        congr 1
      rw [hd] at hn
      rw [h2]
      cases hr : listingNexts listing_id n
          { g with listings := (Map.assign listing_id { lst with pos := lst.pos + k + 1 }
              g.listings) } with
      | none =>
        rw [hr] at hn
        cases hn
      | some r =>
        rw [hr] at hn
        simp only [Option.map_some', Option.some.injEq] at hn ⊢
        rw [hn]
        simp only [List.map_cons, List.take_succ_cons, List.cons_append, List.length_cons,
          Nat.add_sub_add_right]

end cache_plugin

namespace cache

namespace RamCacheManager

open kvstore kvstore.MemoryKvStore

theorem txnBuffer_type (t : Transaction) : (txnBuffer t).object_type = t.object_type := by
  unfold txnBuffer
  split <;> rfl

theorem commitSwitch_present (m : RamCacheManager) (id : shash.Any) (buf : MemoryBuffer)
    (h : present (target m buf.object_type) id) : commitSwitch m id buf = (-EEXIST, m) := by
  unfold present at h
  obtain ⟨b, hb⟩ := Option.ne_none_iff_exists'.mp h
  unfold commitSwitch
  cases hty : buf.object_type <;> rw [hty] at hb <;> unfold target at hb <;> simp only at hb ⊢ <;>
    rw [Commit_of_some buf hb] <;> rfl

theorem CommitToKvStore_present (m : RamCacheManager) (t : Transaction)
    (h : present (target m t.object_type) t.id)
    (hle : m.usedTotal + (txnBuffer t).size ≤ m.max_size_) :
    m.CommitToKvStore t = some (-EEXIST, m) := by
  unfold usedTotal at hle
  unfold CommitToKvStore
  simp only
  rw [if_neg (Nat.not_lt.mpr (Nat.le_trans (add64_four_le _ _ _ _) hle))]
  rw [commitSwitch_present m t.id (txnBuffer t) (by rw [txnBuffer_type]; exact h)]

theorem firstFree_of_smallest {fds : List ReadOnlyFd} {i : Nat} {e : ReadOnlyFd}
    (h1 : fds[i]? = some e) (h2 : e.handle = kInvalidHandle)
    (h3 : ∀ j, j < i → ∀ a, fds[j]? = some a → a.handle ≠ kInvalidHandle) :
    firstFree fds = some i := by
  induction fds generalizing i with
  | nil => simp at h1
  | cons a es ih =>
    unfold firstFree
    cases i with
    | zero =>
      simp only [List.getElem?_cons_zero, Option.some.injEq] at h1
      rw [h1, if_pos h2]
    | succ i =>
      have ha : a.handle ≠ kInvalidHandle := h3 0 (Nat.succ_pos _) a (by simp)
      rw [if_neg ha]
      simp only [List.getElem?_cons_succ] at h1
      rw [ih h1 (fun j hj b hb => h3 (j + 1) (Nat.succ_lt_succ hj) b (by simpa using hb))]
      rfl

theorem firstFree_lt {fds : List ReadOnlyFd} {i : Nat} (h : firstFree fds = some i) :
    i < fds.length := by
  obtain ⟨e, hi, _⟩ := firstFree_eq_some h
  rcases Nat.lt_or_ge i fds.length with hlt | hge
  · exact hlt
  · rw [List.getElem?_eq_none hge] at hi
    cases hi

end RamCacheManager

end cache

namespace cache

namespace RamCacheManager

open kvstore

/-- The position of a transaction stays inside the staging buffer under
`Write`, whatever is written. -/
theorem Write_keeps_bound (buf : List Nat) (n : Nat) {t : Transaction} (h : t.pos ≤ t.size)
    (hs : t.size < u64) :
    (Write buf n t).2.pos ≤ (Write buf n t).2.size ∧ (Write buf n t).2.size < u64 := by
  unfold Write
  split
  · rename_i hgt
    split
    · simp only
      have h1 : 2 * t.size % u64 < u64 := Nat.mod_lt _ (by decide)
      have h2 : add64 n t.pos < u64 := Nat.mod_lt _ (by decide)
      have h3 : add64 n t.pos = add64 t.pos n := by
        unfold add64
        rw [Nat.add_comm]
      have hmax : max (2 * t.size % u64) (add64 n t.pos) < u64 := Nat.max_lt.mpr ⟨h1, h2⟩
      have hge : t.pos ≤ max (2 * t.size % u64) (add64 n t.pos) := by
        have := Nat.le_max_right (2 * t.size % u64) (add64 n t.pos)
        omega
      rw [sub64_of_le hge hmax]
      have hmin := Nat.min_le_right n (max (2 * t.size % u64) (add64 n t.pos) - t.pos)
      have hadd : add64 t.pos (min n (max (2 * t.size % u64) (add64 n t.pos) - t.pos)) =
          t.pos + min n (max (2 * t.size % u64) (add64 n t.pos) - t.pos) :=
        add64_of_lt (by omega)
      rw [hadd]
      exact ⟨by omega, hmax⟩
    · exact ⟨h, hs⟩
  · simp only
    rw [sub64_of_le h hs]
    have hmin := Nat.min_le_right n (t.size - t.pos)
    have hadd : add64 t.pos (min n (t.size - t.pos)) = t.pos + min n (t.size - t.pos) :=
      add64_of_lt (by omega)
    rw [hadd]
    exact ⟨by omega, hs⟩

theorem started_bound {id : shash.Any} {size : Nat} {t : Transaction} (hsz : size < u64)
    (h : Started id size t) : t.pos ≤ t.size ∧ t.size < u64 := by
  induction h with
  | start =>
    unfold StartTxn
    simp only
    refine ⟨Nat.zero_le _, ?_⟩
    split
    · decide
    · exact hsz
  | ctrl description type flags _ ih => exact ih
  | write buf n _ ih => exact Write_keeps_bound buf n ih.1 ih.2
  | reset _ ih => exact ⟨Nat.zero_le _, ih.2⟩

/-- A `Write` of `n` bytes whose end does not overflow either fails with
`-ENOSPC`, the transaction unchanged, or writes all `n` bytes. -/
theorem Write_whole (buf : List Nat) (n : Nat) {t : Transaction} (h : t.pos ≤ t.size)
    (hs : t.size < u64) (hno : t.pos + n < u64) :
    Write buf n t = (-ENOSPC, t) ∨
    ((Write buf n t).1 = (n : Int) ∧ (Write buf n t).2.pos = t.pos + n) := by
  have hadd : add64 t.pos n = t.pos + n := add64_of_lt hno
  have hadd2 : add64 n t.pos = t.pos + n := by
    rw [← hadd]
    unfold add64
    rw [Nat.add_comm]
  unfold Write
  rw [hadd]
  split
  · split
    · right
      simp only
      have h1 : 2 * t.size % u64 < u64 := Nat.mod_lt _ (by decide)
      have hmax : max (2 * t.size % u64) (add64 n t.pos) < u64 :=
        Nat.max_lt.mpr ⟨h1, by rw [hadd2]; exact hno⟩
      have hge : t.pos + n ≤ max (2 * t.size % u64) (add64 n t.pos) := by
        have := Nat.le_max_right (2 * t.size % u64) (add64 n t.pos)
        omega
      rw [sub64_of_le (by omega) hmax]
      have hmin : min n (max (2 * t.size % u64) (add64 n t.pos) - t.pos) = n :=
        Nat.min_eq_left (by omega)
      rw [hmin, hadd]
      exact ⟨rfl, rfl⟩
    · left
      rfl
  · rename_i hle
    right
    simp only
    rw [sub64_of_le h hs]
    have hmin : min n (t.size - t.pos) = n := Nat.min_eq_left (by omega)
    rw [hmin, hadd]
    exact ⟨rfl, rfl⟩

end RamCacheManager

end cache

namespace cache

namespace RamCacheManager

open kvstore kvstore.MemoryKvStore

theorem firstFree_replicate (k : Nat) : firstFree (List.replicate k (⟨1, 0⟩ : ReadOnlyFd)) = none := by
  apply firstFree_eq_none.mpr
  intro e he
  rw [List.eq_of_mem_replicate he]
  decide

theorem AddFd_openedTimes (m : RamCacheManager) (k : Nat)
    (hfds : m.open_fds_ = List.replicate k ⟨1, 0⟩) :
    m.AddFd ⟨1, 0⟩ =
      if k < kMaxHandles then
        ((k : Int), { m with open_fds_ := List.replicate (k + 1) ⟨1, 0⟩ })
      else (-ENFILE, m) := by
  unfold AddFd
  rw [hfds, firstFree_replicate, List.length_replicate]
  simp only
  rw [List.replicate_succ']

theorem IncRef_counted (k : Nat) :
    (⟨10, [(1, ⟨payload 10, 10, k, ObjectType.kTypeRegular⟩)]⟩ : MemoryKvStore).IncRef 1 =
      (true, ⟨10, [(1, ⟨payload 10, 10, k + 1, ObjectType.kTypeRegular⟩)]⟩) := by
  rw [IncRef_of_some (b := ⟨payload 10, 10, k, ObjectType.kTypeRegular⟩) (by
    unfold lookup
    rw [if_pos rfl])]
  unfold update
  rw [if_pos rfl]

theorem Open_openedTimes (k : Nat) (hk : k < kMaxHandles) :
    (openedTimes k).Open 1 = some ((k : Int), openedTimes (k + 1)) := by
  unfold Open DoOpen
  rw [AddFd_openedTimes (openedTimes k) k rfl, if_pos hk]
  simp only
  rw [if_neg (not_lt.mpr (Int.natCast_nonneg k))]
  have hinc := IncRef_counted k
  have hp : (openedTimes k).pinned_entries_ =
      ⟨10, [(1, ⟨payload 10, 10, k, ObjectType.kTypeRegular⟩)]⟩ := rfl
  rw [hp, hinc]
  rfl

theorem openedTimes_reachable (k : Nat) (hk : k + 1 ≤ kMaxHandles) :
    Reachable 1000 (openedTimes (k + 1)) := by
  induction k with
  | zero => exact onceOpened_reachable
  | succ k ih =>
    have hlt : k + 1 < kMaxHandles := hk
    exact Reachable.step (c := Call.Open 1) (ih (Nat.le_of_lt hlt)) (Open_openedTimes (k + 1) hlt)
      True.intro

theorem openedTimes_first (k : Nat) : (openedTimes (k + 1)).open_fds_[0]? = some ⟨1, 0⟩ := by
  show (List.replicate (k + 1) (⟨1, 0⟩ : ReadOnlyFd))[0]? = some ⟨1, 0⟩
  rw [List.replicate_succ, List.getElem?_cons_zero]

theorem IsValid_openedTimes (k : Nat) : (openedTimes (k + 1)).IsValid 0 = true :=
  IsValid_of_slot (m := openedTimes (k + 1)) (i := 0) (e := ⟨1, 0⟩) (openedTimes_first k)
    (by decide)

/-- On a full handle table `Dup` fails after it has incremented the reference
count. -/
theorem Dup_openedTimes (k : Nat) (hk : kMaxHandles ≤ k + 1) :
    (openedTimes (k + 1)).Dup 0 = some (-ENFILE, overcounted (k + 1)) := by
  unfold Dup
  rw [IsValid_openedTimes k]
  simp only [Bool.not_true, Bool.false_eq_true, if_false]
  have hget : (openedTimes (k + 1)).open_fds_[(0 : Int).toNat]? = some ⟨1, 0⟩ :=
    openedTimes_first k
  rw [hget]
  simp only
  have hp : (openedTimes (k + 1)).pinned_entries_ =
      ⟨10, [(1, ⟨payload 10, 10, k + 1, ObjectType.kTypeRegular⟩)]⟩ := rfl
  rw [hp, IncRef_counted (k + 1)]
  simp only [if_true]
  rw [AddFd_openedTimes _ (k + 1) rfl, if_neg (Nat.not_lt.mpr hk)]
  rfl

end RamCacheManager

end cache

namespace cache

namespace RamCacheManager

open kvstore kvstore.MemoryKvStore

/-- With unreferenced cold entries both shrinks of the cascade reach their
targets, and a commit that fits beside the pinned bytes gets to the switch of
lines 277-289 on the state after the cascade. -/
theorem CommitToKvStore_of_cold (m : RamCacheManager) (t : Transaction)
    (har : m.regular_entries_.Accounted) (hav : m.volatile_entries_.Accounted)
    (hur : unreferenced m.regular_entries_.entries_)
    (huv : unreferenced m.volatile_entries_.entries_)
    (hfit : m.pinned_entries_.GetUsed + (txnBuffer t).size ≤ m.max_size_) :
    m.CommitToKvStore t = some (commitSwitch (afterCascade m t) t.id (txnBuffer t)) := by
  have hP : add64 m.pinned_entries_.GetUsed (txnBuffer t).size ≤ m.max_size_ :=
    Nat.le_trans (add64_le _ _) hfit
  unfold CommitToKvStore afterCascade
  simp only
  by_cases h1 : add64 (add64 (add64 m.pinned_entries_.GetUsed m.regular_entries_.GetUsed)
      m.volatile_entries_.GetUsed) (txnBuffer t).size > m.max_size_
  · simp only [if_pos h1]
    by_cases h2 : add64 (add64 m.pinned_entries_.GetUsed m.regular_entries_.GetUsed)
        (txnBuffer t).size ≤ m.max_size_
    · simp only [if_pos h2]
      rw [ShrinkTo_eq_of_cold _ hav huv]
    · simp only [if_neg h2, if_pos hP]
      rw [ShrinkTo_eq_of_cold 0 hav huv]
      simp only
      rw [ShrinkTo_eq_of_cold _ har hur]
  · simp only [if_neg h1]

theorem afterCascade_pinned (m : RamCacheManager) (t : Transaction) :
    (afterCascade m t).pinned_entries_ = m.pinned_entries_ := by
  unfold afterCascade
  simp only
  repeat' split
  all_goals rfl

theorem afterCascade_regular (m : RamCacheManager) (t : Transaction)
    (h : m.pinned_entries_.GetUsed + m.regular_entries_.GetUsed + (txnBuffer t).size ≤
      m.max_size_) :
    (afterCascade m t).regular_entries_ = m.regular_entries_ := by
  have h3 := Nat.le_trans (add64_three_le m.pinned_entries_.GetUsed m.regular_entries_.GetUsed
    (txnBuffer t).size) h
  unfold afterCascade
  simp only
  by_cases h1 : add64 (add64 (add64 m.pinned_entries_.GetUsed m.regular_entries_.GetUsed)
      m.volatile_entries_.GetUsed) (txnBuffer t).size > m.max_size_
  · simp only [if_pos h1, if_pos h3]
  · simp only [if_neg h1]

theorem afterCascade_volatile (m : RamCacheManager) (t : Transaction)
    (h : m.pinned_entries_.GetUsed + m.regular_entries_.GetUsed + m.volatile_entries_.GetUsed +
      (txnBuffer t).size ≤ m.max_size_) :
    (afterCascade m t).volatile_entries_ = m.volatile_entries_ := by
  have h4 := Nat.le_trans (add64_four_le m.pinned_entries_.GetUsed m.regular_entries_.GetUsed
    m.volatile_entries_.GetUsed (txnBuffer t).size) h
  unfold afterCascade
  simp only [if_neg (Nat.not_lt.mpr h4)]

theorem commitSwitch_absent (m : RamCacheManager) (id : shash.Any) (buf : MemoryBuffer)
    (h : ¬ present (target m buf.object_type) id) : (commitSwitch m id buf).1 = 0 := by
  unfold present at h
  have hn : lookup id (target m buf.object_type).entries_ = none := not_not.mp h
  unfold commitSwitch
  cases hty : buf.object_type <;> rw [hty] at hn <;> unfold target at hn <;> simp only at hn ⊢ <;>
    rw [Commit_of_none buf hn] <;> rfl

end RamCacheManager

end cache

namespace cache

open kvstore kvstore.MemoryKvStore RamCacheManager

theorem twiceOpenedClosedOnce_reachable : Reachable 1000 twiceOpenedClosedOnce :=
  reachable_of_run [Call.Close 0] twiceOpened_reachable (by decide)

/-- C12 (double open collapses) fails on the code, by the defect of C9 (the
slot is freed only when the reference count reaches zero) together with the
defect of C10 (the tail is never truncated). From the reachable state
`oneRegular`, where object 1 is cached and not open: `Open 1` gives 0,
`Open 1` gives 1, `Close 0` and `Close 1` both return 0 and leave the handle
table `[slot of object 1, free slot]` with handle 0 still valid, whereas
`Open 1`, `Close 0` leaves the table `[free slot]`. The partitions agree. -/
theorem C12_double_open_leaves_stale_handle :
    Reachable 1000 oneRegular ∧
    present oneRegular.regular_entries_ 1 ∧ ¬ present oneRegular.pinned_entries_ 1 ∧
    oneRegular.Open 1 = some (0, onceOpened) ∧ onceOpened.Open 1 = some (1, twiceOpened) ∧
    twiceOpened.Close 0 = some (0, twiceOpenedClosedOnce) ∧
    twiceOpenedClosedOnce.Close 1 = some (0, twiceOpenedClosedBoth) ∧
    onceOpened.Close 0 = some (0, oneRegularFreeSlot) ∧
    twiceOpenedClosedBoth.open_fds_ ≠ oneRegularFreeSlot.open_fds_ ∧
    twiceOpenedClosedBoth.IsValid 0 = true ∧
    twiceOpenedClosedBoth.pinned_entries_ = oneRegularFreeSlot.pinned_entries_ ∧
    twiceOpenedClosedBoth.regular_entries_ = oneRegularFreeSlot.regular_entries_ ∧
    twiceOpenedClosedBoth.volatile_entries_ = oneRegularFreeSlot.volatile_entries_ :=
  ⟨oneRegular_reachable, by decide, by decide, by decide, by decide, by decide, by decide,
    by decide, by decide, by decide, by decide, by decide, by decide⟩

/-- C13 (handle/refcount agreement) fails on the code, by the defect of C9: in
the reachable state `twiceOpenedClosedOnce` (object 1 opened twice, then
`Close 0`) two in-use slots map to object 1 while its reference count in the
pinned partition is 1. -/
theorem C13_handles_outnumber_references :
    Reachable 1000 twiceOpenedClosedOnce ∧
    handleCount twiceOpenedClosedOnce 1 = 2 ∧
    twiceOpenedClosedOnce.pinned_entries_.GetRefcount 1 = 1 :=
  ⟨twiceOpenedClosedOnce_reachable, by decide, by decide⟩

end cache

namespace cache

open kvstore kvstore.MemoryKvStore RamCacheManager

/-- C11 as stated fails for an object stored under the id `kInvalidHandle`,
the value that marks a free slot: in the state reached by the regular commit
of that object, `Open` returns the handle 0, whose slot holds
`kInvalidHandle` and so counts as free; `Close(0)` returns `-EBADFD`, and the
object stays in the pinned partition with the reference count 1 instead of
going back to the regular partition. -/
theorem C11_counterexample :
    ReachedByCalls 1000 nullRegular ∧
    lookup kInvalidHandle nullRegular.regular_entries_.entries_ =
      some ⟨payload 10, 10, 0, ObjectType.kTypeRegular⟩ ∧
    ¬ present nullRegular.pinned_entries_ kInvalidHandle ∧
    nullRegular.Open kInvalidHandle = some (0, nullOpened) ∧
    nullOpened.Close 0 = some (-EBADFD, nullOpened) ∧
    present nullOpened.pinned_entries_ kInvalidHandle ∧
    ¬ present nullOpened.regular_entries_ kInvalidHandle ∧
    nullOpened.pinned_entries_.GetRefcount kInvalidHandle = 1 ∧
    nullOpened.regular_entries_.GetUsed ≠ nullRegular.regular_entries_.GetUsed := by
  refine ⟨?_, by decide, by decide, by decide, by decide, by decide, by decide, by decide,
    by decide⟩
  have hc : (create 1000).call
      (Call.CommitTxn (filledTxn kInvalidHandle 10 ObjectType.kTypeRegular)) =
      some (0, nullRegular) := by decide
  exact ReachedByCalls.step ReachedByCalls.init hc

set_option maxRecDepth 100000 in
/-- C11 amended (open/close round trip): in every state reached from the empty cache
by calls that return, let `x` be an id other than the null digest
`kInvalidHandle` that is not in the pinned partition (not open) and is cached
with buffer `b` of type regular in the regular partition (resp. of type
volatile in the volatile partition), and let the handle table have room for
the handle. Then `Open x` returns a handle `fd ≥ 0`, `Close fd` returns 0, and
afterwards `x` is in the same partition with the same buffer `b` (same payload,
size and type, reference count 0), `x` is not in the pinned partition, and the
used bytes of each of the three partitions are as before. In scenario 1 of the
spec the close leaves `regular.used = 500` and `pinned.used = 0`. -/
theorem C11_open_close_round_trip (M : Nat) (m : RamCacheManager) (x : shash.Any)
    (b : MemoryBuffer) (hreach : ReachedByCalls M m) (hx : x ≠ kInvalidHandle)
    (hroom : HasRoom m) (hnot : ¬ present m.pinned_entries_ x)
    (hc : (lookup x m.regular_entries_.entries_ = some b ∧
            b.object_type = ObjectType.kTypeRegular) ∨
          (lookup x m.volatile_entries_.entries_ = some b ∧
            b.object_type = ObjectType.kTypeVolatile)) :
    (∃ fd m1 m2, m.Open x = some (fd, m1) ∧ 0 ≤ fd ∧ m1.Close fd = some (0, m2) ∧
      (b.object_type = ObjectType.kTypeRegular →
        lookup x m2.regular_entries_.entries_ = some b) ∧
      (b.object_type = ObjectType.kTypeVolatile →
        lookup x m2.volatile_entries_.entries_ = some b) ∧
      b.refcount = 0 ∧ ¬ present m2.pinned_entries_ x ∧
      m2.pinned_entries_.GetUsed = m.pinned_entries_.GetUsed ∧
      m2.regular_entries_.GetUsed = m.regular_entries_.GetUsed ∧
      m2.volatile_entries_.GetUsed = m.volatile_entries_.GetUsed) ∧
    (regular500.Open 1 = some (0, pinned500) ∧ pinned500.Close 0 = some (0, closed500) ∧
      closed500.regular_entries_.GetUsed = 500 ∧ closed500.pinned_entries_.GetUsed = 0) := by
  refine ⟨?_, by decide, by decide, by decide, by decide⟩
  have hs := reached_sound hreach
  have ha := reached_accounts hreach
  have hp : lookup x m.pinned_entries_.entries_ = none := not_not.mp hnot
  have hnp : ∀ m2 : RamCacheManager, lookup x m2.pinned_entries_.entries_ = none →
      ¬ present m2.pinned_entries_ x := by
    intro m2 h2
    unfold present
    rw [h2]
    exact fun hne => hne rfl
  have regularCase : ∀ b1 : MemoryBuffer, lookup x m.regular_entries_.entries_ = some b1 →
      ∃ fd m1 m2, m.Open x = some (fd, m1) ∧ 0 ≤ fd ∧ m1.Close fd = some (0, m2) ∧
        lookup x m2.regular_entries_.entries_ = some b1 ∧ b1.refcount = 0 ∧
        ¬ present m2.pinned_entries_ x ∧
        m2.pinned_entries_.GetUsed = m.pinned_entries_.GetUsed ∧
        m2.regular_entries_.GetUsed = m.regular_entries_.GetUsed ∧
        m2.volatile_entries_ = m.volatile_entries_ := by
    intro b1 hr
    have hty1 := hs.regularTyped _ (lookup_mem hr)
    have hrc1 : b1.refcount = 0 := hs.regularCold _ (lookup_mem hr)
    obtain ⟨i, m1, m2, hopen, hclose, h1, h2, h3, h4, h5⟩ :=
      open_close_regular m hx hroom hs.pinnedKeys hs.regularKeys ha.regular hp hr hty1
    rw [refcount_zero_eta hrc1] at h1
    exact ⟨i, m1, m2, hopen, Int.natCast_nonneg i, hclose, h1, hrc1, hnp m2 h2, h3, h4, h5⟩
  rcases hc with ⟨hr, hty⟩ | ⟨hv, hty⟩
  · obtain ⟨fd, m1, m2, hopen, hfd, hclose, h1, hrc, h2, h3, h4, h5⟩ := regularCase b hr
    refine ⟨fd, m1, m2, hopen, hfd, hclose, fun _ => h1, ?_, hrc, h2, h3, h4, by rw [h5]⟩
    intro hvty
    rw [hty] at hvty
    exact absurd hvty (by decide)
  · have hrcv : b.refcount = 0 := hs.volatileCold _ (lookup_mem hv)
    cases hr : lookup x m.regular_entries_.entries_ with
    | some b1 =>
      obtain ⟨fd, m1, m2, hopen, hfd, hclose, _, _, h2, h3, h4, h5⟩ := regularCase b1 hr
      refine ⟨fd, m1, m2, hopen, hfd, hclose, ?_, fun _ => by rw [h5]; exact hv, hrcv, h2, h3,
        h4, by rw [h5]⟩
      intro hrty
      rw [hty] at hrty
      exact absurd hrty (by decide)
    | none =>
      obtain ⟨i, m1, m2, hopen, hclose, h1, h2, h3, h4, h5⟩ :=
        open_close_volatile m hx hroom hs.pinnedKeys hs.volatileKeys ha.volatile_ok hp hr hv hty
      rw [refcount_zero_eta hrcv] at h1
      refine ⟨i, m1, m2, hopen, Int.natCast_nonneg i, hclose, ?_, fun _ => h1, hrcv,
        hnp m2 h2, h3, by rw [h5], h4⟩
      intro hrty
      rw [hty] at hrty
      exact absurd hrty (by decide)

set_option maxRecDepth 100000 in
theorem C11_open_close_round_trip_witness :
    (ReachedByCalls 1000 regular500 ∧ (1 : shash.Any) ≠ kInvalidHandle ∧ HasRoom regular500 ∧
      ¬ present regular500.pinned_entries_ 1 ∧
      lookup 1 regular500.regular_entries_.entries_ =
        some ⟨payload 500, 500, 0, ObjectType.kTypeRegular⟩) ∧
    ∃ fd m1 m2, regular500.Open 1 = some (fd, m1) ∧ 0 ≤ fd ∧ m1.Close fd = some (0, m2) ∧
      ((⟨payload 500, 500, 0, ObjectType.kTypeRegular⟩ : MemoryBuffer).object_type =
          ObjectType.kTypeRegular →
        lookup 1 m2.regular_entries_.entries_ =
          some ⟨payload 500, 500, 0, ObjectType.kTypeRegular⟩) ∧
      ((⟨payload 500, 500, 0, ObjectType.kTypeRegular⟩ : MemoryBuffer).object_type =
          ObjectType.kTypeVolatile →
        lookup 1 m2.volatile_entries_.entries_ =
          some ⟨payload 500, 500, 0, ObjectType.kTypeRegular⟩) ∧
      (⟨payload 500, 500, 0, ObjectType.kTypeRegular⟩ : MemoryBuffer).refcount = 0 ∧
      ¬ present m2.pinned_entries_ 1 ∧
      m2.pinned_entries_.GetUsed = regular500.pinned_entries_.GetUsed ∧
      m2.regular_entries_.GetUsed = regular500.regular_entries_.GetUsed ∧
      m2.volatile_entries_.GetUsed = regular500.volatile_entries_.GetUsed :=
  ⟨⟨reachable_reached regular500_reachable, by decide, Or.inr (by decide), by decide, by decide⟩,
    (C11_open_close_round_trip 1000 regular500 1 ⟨payload 500, 500, 0, ObjectType.kTypeRegular⟩
      (reachable_reached regular500_reachable) (by decide) (Or.inr (by decide)) (by decide)
      (Or.inl ⟨by decide, rfl⟩)).1⟩

/-- C14 (cold entries are unreferenced): in every state reached from the empty
cache by `CommitTxn`, `OpenFromTxn`, `Open`, `Dup` and `Close` calls that
return, every entry of the regular partition and every entry of the volatile
partition has reference count 0. -/
theorem C14_cold_entries_unreferenced (M : Nat) (m : RamCacheManager)
    (h : ReachedByCalls M m) :
    (∀ e ∈ m.regular_entries_.entries_, e.2.refcount = 0) ∧
    (∀ e ∈ m.volatile_entries_.entries_, e.2.refcount = 0) :=
  ⟨(reached_sound h).regularCold, (reached_sound h).volatileCold⟩

theorem C14_cold_entries_unreferenced_witness :
    ReachedByCalls 1000 oneRegularFreeSlot ∧
    (∀ e ∈ oneRegularFreeSlot.regular_entries_.entries_, e.2.refcount = 0) ∧
    (∀ e ∈ oneRegularFreeSlot.volatile_entries_.entries_, e.2.refcount = 0) :=
  ⟨reachable_reached oneRegularFreeSlot_reachable,
    C14_cold_entries_unreferenced 1000 oneRegularFreeSlot
      (reachable_reached oneRegularFreeSlot_reachable)⟩

end cache

namespace cache

open kvstore kvstore.MemoryKvStore RamCacheManager

/-- C15 as stated fails when `pos + n` overflows 64 bits: after 5 of the 10
expected bytes are written, a `Write` of `n = 2^64 - 1` bytes has
`pos + n > expected_size`, yet the sum wraps to 4, the test of line 191
passes, and the call copies 5 bytes and returns 5. -/
theorem C15_counterexample :
    (Write [1, 2, 3, 4, 5] 5 (StartTxn 7 10)).2.expected_size = 10 ∧
    (Write [1, 2, 3, 4, 5] 5 (StartTxn 7 10)).2.expected_size ≠ kSizeUnknown ∧
    (Write [1, 2, 3, 4, 5] 5 (StartTxn 7 10)).2.pos = 5 ∧
    (Write [1, 2, 3, 4, 5] 5 (StartTxn 7 10)).2.pos + (u64 - 1) >
      (Write [1, 2, 3, 4, 5] 5 (StartTxn 7 10)).2.expected_size ∧
    (Write [6, 7, 8, 9, 10] (u64 - 1) (Write [1, 2, 3, 4, 5] 5 (StartTxn 7 10)).2).1 = 5 ∧
    (Write [6, 7, 8, 9, 10] (u64 - 1) (Write [1, 2, 3, 4, 5] 5 (StartTxn 7 10)).2).2.pos = 10 ∧
    (Write [6, 7, 8, 9, 10] (u64 - 1) (Write [1, 2, 3, 4, 5] 5 (StartTxn 7 10)).2).2.buffer =
      [1, 2, 3, 4, 5, 6, 7, 8, 9, 10] := by
  refine ⟨by decide, by decide, by decide, by decide, by decide, by decide, by decide⟩

/-- C15 amended (write with a known size is bounded): let `t` be a transaction
started by `StartTxn id size` (and any later `CtrlTxn`, `Write`, `Reset` calls) and let
`pos + n` not overflow 64 bits. If the size is known and
`pos + n > expected_size`, `Write(buf, n)` returns `-ENOSPC` and leaves the
transaction (position, size, buffer, every field) unchanged. If the size is
unknown and `pos + n` exceeds the staging size, the same `Write` returns `n`,
the position advances by `n`, and the staging size becomes
`max(2 * size mod 2^64, pos + n)`, which is `max(2 * size, pos + n)` when
doubling the staging size does not overflow. -/
theorem C15_write_known_size_bounded (id : shash.Any) (size : Nat) (t : Transaction)
    (buf : List Nat) (n : Nat) (hs : Started id size t) (hno : t.pos + n < u64) :
    (size ≠ kSizeUnknown → t.pos + n > t.expected_size → Write buf n t = (-ENOSPC, t)) ∧
    (size = kSizeUnknown → t.pos + n > t.size →
      (Write buf n t).1 = (n : Int) ∧ (Write buf n t).2.pos = t.pos + n ∧
      (Write buf n t).2.size = max (2 * t.size % u64) (t.pos + n) ∧
      (2 * t.size < u64 → (Write buf n t).2.size = max (2 * t.size) (t.pos + n))) := by
  obtain ⟨hexp, hsize⟩ := started_sizes hs
  have hadd : add64 t.pos n = t.pos + n := add64_of_lt hno
  have hadd2 : add64 n t.pos = t.pos + n := by
    rw [← hadd]; unfold add64; rw [Nat.add_comm]
  refine ⟨fun hk hgt => ?_, fun hk hgt => ?_⟩
  · have h1 : t.size = t.expected_size := by rw [hexp]; exact hsize hk
    have h2 : t.expected_size ≠ kSizeUnknown := by rw [hexp]; exact hk
    unfold Write
    rw [hadd, h1, if_pos hgt, if_neg h2]
  · have h1 : t.expected_size = kSizeUnknown := by rw [hexp]; exact hk
    have h2 : 2 * t.size % u64 < u64 := Nat.mod_lt _ (by decide)
    have hmax : max (2 * t.size % u64) (t.pos + n) < u64 := Nat.max_lt.mpr ⟨h2, hno⟩
    have hle : t.pos ≤ max (2 * t.size % u64) (t.pos + n) :=
      Nat.le_trans (Nat.le_add_right _ _) (Nat.le_max_right _ _)
    have hsub : sub64 (max (2 * t.size % u64) (t.pos + n)) t.pos =
        max (2 * t.size % u64) (t.pos + n) - t.pos := sub64_of_le hle hmax
    have hmin : min n (max (2 * t.size % u64) (t.pos + n) - t.pos) = n := by
      apply Nat.min_eq_left
      have := Nat.le_max_right (2 * t.size % u64) (t.pos + n)
      omega
    have hcopy : add64 t.pos n = t.pos + n := hadd
    have hw : (Write buf n t).1 = (n : Int) ∧ (Write buf n t).2.pos = t.pos + n ∧
        (Write buf n t).2.size = max (2 * t.size % u64) (t.pos + n) := by
      unfold Write
      rw [hadd, if_pos hgt, if_pos h1]
      simp only [hadd2, hsub, hmin, hcopy]
      exact ⟨trivial, trivial, trivial⟩
    refine ⟨hw.1, hw.2.1, hw.2.2, fun hd => ?_⟩
    rw [hw.2.2, Nat.mod_eq_of_lt hd]

theorem C15_write_known_size_bounded_witness :
    ((Started 7 5 (StartTxn 7 5) ∧ (StartTxn 7 5).pos + 6 < u64 ∧ 5 ≠ kSizeUnknown ∧
        (StartTxn 7 5).pos + 6 > (StartTxn 7 5).expected_size) ∧
      Write [1, 2, 3, 4, 5, 6] 6 (StartTxn 7 5) = (-ENOSPC, StartTxn 7 5)) ∧
    ((Started 7 kSizeUnknown (StartTxn 7 kSizeUnknown) ∧
        (StartTxn 7 kSizeUnknown).pos + 5000 < u64 ∧
        (StartTxn 7 kSizeUnknown).pos + 5000 > (StartTxn 7 kSizeUnknown).size ∧
        2 * (StartTxn 7 kSizeUnknown).size < u64) ∧
      (Write (payload 5000) 5000 (StartTxn 7 kSizeUnknown)).1 = ((5000 : Nat) : Int) ∧
      (Write (payload 5000) 5000 (StartTxn 7 kSizeUnknown)).2.pos =
        (StartTxn 7 kSizeUnknown).pos + 5000 ∧
      (Write (payload 5000) 5000 (StartTxn 7 kSizeUnknown)).2.size =
        max (2 * (StartTxn 7 kSizeUnknown).size) ((StartTxn 7 kSizeUnknown).pos + 5000)) :=
  ⟨⟨⟨Started.start, by decide, by decide, by decide⟩,
      (C15_write_known_size_bounded 7 5 (StartTxn 7 5) [1, 2, 3, 4, 5, 6] 6 Started.start
        (by decide)).1 (by decide) (by decide)⟩,
    ⟨⟨Started.start, by decide, by decide, by decide⟩,
      ((C15_write_known_size_bounded 7 kSizeUnknown (StartTxn 7 kSizeUnknown) (payload 5000) 5000
          Started.start (by decide)).2 rfl (by decide)).1,
      ((C15_write_known_size_bounded 7 kSizeUnknown (StartTxn 7 kSizeUnknown) (payload 5000) 5000
          Started.start (by decide)).2 rfl (by decide)).2.1,
      ((C15_write_known_size_bounded 7 kSizeUnknown (StartTxn 7 kSizeUnknown) (payload 5000) 5000
          Started.start (by decide)).2 rfl (by decide)).2.2.2 (by decide)⟩⟩

end cache

namespace kvstore_cc

open MemoryKvStore

/-- C16 (refcount discipline of kvstore.cc) fails on the code: `Ref` and `Unref`
change the local copy `mem` that `Lookup` filled and never store it. `Ref` of
the id committed to the empty store returns true, and `GetRefcount` is 0
before and 0 afterwards. For every store, what `Ref` and `Unref` leave behind
is the store as `Lookup` leaves it. -/
theorem C16_ref_does_not_store_the_count :
    (oneEntry.GetRefcount 1).1 = 0 ∧ (oneEntry.Ref 1).1 = true ∧
    ((oneEntry.Ref 1).2.GetRefcount 1).1 = 0 ∧
    (∀ (s : MemoryKvStore) (id : shash.Any),
      (s.Ref id).2 = (s.Lookup id).2 ∧ (s.Unref id).2 = (s.Lookup id).2) := by
  refine ⟨by decide, by decide, by decide, fun s id => ⟨?_, ?_⟩⟩
  · unfold Ref
    split <;> rename_i h <;> rw [h]
  · unfold Unref
    split
    · rename_i h
      split <;> rw [h]
    · rename_i h
      rw [h]

/-- C19 (read of kvstore.cc): `Pread` returns `-ENOENT` and copies nothing when
the id is absent; when the id is present with a payload of `n < 2^63` bytes
and `offset ≤ n`, it returns `min(size, n - offset)` and copies exactly the
bytes from `offset` up to `offset` plus that count. -/
theorem C19_partition_read (s : MemoryKvStore) (id : shash.Any) (size offset : Nat) :
    (find id s.Entries = none → (s.Pread id size offset).1 = (-cache.ENOENT, [])) ∧
    (∀ mem : MemoryBuffer, find id s.Entries = some mem → mem.size = mem.address.length →
      mem.size < 2 ^ 63 → offset ≤ mem.size →
      (s.Pread id size offset).1 =
        (((min size (mem.size - offset) : Nat) : Int),
          (mem.address.drop offset).take (min size (mem.size - offset)))) := by
  have hl := Lookup_fst s id
  constructor
  · intro hn
    rw [hn] at hl
    unfold Pread
    split
    · rename_i mem s1 h
      rw [h] at hl
      simp at hl
    · rfl
  · intro mem hf _ hlt hle
    rw [hf] at hl
    unfold Pread
    split
    · rename_i mem1 s1 h
      rw [h] at hl
      simp only [Option.some.injEq] at hl
      subst hl
      have hlt64 : mem1.size < cache.u64 := by unfold cache.u64; omega
      simp only
      rw [cache.RamCacheManager.sub64_of_le hle hlt64, Nat.min_comm,
        toInt64_of_lt (lt_of_le_of_lt (le_trans (Nat.min_le_right _ _) (Nat.sub_le _ _)) hlt)]
    · rename_i s1 h
      rw [h] at hl
      simp at hl

theorem C19_partition_read_witness :
    (find 1 oneEntry.Entries = some ⟨[7, 8, 9], 3, 0⟩ ∧
      (⟨[7, 8, 9], 3, 0⟩ : MemoryBuffer).size = (⟨[7, 8, 9], 3, 0⟩ : MemoryBuffer).address.length ∧
      (⟨[7, 8, 9], 3, 0⟩ : MemoryBuffer).size < 2 ^ 63 ∧
      1 ≤ (⟨[7, 8, 9], 3, 0⟩ : MemoryBuffer).size) ∧
    (oneEntry.Pread 1 5 1).1 =
      (((min 5 ((⟨[7, 8, 9], 3, 0⟩ : MemoryBuffer).size - 1) : Nat) : Int),
        ((⟨[7, 8, 9], 3, 0⟩ : MemoryBuffer).address.drop 1).take
          (min 5 ((⟨[7, 8, 9], 3, 0⟩ : MemoryBuffer).size - 1))) :=
  ⟨⟨by decide, by decide, by decide, by decide⟩,
    (C19_partition_read oneEntry 1 5 1).2 ⟨[7, 8, 9], 3, 0⟩ (by decide) (by decide) (by decide)
      (by decide)⟩

end kvstore_cc

namespace cache_plugin

/-- C20 (plugin pread law) fails on the code: `ram_pread` casts the number of
remaining bytes to `uint32_t` before taking the minimum. For the object of
`2^32` bytes in `bigStorage`, offset 0 and a request of 1 byte, the callback
returns Ok, sets the size to 0 and copies nothing, where `min(len, n - off)`
is 1. -/
theorem C20_pread_truncates_remaining_bytes :
    Map.find 1 bigStorage = some bigObject ∧ bigObject.data.length = 2 ^ 32 ∧
    (ram_pread bigStorage 1 0 1).1 = (cvmcache_status.CVMCACHE_STATUS_OK, 0, []) ∧
    min 1 (2 ^ 32 - 0) = 1 := by
  have hlen : bigObject.data.length = 2 ^ 32 := List.length_replicate _ _
  refine ⟨bigStorage_find, hlen, ?_, by decide⟩
  rw [ram_pread_found bigStorage_find 1 (Nat.zero_le _), hlen]
  have h0 : min 1 ((2 ^ 32 - 0) % 2 ^ 32) = 0 := by decide
  rw [h0, List.take_zero]

end cache_plugin

namespace cache_plugin

/-- C21 (plugin pread bounds): for a stored object whose payload has `n` bytes,
`ram_pread` returns OutOfBounds exactly when `offset > n`, and a read at
`offset = n` returns Ok with 0 bytes. For the object of 10 bytes, offset 10
gives Ok with 0 bytes and offset 11 gives OutOfBounds. -/
theorem C21_pread_bounds (storage : Storage) (id : Nat) (o : Object) (offset size : Nat)
    (h : Map.find id storage = some o) :
    ((ram_pread storage id offset size).1.1 = cvmcache_status.CVMCACHE_STATUS_OUTOFBOUNDS ↔
      offset > o.data.length) ∧
    (offset = o.data.length →
      (ram_pread storage id offset size).1 = (cvmcache_status.CVMCACHE_STATUS_OK, 0, [])) ∧
    (ram_pread tenStorage 1 10 100).1 = (cvmcache_status.CVMCACHE_STATUS_OK, 0, []) ∧
    (ram_pread tenStorage 1 11 100).1.1 = cvmcache_status.CVMCACHE_STATUS_OUTOFBOUNDS := by
  refine ⟨?_, ?_, by decide, by decide⟩
  · by_cases hgt : offset > o.data.length
    · have e : (ram_pread storage id offset size).1.1 =
          cvmcache_status.CVMCACHE_STATUS_OUTOFBOUNDS := by
        unfold ram_pread
        rw [Map.index_found h]
        simp only
        rw [if_pos hgt]
      exact ⟨fun _ => hgt, fun _ => e⟩
    · rw [ram_pread_found h size (Nat.not_lt.mp hgt)]
      exact ⟨fun hc => absurd hc (by simp), fun hc => absurd hc hgt⟩
  · intro he
    rw [ram_pread_found h size (Nat.le_of_eq he), he, Nat.sub_self, Nat.zero_mod, Nat.min_zero,
      List.take_zero]

theorem C21_pread_bounds_witness :
    Map.find 1 tenStorage = some tenObject ∧
    (((ram_pread tenStorage 1 12 4).1.1 = cvmcache_status.CVMCACHE_STATUS_OUTOFBOUNDS ↔
      12 > tenObject.data.length) ∧
    (12 = tenObject.data.length →
      (ram_pread tenStorage 1 12 4).1 = (cvmcache_status.CVMCACHE_STATUS_OK, 0, [])) ∧
    (ram_pread tenStorage 1 10 100).1 = (cvmcache_status.CVMCACHE_STATUS_OK, 0, []) ∧
    (ram_pread tenStorage 1 11 100).1.1 = cvmcache_status.CVMCACHE_STATUS_OUTOFBOUNDS) :=
  ⟨by decide, C21_pread_bounds tenStorage 1 tenObject 12 4 (by decide)⟩

/-- C22 (plugin chrefcnt): `ram_chrefcnt` returns NoEntry for an absent id and
BadCount when `refcnt + change_by < 0`, the storage being unchanged in both
cases; otherwise it returns Ok, the refcnt of the object becomes
`refcnt + change_by`, its other fields stay, and every other id is stored as
before. The sum is taken to fit in 32 bits. -/
theorem C22_chrefcnt (storage : Storage) (id : Nat) (change_by : Int) :
    (Map.find id storage = none →
      ram_chrefcnt storage id change_by = (cvmcache_status.CVMCACHE_STATUS_NOENTRY, storage)) ∧
    (∀ o : Object, Map.find id storage = some o →
      -2 ^ 31 ≤ o.refcnt + change_by → o.refcnt + change_by < 2 ^ 31 →
      (o.refcnt + change_by < 0 →
        ram_chrefcnt storage id change_by = (cvmcache_status.CVMCACHE_STATUS_BADCOUNT, storage)) ∧
      (0 ≤ o.refcnt + change_by →
        (ram_chrefcnt storage id change_by).1 = cvmcache_status.CVMCACHE_STATUS_OK ∧
        Map.find id (ram_chrefcnt storage id change_by).2 =
          some { o with refcnt := o.refcnt + change_by } ∧
        ∀ j : Nat, j ≠ id →
          Map.find j (ram_chrefcnt storage id change_by).2 = Map.find j storage)) := by
  refine ⟨fun h => ram_chrefcnt_absent change_by h, fun o h h1 h2 => ?_⟩
  rw [ram_chrefcnt_found change_by h, wrap32_of_fits h1 h2]
  constructor
  · intro hneg
    rw [if_pos hneg]
  · intro hpos
    rw [if_neg (not_lt.mpr hpos)]
    exact ⟨rfl, Map.find_assign_self _ _ _, fun j hj => Map.find_assign_ne _ _ hj⟩

theorem C22_chrefcnt_witness :
    Map.find 2 tenStorage = none ∧
    ram_chrefcnt tenStorage 2 1 = (cvmcache_status.CVMCACHE_STATUS_NOENTRY, tenStorage) ∧
    Map.find 1 tenStorage = some tenObject ∧
    (ram_chrefcnt tenStorage 1 2).1 = cvmcache_status.CVMCACHE_STATUS_OK ∧
    Map.find 1 (ram_chrefcnt tenStorage 1 2).2 = some { tenObject with refcnt := tenObject.refcnt + 2 } ∧
    ram_chrefcnt tenStorage 1 (-2) = (cvmcache_status.CVMCACHE_STATUS_BADCOUNT, tenStorage) :=
  ⟨by decide, (C22_chrefcnt tenStorage 2 1).1 (by decide), by decide,
    (((C22_chrefcnt tenStorage 1 2).2 tenObject (by decide) (by decide) (by decide)).2
      (by decide)).1,
    (((C22_chrefcnt tenStorage 1 2).2 tenObject (by decide) (by decide) (by decide)).2
      (by decide)).2.1,
    ((C22_chrefcnt tenStorage 1 (-2)).2 tenObject (by decide) (by decide) (by decide)).1
      (by decide)⟩

end cache_plugin

namespace cache_plugin

/-- C23 as stated fails: object 1 is created in the empty storage, and
`ram_chrefcnt(1, -1)` then returns Ok and changes the storage, because
`ram_start_txn` gives the new object the reference count 1. -/
theorem C23_counterexample :
    Map.find 1 Globals.empty.storage = none ∧
    tenStorage = (createObject Globals.empty 1 7
      (infoOf cvmcache_object_type.CVMCACHE_OBJECT_REGULAR) [0, 1, 2, 3, 4, 5, 6, 7, 8, 9] 10).storage ∧
    (ram_chrefcnt tenStorage 1 (-1)).1 = cvmcache_status.CVMCACHE_STATUS_OK ∧
    (ram_chrefcnt tenStorage 1 (-1)).1 ≠ cvmcache_status.CVMCACHE_STATUS_BADCOUNT ∧
    (ram_chrefcnt tenStorage 1 (-1)).2 ≠ tenStorage := by
  refine ⟨by decide, rfl, by decide, by decide, by decide⟩

/-- C23 amended (refcount underflow): `ram_chrefcnt(X, +1)` returns NoEntry
for an id that is absent. After X is created by `ram_start_txn`,
`ram_write_txn` and `ram_commit_txn`, it is stored with the reference count 1;
`ram_chrefcnt(X, -1)` returns Ok and stores the count 0, and a second
`ram_chrefcnt(X, -1)` returns BadCount and leaves the storage unchanged. -/
theorem C23_refcount_underflow (g : Globals) (x txn_id : Nat) (info : cvmcache_object_info)
    (buffer : List Nat) (size : Nat) :
    (Map.find x g.storage = none →
      ram_chrefcnt g.storage x 1 = (cvmcache_status.CVMCACHE_STATUS_NOENTRY, g.storage)) ∧
    Map.find x (createObject g x txn_id info buffer size).storage =
      some (createdObject x info buffer size) ∧
    (createdObject x info buffer size).refcnt = 1 ∧
    ram_chrefcnt (createObject g x txn_id info buffer size).storage x (-1) =
      (cvmcache_status.CVMCACHE_STATUS_OK,
        Map.assign x { createdObject x info buffer size with refcnt := 0 }
          (createObject g x txn_id info buffer size).storage) ∧
    ram_chrefcnt (ram_chrefcnt (createObject g x txn_id info buffer size).storage x (-1)).2 x (-1) =
      (cvmcache_status.CVMCACHE_STATUS_BADCOUNT,
        (ram_chrefcnt (createObject g x txn_id info buffer size).storage x (-1)).2) := by
  have hfind : Map.find x (createObject g x txn_id info buffer size).storage =
      some (createdObject x info buffer size) := by
    rw [createObject_storage]
    exact Map.find_assign_self _ _ _
  have hfirst : ram_chrefcnt (createObject g x txn_id info buffer size).storage x (-1) =
      (cvmcache_status.CVMCACHE_STATUS_OK,
        Map.assign x { createdObject x info buffer size with refcnt := 0 }
          (createObject g x txn_id info buffer size).storage) := by
    rw [ram_chrefcnt_found (-1) hfind]
    rfl
  refine ⟨fun h => ram_chrefcnt_absent 1 h, hfind, rfl, hfirst, ?_⟩
  rw [hfirst]
  rw [ram_chrefcnt_found (-1) (Map.find_assign_self _ _ _)]
  rfl

theorem C23_refcount_underflow_witness :
    Map.find 1 Globals.empty.storage = none ∧
    ram_chrefcnt Globals.empty.storage 1 1 =
      (cvmcache_status.CVMCACHE_STATUS_NOENTRY, Globals.empty.storage) :=
  ⟨by decide,
    (C23_refcount_underflow Globals.empty 1 7 (infoOf cvmcache_object_type.CVMCACHE_OBJECT_REGULAR)
      [0, 1, 2, 3, 4, 5, 6, 7, 8, 9] 10).1 (by decide)⟩

/-- C25 (plugin transaction lifecycle) fails on the code for the commit:
`ram_commit_txn` never erases the transaction. After `ram_start_txn` of
transaction 7 and `ram_commit_txn(7)` the table still holds transaction 7,
while `ram_abort_txn(7)` removes it and leaves the storage as it was. For all
globals the table holds `txn_id` after `ram_commit_txn(txn_id)`. -/
theorem C25_commit_keeps_the_transaction :
    Map.find 7 startedTxn.transactions ≠ none ∧
    Map.find 7 (ram_commit_txn startedTxn 7).2.transactions ≠ none ∧
    (ram_commit_txn startedTxn 7).2.transactions = startedTxn.transactions ∧
    Map.find 7 (ram_abort_txn startedTxn 7).2.transactions = none ∧
    (ram_abort_txn startedTxn 7).2.storage = startedTxn.storage ∧
    (∀ (g : Globals) (txn_id : Nat),
      Map.find txn_id (ram_commit_txn g txn_id).2.transactions ≠ none) := by
  refine ⟨by decide, by decide, by decide, by decide, by decide, fun g txn_id => ?_⟩
  unfold ram_commit_txn
  simp only
  rw [Map.find_index]
  exact fun h => Option.noConfusion h

end cache_plugin

namespace cache_plugin

/-- C26 (plugin shrink spares referenced objects and drops volatile objects
first): the entries that `ram_shrink` leaves are entries of the storage
before, unchanged and in the same order; every entry whose object has
`refcnt > 0` is left; and when an entry with a non-volatile object is removed,
every volatile object that is left has `refcnt > 0`. With distinct keys, as in
a `std::map`, an object with `refcnt > 0` is found under its id afterwards,
and what is found afterwards was stored under that id before. -/
theorem C26_shrink_spares_pinned (storage : Storage) (shrink_to : Nat) :
    List.Sublist (ram_shrink storage shrink_to).2 storage ∧
    (∀ e ∈ storage, e.2.refcnt > 0 → e ∈ (ram_shrink storage shrink_to).2) ∧
    (∀ e ∈ storage, e ∉ (ram_shrink storage shrink_to).2 →
      e.2.type ≠ cvmcache_object_type.CVMCACHE_OBJECT_VOLATILE →
      ∀ e1 ∈ (ram_shrink storage shrink_to).2,
        e1.2.type = cvmcache_object_type.CVMCACHE_OBJECT_VOLATILE → e1.2.refcnt > 0) ∧
    ((storage.map Prod.fst).Nodup → ∀ (k : Nat) (o : Object),
      (Map.find k storage = some o → o.refcnt > 0 →
        Map.find k (ram_shrink storage shrink_to).2 = some o) ∧
      (Map.find k (ram_shrink storage shrink_to).2 = some o → Map.find k storage = some o)) := by
  suffices hmain : List.Sublist (ram_shrink storage shrink_to).2 storage ∧
      (∀ e ∈ storage, e.2.refcnt > 0 → e ∈ (ram_shrink storage shrink_to).2) ∧
      (∀ e ∈ storage, e ∉ (ram_shrink storage shrink_to).2 →
        e.2.type ≠ cvmcache_object_type.CVMCACHE_OBJECT_VOLATILE →
        ∀ e1 ∈ (ram_shrink storage shrink_to).2,
          e1.2.type = cvmcache_object_type.CVMCACHE_OBJECT_VOLATILE → e1.2.refcnt > 0) by
    refine ⟨hmain.1, hmain.2.1, hmain.2.2, fun hd k o => ?_⟩
    have hd1 : ((ram_shrink storage shrink_to).2.map Prod.fst).Nodup :=
      List.Nodup.sublist (List.Sublist.map Prod.fst hmain.1) hd
    constructor
    · intro hf hr
      exact (Map.find_iff_mem hd1 k o).mpr
        (hmain.2.1 (k, o) ((Map.find_iff_mem hd k o).mp hf) hr)
    · intro hf
      exact (Map.find_iff_mem hd k o).mpr (hmain.1.subset ((Map.find_iff_mem hd1 k o).mp hf))
  have hskipV : ∀ e : Nat × Object, e.2.refcnt > 0 → skipVolatile e.2 = true := by
    intro e h
    unfold skipVolatile
    simp [h]
  have hskipO : ∀ e : Nat × Object, e.2.refcnt > 0 → skipOther e.2 = true := by
    intro e h
    unfold skipOther
    simp [h]
  rcases ram_shrink_storage storage shrink_to with h | ⟨u, h⟩ | ⟨u, v, hf, h⟩
  · rw [h]
    exact ⟨List.Sublist.refl _, fun e he _ => he, fun e he hn => absurd he hn⟩
  · rw [h]
    refine ⟨eraseLoop_sublist _ _ _ _, fun e he hr => eraseLoop_keeps _ _ _ _ he (hskipV e hr), ?_⟩
    intro e he hn hty
    have hk : skipVolatile e.2 = true := by
      unfold skipVolatile
      simp [hty]
    exact absurd (eraseLoop_keeps _ _ _ _ he hk) hn
  · rw [h]
    refine ⟨(eraseLoop_sublist _ _ _ _).trans (eraseLoop_sublist _ _ _ _),
      fun e he hr => eraseLoop_keeps _ _ _ _ (eraseLoop_keeps _ _ _ _ he (hskipV e hr)) (hskipO e hr),
      ?_⟩
    intro _ _ _ _ e1 he1 hty
    have hm : e1 ∈ (eraseLoop skipVolatile shrink_to u storage).2.2 :=
      (eraseLoop_sublist _ _ _ _).subset he1
    have hs := eraseLoop_false _ _ _ _ hf e1 hm
    unfold skipVolatile at hs
    simp [hty] at hs
    exact hs

theorem C26_shrink_spares_pinned_witness :
    (ram_shrink mixedStorage 6).2 = [(1, pinnedRegular), (3, pinnedVolatile)] ∧
    (1, pinnedRegular) ∈ (ram_shrink mixedStorage 6).2 ∧
    ((4, coldRegular) ∈ mixedStorage ∧ (4, coldRegular) ∉ (ram_shrink mixedStorage 6).2 ∧
      coldRegular.type ≠ cvmcache_object_type.CVMCACHE_OBJECT_VOLATILE ∧
      pinnedVolatile.type = cvmcache_object_type.CVMCACHE_OBJECT_VOLATILE) ∧
    pinnedVolatile.refcnt > 0 ∧
    ((mixedStorage.map Prod.fst).Nodup ∧ Map.find 3 mixedStorage = some pinnedVolatile) ∧
    Map.find 3 (ram_shrink mixedStorage 6).2 = some pinnedVolatile :=
  ⟨by decide,
    (C26_shrink_spares_pinned mixedStorage 6).2.1 (1, pinnedRegular) (by decide) (by decide),
    ⟨by decide, by decide, by decide, by decide⟩,
    (C26_shrink_spares_pinned mixedStorage 6).2.2.1 (4, coldRegular) (by decide) (by decide)
      (by decide) (3, pinnedVolatile) (by decide) (by decide),
    ⟨by decide, by decide⟩,
    ((C26_shrink_spares_pinned mixedStorage 6).2.2.2 (by decide) 3 pinnedVolatile).1 (by decide)
      (by decide)⟩

end cache_plugin

namespace cache_plugin

/-- C27 (plugin shrink result) fails on the code: `ram_shrink` takes the
length of an erased object as `unsigned`. For the storage with one
unreferenced volatile object of `2^32` bytes and the target 0, the object is
erased, yet `*used` is `2^32` and the status is Partial, where the sum of the
lengths left is 0. -/
theorem C27_shrink_truncates_erased_length :
    bigVolatile.data.length = 2 ^ 32 ∧
    ram_shrink bigVolatileStorage 0 = ((cvmcache_status.CVMCACHE_STATUS_PARTIAL, 2 ^ 32), []) ∧
    sumLengths [] = 0 := by
  have hlen : bigVolatile.data.length = 2 ^ 32 := List.length_replicate _ _
  exact ⟨hlen, ram_shrink_big 1 bigVolatile hlen rfl rfl, rfl⟩

end cache_plugin

namespace cache_plugin

/-- C28 (listing is a filtered snapshot): after `ram_listing_begin(l, t)` on
the storage S and any later sequence of chrefcnt, pread, transaction and
shrink callbacks, `n` successive calls of `ram_listing_next(l)` return Ok
with one item for each object of S that has type `t`, each once and in the
order of the map (ascending keys): the item has the id of the object, the
length of its data as size, its type, `pinned` exactly when its `refcnt` in
S was positive, and its description (none if empty); every further call
returns OutOfBounds. In scenario 6 of the spec (A, B, C created as regular,
volatile, regular, C unreferenced; after the begin D is created, A is
unreferenced and the storage is shrunk to 0, which erases A and C) the calls
yield A (2 bytes, pinned) and C (5 bytes, not pinned) and then OutOfBounds,
while the storage holds B and D. -/
theorem C28_listing_is_snapshot (g : Globals) (l : Nat) (t : cvmcache_object_type)
    (cs : List Call) (n : Nat) :
    (listingNexts l n (calls (ram_listing_begin g l t).2 cs)).map Prod.fst = some
      ((((g.storage.map (fun e => e.2)).filter (fun o => decide (o.type = t))).map
          (fun (o : Object) => (cvmcache_status.CVMCACHE_STATUS_OK,
            some ({ id := o.id, size := o.data.length, type := o.type,
                    pinned := decide (o.refcnt > (0 : Int)),
                    description := if o.description.isEmpty then none else some o.description } :
              cvmcache_object_info)))).take n ++
        List.replicate
          (n - ((g.storage.map (fun e => e.2)).filter (fun o => decide (o.type = t))).length)
          (cvmcache_status.CVMCACHE_STATUS_OUTOFBOUNDS, none)) ∧
    (threeObjects.storage.map (fun e => (e.1, e.2.data.length, e.2.type, e.2.refcnt)) =
      [(1, 2, cvmcache_object_type.CVMCACHE_OBJECT_REGULAR, 1),
       (2, 1, cvmcache_object_type.CVMCACHE_OBJECT_VOLATILE, 1),
       (3, 5, cvmcache_object_type.CVMCACHE_OBJECT_REGULAR, 0)]) ∧
    (listingNexts 5 4 (calls (ram_listing_begin threeObjects 5
        cvmcache_object_type.CVMCACHE_OBJECT_REGULAR).2 createD)).map Prod.fst = some
      [(cvmcache_status.CVMCACHE_STATUS_OK,
          some { id := 1, size := 2, type := cvmcache_object_type.CVMCACHE_OBJECT_REGULAR,
                 pinned := true, description := some "A" }),
       (cvmcache_status.CVMCACHE_STATUS_OK,
          some { id := 3, size := 5, type := cvmcache_object_type.CVMCACHE_OBJECT_REGULAR,
                 pinned := false, description := none }),
       (cvmcache_status.CVMCACHE_STATUS_OUTOFBOUNDS, none),
       (cvmcache_status.CVMCACHE_STATUS_OUTOFBOUNDS, none)] ∧
    (calls (ram_listing_begin threeObjects 5
        cvmcache_object_type.CVMCACHE_OBJECT_REGULAR).2 createD).storage.map (fun e => e.1) =
      [2, 4] := by
  refine ⟨?_, by decide, by decide, by decide⟩
  have hf : Map.find l (calls (ram_listing_begin g l t).2 cs).listings =
      some ⟨t, 0, g.storage.map (fun e => e.2)⟩ := by
    rw [calls_listings]
    exact Map.find_assign_self _ _ _
  exact listingNexts_spec l n _ _ hf

end cache_plugin

namespace cache

open kvstore kvstore.MemoryKvStore RamCacheManager

/-- C29 (handle allocation): when slot `i` is the free slot of smallest index,
`AddFd` stores the descriptor there and returns `i`; when no slot is free it
appends the descriptor and returns the old length if that is below
`kMaxHandles`, and returns `-ENFILE` without a change otherwise. A table of at
most `kMaxHandles` slots stays so, and a slot that is in use keeps its
descriptor. -/
theorem C29_handle_allocation (m : RamCacheManager) (fd : ReadOnlyFd) :
    (∀ (i : Nat) (e : ReadOnlyFd), m.open_fds_[i]? = some e → e.handle = kInvalidHandle →
      (∀ j, j < i → ∀ a, m.open_fds_[j]? = some a → a.handle ≠ kInvalidHandle) →
      m.AddFd fd = ((i : Int), { m with open_fds_ := m.open_fds_.set i fd }) ∧
      (m.open_fds_.set i fd)[i]? = some fd) ∧
    ((∀ e ∈ m.open_fds_, e.handle ≠ kInvalidHandle) → m.open_fds_.length < kMaxHandles →
      m.AddFd fd = ((m.open_fds_.length : Int), { m with open_fds_ := m.open_fds_ ++ [fd] })) ∧
    ((∀ e ∈ m.open_fds_, e.handle ≠ kInvalidHandle) → kMaxHandles ≤ m.open_fds_.length →
      m.AddFd fd = (-ENFILE, m)) ∧
    (m.open_fds_.length ≤ kMaxHandles → (m.AddFd fd).2.open_fds_.length ≤ kMaxHandles) ∧
    (∀ (j : Nat) (a : ReadOnlyFd), m.open_fds_[j]? = some a → a.handle ≠ kInvalidHandle →
      (m.AddFd fd).2.open_fds_[j]? = some a) := by
  refine ⟨?_, ?_, ?_, ?_, ?_⟩
  · intro i e h1 h2 h3
    have hff := firstFree_of_smallest h1 h2 h3
    refine ⟨?_, ?_⟩
    · unfold AddFd
      rw [hff]
    · rw [List.getElem?_set_self (firstFree_lt hff)]
  · intro hall hlt
    unfold AddFd
    rw [firstFree_eq_none.mpr hall]
    simp only
    rw [if_pos hlt]
  · intro hall hge
    unfold AddFd
    rw [firstFree_eq_none.mpr hall]
    simp only
    rw [if_neg (Nat.not_lt.mpr hge)]
  · intro hle
    unfold AddFd
    cases hff : firstFree m.open_fds_ with
    | some i =>
      simp only
      rw [List.length_set]
      exact hle
    | none =>
      simp only
      split
      · rename_i hlt
        simp only
        rw [List.length_append]
        exact hlt
      · exact hle
  · intro j a hj ha
    unfold AddFd
    cases hff : firstFree m.open_fds_ with
    | some i =>
      simp only
      obtain ⟨e, hi, he⟩ := firstFree_eq_some hff
      have hne : i ≠ j := by
        intro hij
        rw [hij, hj] at hi
        cases hi
        exact ha he
      rw [List.getElem?_set_ne hne]
      exact hj
    | none =>
      simp only
      split
      · simp only
        have hlt : j < m.open_fds_.length := by
          rcases Nat.lt_or_ge j m.open_fds_.length with hlt | hge
          · exact hlt
          · rw [List.getElem?_eq_none hge] at hj
            cases hj
        rw [List.getElem?_append_left hlt]
        exact hj
      · exact hj

theorem C29_handle_allocation_witness :
    (sparseTable.open_fds_[1]? = some ⟨kInvalidHandle, 0⟩ ∧
      (⟨kInvalidHandle, 0⟩ : ReadOnlyFd).handle = kInvalidHandle ∧
      ∀ j, j < 1 → ∀ a, sparseTable.open_fds_[j]? = some a → a.handle ≠ kInvalidHandle) ∧
    sparseTable.AddFd ⟨9, 0⟩ =
      (((1 : Nat) : Int), { sparseTable with open_fds_ := sparseTable.open_fds_.set 1 ⟨9, 0⟩ }) ∧
    (sparseTable.open_fds_.set 1 ⟨9, 0⟩)[1]? = some ⟨9, 0⟩ :=
  have h3 : ∀ j, j < 1 → ∀ a, sparseTable.open_fds_[j]? = some a → a.handle ≠ kInvalidHandle := by
    intro j hj a ha
    have h0 : j = 0 := by omega
    subst h0
    have e : a = ⟨5, 0⟩ := by
      have : sparseTable.open_fds_[0]? = some ⟨5, 0⟩ := by decide
      rw [this] at ha
      exact (Option.some.inj ha).symm
    rw [e]
    decide
  ⟨⟨by decide, by decide, h3⟩,
    ((C29_handle_allocation sparseTable ⟨9, 0⟩).1 1 ⟨kInvalidHandle, 0⟩ (by decide) (by decide)
      h3).1,
    ((C29_handle_allocation sparseTable ⟨9, 0⟩).1 1 ⟨kInvalidHandle, 0⟩ (by decide) (by decide)
      h3).2⟩

/-- C30 (cascade targets): for 64-bit `P`, `R`, `V`, `s` whose total does not
overflow and exceeds `max_size`: if `P + R + s ≤ max_size`, the difference
`total - max_size` is at most `V`, so the volatile target is computed without
underflow, and it is `max_size - P - R - s ≤ V`; otherwise, if
`P + s ≤ max_size`, the regular target, computed modulo `2^64`, is
`max_size - P - s < R`. Partitions shrunk to these targets leave
`P + R' + V' + s ≤ max_size`. With these targets `CommitToKvStore` is
`commitExact`. -/
theorem C30_cascade_targets (P R V s max_size : Nat) (hno : P + R + V + s < u64)
    (hgt : add64 (add64 (add64 P R) V) s > max_size) :
    (add64 (add64 P R) s ≤ max_size →
      sub64 (add64 (add64 (add64 P R) V) s) max_size ≤ V ∧
      sub64 V (sub64 (add64 (add64 (add64 P R) V) s) max_size) = max_size - P - R - s ∧
      max_size - P - R - s ≤ V ∧
      ∀ V1, V1 ≤ sub64 V (sub64 (add64 (add64 (add64 P R) V) s) max_size) →
        P + R + V1 + s ≤ max_size) ∧
    (¬ add64 (add64 P R) s ≤ max_size → add64 P s ≤ max_size →
      add64 (sub64 R (sub64 (add64 (add64 (add64 P R) V) s) max_size)) V = max_size - P - s ∧
      max_size - P - s < R ∧
      ∀ R1 V1, V1 ≤ 0 →
        R1 ≤ add64 (sub64 R (sub64 (add64 (add64 (add64 P R) V) s) max_size)) V →
        P + R1 + V1 + s ≤ max_size) ∧
    (∀ (m : RamCacheManager) (t : Transaction), m.usedTotal + (txnBuffer t).size < u64 →
      m.CommitToKvStore t = commitExact m t) := by
  have e1 : add64 (add64 (add64 P R) V) s = P + R + V + s := by
    unfold add64 u64 at *
    omega
  have e2 : add64 (add64 P R) s = P + R + s := by
    unfold add64 u64 at *
    omega
  have e3 : add64 P s = P + s := by
    unfold add64 u64 at *
    omega
  rw [e1] at hgt
  rw [e1, e2, e3]
  have e4 : sub64 (P + R + V + s) max_size = P + R + V + s - max_size := by
    unfold sub64 u64 at *
    omega
  rw [e4]
  refine ⟨?_, ?_, fun m t h => CommitToKvStore_exact m t h⟩
  · intro hle
    have e5 : sub64 V (P + R + V + s - max_size) = max_size - P - R - s := by
      unfold sub64 u64 at *
      omega
    rw [e5]
    refine ⟨by omega, rfl, by omega, fun V1 h1 => by omega⟩
  · intro hn hle
    have e6 : add64 (sub64 R (P + R + V + s - max_size)) V = max_size - P - s := by
      unfold add64 sub64 u64 at *
      omega
    rw [e6]
    refine ⟨rfl, by omega, fun R1 V1 h1 h2 => by omega⟩

theorem C30_cascade_targets_witness :
    ((400 + 300 + 200 + 200 < u64 ∧ add64 (add64 (add64 400 300) 200) 200 > 1000 ∧
        add64 (add64 400 300) 200 ≤ 1000) ∧
      sub64 200 (sub64 (add64 (add64 (add64 400 300) 200) 200) 1000) = 1000 - 400 - 300 - 200) ∧
    ((400 + 100 + 900 + 550 < u64 ∧ add64 (add64 (add64 400 100) 900) 550 > 1000 ∧
        ¬ add64 (add64 400 100) 550 ≤ 1000 ∧ add64 400 550 ≤ 1000) ∧
      add64 (sub64 100 (sub64 (add64 (add64 (add64 400 100) 900) 550) 1000)) 900 =
        1000 - 400 - 550 ∧ 1000 - 400 - 550 < 100) :=
  ⟨⟨⟨by decide, by decide, by decide⟩,
      ((C30_cascade_targets 400 300 200 200 1000 (by decide) (by decide)).1 (by decide)).2.1⟩,
    ⟨⟨by decide, by decide, by decide, by decide⟩,
      ((C30_cascade_targets 400 100 900 550 1000 (by decide) (by decide)).2.1 (by decide)
        (by decide)).1,
      ((C30_cascade_targets 400 100 900 550 1000 (by decide) (by decide)).2.1 (by decide)
        (by decide)).2.1⟩⟩

end cache

namespace cache_plugin

set_option maxRecDepth 100000 in
/-- C24 as stated fails. In the plugin, object 1 is stored and transaction 8
targets id 1: `ram_commit_txn` returns Ok and the stored object is replaced.
In the cache manager, object 1 is in the pinned partition of the reachable
state `pinnedOpen` and a pinned commit of 700 bytes for id 1 returns
`-ENOSPC`; and the volatile object 1 of the reachable state `fullCold` is
evicted by the cascade of a volatile commit of 50 bytes for id 1, which then
returns 0. -/
theorem C24_counterexample :
    Map.find 1 secondTxn.storage = some tenObject ∧
    (Map.find 8 secondTxn.transactions).map (fun t => t.id) = some 1 ∧
    (ram_commit_txn secondTxn 8).1 = cvmcache_status.CVMCACHE_STATUS_OK ∧
    Map.find 1 (ram_commit_txn secondTxn 8).2.storage =
      some (createdObject 1 (infoOf cvmcache_object_type.CVMCACHE_OBJECT_VOLATILE) [42] 1) ∧
    createdObject 1 (infoOf cvmcache_object_type.CVMCACHE_OBJECT_VOLATILE) [42] 1 ≠ tenObject ∧
    cache.RamCacheManager.Reachable 1000 cache.pinnedOpen ∧
    cache.RamCacheManager.present
      (cache.pinnedOpen.target (cache.RamCacheManager.filledTxn 1 700
        cache.ObjectType.kTypePinned).object_type) 1 ∧
    cache.pinnedOpen.CommitTxn (cache.RamCacheManager.filledTxn 1 700 cache.ObjectType.kTypePinned) =
      some (-cache.ENOSPC, cache.pinnedOpen) ∧
    cache.RamCacheManager.Reachable 100 cache.fullCold ∧
    cache.RamCacheManager.present
      (cache.fullCold.target (cache.RamCacheManager.filledTxn 1 50
        cache.ObjectType.kTypeVolatile).object_type) 1 ∧
    (cache.fullCold.CommitTxn (cache.RamCacheManager.filledTxn 1 50
      cache.ObjectType.kTypeVolatile)).map Prod.fst = some 0 :=
  ⟨by decide, by decide, by decide, by decide, by decide, cache.RamCacheManager.pinnedOpen_reachable,
    by decide, by decide, cache.RamCacheManager.fullCold_reachable, by decide, by decide⟩

/-- C24 amended (duplicate commit): when the storage of the plugin holds an
object under the id of a transaction, `ram_commit_txn` returns Ok, the
partial object of the transaction replaces the stored object, and every
other id is stored as before. In a state of the cache manager reached by
calls, for a transaction whose buffer `realloc` keeps and with
`P + s ≤ max_size`, `CommitTxn` returns `-EEXIST`, leaving the state as the
eviction cascade left it, when the id is in the partition of the object type
after the cascade, and returns 0 when it is not. The id is there after the
cascade whenever it was in the pinned partition, or in the regular partition
with `P + R + s ≤ max_size`, or in the volatile partition with
`P + R + V + s ≤ max_size`. -/
theorem C24_duplicate_commit (g : Globals) (txn_id : Nat) (txn : TxnInfo) (o : Object)
    (M : Nat) (m : cache.RamCacheManager) (t : cache.Transaction) :
    (Map.find txn_id g.transactions = some txn → Map.find txn.id g.storage = some o →
      (ram_commit_txn g txn_id).1 = cvmcache_status.CVMCACHE_STATUS_OK ∧
      Map.find txn.id (ram_commit_txn g txn_id).2.storage = some txn.partial_object ∧
      ∀ j : Nat, j ≠ txn.id →
        Map.find j (ram_commit_txn g txn_id).2.storage = Map.find j g.storage) ∧
    (cache.ReachedByCalls M m → cache.RamCacheManager.Reallocated t →
      m.pinned_entries_.GetUsed + (cache.RamCacheManager.txnBuffer t).size ≤ m.max_size_ →
      (cache.RamCacheManager.present ((m.afterCascade t).target t.object_type) t.id →
        m.CommitTxn t = some (-cache.EEXIST, m.afterCascade t)) ∧
      (¬ cache.RamCacheManager.present ((m.afterCascade t).target t.object_type) t.id →
        (m.CommitTxn t).map Prod.fst = some 0) ∧
      (t.object_type = cache.ObjectType.kTypePinned ∨
          t.object_type = cache.ObjectType.kTypeCatalog →
        cache.RamCacheManager.present m.pinned_entries_ t.id →
        m.CommitTxn t = some (-cache.EEXIST, m.afterCascade t)) ∧
      (t.object_type = cache.ObjectType.kTypeRegular →
        cache.RamCacheManager.present m.regular_entries_ t.id →
        m.pinned_entries_.GetUsed + m.regular_entries_.GetUsed +
          (cache.RamCacheManager.txnBuffer t).size ≤ m.max_size_ →
        m.CommitTxn t = some (-cache.EEXIST, m.afterCascade t)) ∧
      (t.object_type = cache.ObjectType.kTypeVolatile →
        cache.RamCacheManager.present m.volatile_entries_ t.id →
        m.pinned_entries_.GetUsed + m.regular_entries_.GetUsed + m.volatile_entries_.GetUsed +
          (cache.RamCacheManager.txnBuffer t).size ≤ m.max_size_ →
        m.CommitTxn t = some (-cache.EEXIST, m.afterCascade t))) := by
  constructor
  · intro h _
    rw [ram_commit_txn_found h]
    exact ⟨rfl, Map.find_assign_self _ _ _, fun j hj => Map.find_assign_ne _ _ hj⟩
  · intro hreach hkept hfit
    have _hrealloc : cache.RamCacheManager.Reallocated t := hkept
    have hs := cache.RamCacheManager.reached_sound hreach
    have ha := cache.RamCacheManager.reached_accounts hreach
    have hc : m.CommitTxn t = some (cache.RamCacheManager.commitSwitch (m.afterCascade t) t.id
        (cache.RamCacheManager.txnBuffer t)) :=
      cache.RamCacheManager.CommitToKvStore_of_cold m t ha.regular ha.volatile_ok hs.regularCold
        hs.volatileCold hfit
    have hpresent : cache.RamCacheManager.present ((m.afterCascade t).target t.object_type) t.id →
        m.CommitTxn t = some (-cache.EEXIST, m.afterCascade t) := by
      intro h
      rw [hc, cache.RamCacheManager.commitSwitch_present (m.afterCascade t) t.id
        (cache.RamCacheManager.txnBuffer t)
        (by rw [cache.RamCacheManager.txnBuffer_type]; exact h)]
    refine ⟨hpresent, ?_, ?_, ?_, ?_⟩
    · intro h
      rw [hc]
      have h0 := cache.RamCacheManager.commitSwitch_absent (m.afterCascade t) t.id
        (cache.RamCacheManager.txnBuffer t)
        (by rw [cache.RamCacheManager.txnBuffer_type]; exact h)
      simp only [Option.map_some', h0]
    · intro hty hp
      apply hpresent
      have e : (m.afterCascade t).target t.object_type = m.pinned_entries_ := by
        rcases hty with hty | hty <;> rw [hty] <;>
          exact cache.RamCacheManager.afterCascade_pinned m t
      rw [e]
      exact hp
    · intro hty hp hle
      apply hpresent
      have e : (m.afterCascade t).target t.object_type = m.regular_entries_ := by
        rw [hty]
        exact cache.RamCacheManager.afterCascade_regular m t hle
      rw [e]
      exact hp
    · intro hty hp hle
      apply hpresent
      have e : (m.afterCascade t).target t.object_type = m.volatile_entries_ := by
        rw [hty]
        exact cache.RamCacheManager.afterCascade_volatile m t hle
      rw [e]
      exact hp

set_option maxRecDepth 100000 in
theorem C24_duplicate_commit_witness :
    (Map.find 8 secondTxn.transactions =
        some ⟨1, createdObject 1 (infoOf cvmcache_object_type.CVMCACHE_OBJECT_VOLATILE) [42] 1⟩ ∧
      Map.find 1 secondTxn.storage = some tenObject) ∧
    (ram_commit_txn secondTxn 8).1 = cvmcache_status.CVMCACHE_STATUS_OK ∧
    (cache.ReachedByCalls 100 cache.fullCold ∧
      cache.RamCacheManager.Reallocated
        (cache.RamCacheManager.filledTxn 2 30 cache.ObjectType.kTypeRegular) ∧
      cache.fullCold.pinned_entries_.GetUsed +
        (cache.RamCacheManager.txnBuffer (cache.RamCacheManager.filledTxn 2 30
          cache.ObjectType.kTypeRegular)).size ≤ cache.fullCold.max_size_ ∧
      cache.RamCacheManager.present
        ((cache.fullCold.afterCascade (cache.RamCacheManager.filledTxn 2 30
            cache.ObjectType.kTypeRegular)).target
          (cache.RamCacheManager.filledTxn 2 30 cache.ObjectType.kTypeRegular).object_type) 2 ∧
      cache.fullCold.usedTotal +
        (cache.RamCacheManager.txnBuffer (cache.RamCacheManager.filledTxn 2 30
          cache.ObjectType.kTypeRegular)).size > cache.fullCold.max_size_ ∧
      cache.fullCold.afterCascade (cache.RamCacheManager.filledTxn 2 30
        cache.ObjectType.kTypeRegular) = cache.fullColdEvicted) ∧
    cache.fullCold.CommitTxn (cache.RamCacheManager.filledTxn 2 30
      cache.ObjectType.kTypeRegular) =
      some (-cache.EEXIST, cache.fullCold.afterCascade (cache.RamCacheManager.filledTxn 2 30
        cache.ObjectType.kTypeRegular)) :=
  ⟨⟨by decide, by decide⟩,
    ((C24_duplicate_commit secondTxn 8
      ⟨1, createdObject 1 (infoOf cvmcache_object_type.CVMCACHE_OBJECT_VOLATILE) [42] 1⟩ tenObject
      100 cache.fullCold (cache.RamCacheManager.filledTxn 2 30 cache.ObjectType.kTypeRegular)).1
      (by decide) (by decide)).1,
    ⟨cache.RamCacheManager.reachable_reached cache.RamCacheManager.fullCold_reachable, by decide,
      by decide, by decide, by decide, by decide⟩,
    ((C24_duplicate_commit secondTxn 8
      ⟨1, createdObject 1 (infoOf cvmcache_object_type.CVMCACHE_OBJECT_VOLATILE) [42] 1⟩ tenObject
      100 cache.fullCold (cache.RamCacheManager.filledTxn 2 30 cache.ObjectType.kTypeRegular)).2
      (cache.RamCacheManager.reachable_reached cache.RamCacheManager.fullCold_reachable)
      (by decide) (by decide)).1 (by decide)⟩

end cache_plugin

namespace cache

open kvstore RamCacheManager

/-- C31 (transaction position invariant): for a transaction produced by
`StartTxn` (with a 64-bit size) and any later `CtrlTxn`, `Write` and `Reset`
calls, `pos ≤ size` holds, also after one more `Write` or `Reset`. A `Write`
of `n` bytes with `pos + n` below `2^64` that does not fail returns `n` and
advances `pos` by `n`; one that fails returns `-ENOSPC` and changes nothing.
`Reset` sets `pos` to 0 and keeps `size` and `expected_size`. -/
theorem C31_transaction_position (id : shash.Any) (size : Nat) (t : Transaction)
    (hsz : size < u64) (hs : Started id size t) :
    t.pos ≤ t.size ∧
    (∀ (buf : List Nat) (n : Nat), (Write buf n t).2.pos ≤ (Write buf n t).2.size) ∧
    (∀ (buf : List Nat) (n : Nat), t.pos + n < u64 → 0 ≤ (Write buf n t).1 →
      (Write buf n t).1 = (n : Int) ∧ (Write buf n t).2.pos = t.pos + n) ∧
    (∀ (buf : List Nat) (n : Nat), t.pos + n < u64 → (Write buf n t).1 < 0 →
      Write buf n t = (-ENOSPC, t)) ∧
    (Reset t).pos = 0 ∧ (Reset t).pos ≤ (Reset t).size ∧ (Reset t).size = t.size ∧
    (Reset t).expected_size = t.expected_size := by
  obtain ⟨hb, hlt⟩ := started_bound hsz hs
  refine ⟨hb, fun buf n => (Write_keeps_bound buf n hb hlt).1, ?_, ?_, rfl, Nat.zero_le _, rfl,
    rfl⟩
  · intro buf n hno hok
    rcases Write_whole buf n hb hlt hno with h | h
    · rw [h] at hok
      have hneg : ¬ (0 : Int) ≤ -ENOSPC := by decide
      exact absurd hok hneg
    · exact h
  · intro buf n hno hneg
    rcases Write_whole buf n hb hlt hno with h | h
    · exact h
    · rw [h.1] at hneg
      exact absurd hneg (by omega)

theorem C31_transaction_position_witness :
    ((5 : Nat) < u64 ∧ Started 7 5 (Write [1, 2] 2 (StartTxn 7 5)).2 ∧
      (Write [1, 2] 2 (StartTxn 7 5)).2.pos + 3 < u64 ∧
      0 ≤ (Write [3, 4, 5] 3 (Write [1, 2] 2 (StartTxn 7 5)).2).1) ∧
    (Write [3, 4, 5] 3 (Write [1, 2] 2 (StartTxn 7 5)).2).1 = ((3 : Nat) : Int) ∧
    (Write [3, 4, 5] 3 (Write [1, 2] 2 (StartTxn 7 5)).2).2.pos =
      (Write [1, 2] 2 (StartTxn 7 5)).2.pos + 3 :=
  ⟨⟨by decide, Started.write [1, 2] 2 Started.start, by decide, by decide⟩,
    (C31_transaction_position 7 5 (Write [1, 2] 2 (StartTxn 7 5)).2 (by decide)
      (Started.write [1, 2] 2 Started.start)).2.2.1 [3, 4, 5] 3 (by decide) (by decide)⟩

end cache

namespace cache

open kvstore kvstore.MemoryKvStore RamCacheManager

/-- C32 (Dup is atomic on failure) fails on the code: `Dup` increments the
reference count before `AddFd` can fail. In the reachable state with
`kMaxHandles` handles of object 1, `Dup(0)` on the valid handle 0 returns
`-ENFILE`, the handle table is as before, and the reference count of object 1
has gone up from `kMaxHandles` to `kMaxHandles + 1`. -/
theorem C32_failed_dup_keeps_the_reference :
    Reachable 1000 (openedTimes kMaxHandles) ∧
    (openedTimes kMaxHandles).IsValid 0 = true ∧
    (openedTimes kMaxHandles).Dup 0 = some (-ENFILE, overcounted kMaxHandles) ∧
    (overcounted kMaxHandles).open_fds_ = (openedTimes kMaxHandles).open_fds_ ∧
    (openedTimes kMaxHandles).pinned_entries_.GetRefcount 1 = (kMaxHandles : Int) ∧
    (overcounted kMaxHandles).pinned_entries_.GetRefcount 1 = ((kMaxHandles + 1 : Nat) : Int) :=
  ⟨openedTimes_reachable 8191 (Nat.le_refl _), IsValid_openedTimes 8191,
    Dup_openedTimes 8191 (Nat.le_refl _), rfl, rfl, rfl⟩

end cache

namespace kvstore_cc

open MemoryKvStore

/-- C33 (partition read stays inside the payload) fails on the code: `Pread`
computes `mem.size - offset` in `uint64_t` without comparing the offset with
the size. For the entry of 3 bytes, offset 4 and size 2 the difference wraps
to `2^64 - 1`, the byte count is 2, and `offset + count = 6` exceeds 3. -/
theorem C33_pread_count_beyond_payload :
    find 1 oneEntry.Entries = some ⟨[7, 8, 9], 3, 0⟩ ∧
    cache.sub64 3 4 = cache.u64 - 1 ∧
    (oneEntry.Pread 1 2 4).1.1 = 2 ∧
    ¬ (4 + 2 ≤ ([7, 8, 9] : List Nat).length) := by
  refine ⟨by decide, by decide, by decide, by decide⟩

end kvstore_cc

namespace cache_plugin

/-- C34 (plugin reads do not mutate) fails on the code for `ram_pread`: it
reads `storage[h]` without looking for the id first, which inserts an empty
object for an absent id. For the storage with object 1 only,
`ram_pread(2, 0, 4)` returns Ok with 0 bytes and the storage holds a new
object under id 2 afterwards. For every input the storage after `ram_pread`
is the storage after `storage[h]`, while `ram_obj_info` leaves every storage
as it was. -/
theorem C34_pread_inserts_absent_id :
    Map.find 2 tenStorage = none ∧
    ram_pread tenStorage 2 0 4 =
      ((cvmcache_status.CVMCACHE_STATUS_OK, 0, []), [(1, tenObject), (2, Object.zero)]) ∧
    tenStorage = [(1, tenObject)] ∧
    Map.find 2 (ram_pread tenStorage 2 0 4).2 = some Object.zero ∧
    (∀ (storage : Storage) (id offset size : Nat),
      (ram_pread storage id offset size).2 = (Map.index Object.zero id storage).2) ∧
    (∀ (storage : Storage) (id : Nat) (info : cvmcache_object_info),
      (ram_obj_info storage id info).2 = storage) := by
  refine ⟨by decide, by decide, by decide, by decide, fun storage id offset size => ?_,
    fun storage id info => ?_⟩
  · unfold ram_pread
    simp only
    split <;> rfl
  · unfold ram_obj_info
    cases h : Map.find id storage with
    | none => rfl
    | some o =>
      simp only [Option.isNone_some, Bool.false_eq_true, if_false]
      rw [Map.index_found h]

end cache_plugin
